import Mathlib

/-!
# A verification development for the `goll` sliding-window load limiter

This file embeds the data model and the operations of the limiter
(`window.go`, the submit/probe state machine, the composite coordinator and
the serialization codec) as executable Lean definitions and proves the
documented properties about them.

Modelling conventions:

* Go `uint64` values are modelled as `Nat`.  Go subtraction on `uint64`
  wraps; every theorem below carries hypotheses (well-formed configuration,
  wall-clock request timestamps at least one window wide, state invariants)
  under which none of the modelled subtractions can underflow, so that the
  `Nat` truncated subtraction used here agrees with the Go semantics.
  Additions agree with `uint64` addition whenever the sums stay below
  `2 ^ 64`; the properties proved here are arithmetic-width independent.
* Go `int64` intermediates (the `toFree` accumulator of `computeRetryIn`)
  are modelled as `Int`.
* The single `float64` configuration field that reaches the paths under
  claim (`RequestOverheadPenaltyFactor`, used only through
  `math.Round(factor * load)`) is modelled as an exact `Rat`.
* Go strings are modelled as `List Char`; `strings.Split` with the one-char
  separators used by the codec is `splitOnChar`, `strconv.Atoi` on the
  canonical decimal fragment produced by the codec is `parseNatChars`.
* The mutable per-tenant state is threaded functionally: each operation
  takes and returns a `TenantData`.
* `time.Duration` results are kept in integer milliseconds, the unit in
  which the source computes them before scaling to nanoseconds.
-/

namespace Goll

/-- A single segment of the sliding window (`windowSegment` in the source). -/
structure WindowSegment where
  startTime : Nat
  value : Nat
deriving Repr, DecidableEq

/-- Per-tenant runtime state (`loadLimiterDefaultImplTenantData`).
The window queue is newest-first: the head of the list is the front of the
deque. -/
structure TenantData where
  windowQueue : List WindowSegment
  wasOver : Bool
  windowTotal : Nat
  version : Nat
deriving Repr, DecidableEq

/-- The validated configuration (`loadLimiterEffectiveConfig`). -/
structure EffectiveConfig where
  maxLoad : Nat
  windowSize : Nat
  windowSegmentSize : Nat
  numSegments : Nat
  skipRetryInComputing : Bool
  applyOverstepPenalty : Bool
  absoluteOverstepPenalty : Nat
  overstepPenaltySegmentSpan : Nat
  applyRequestOverheadPenalty : Bool
  requestOverheadPenaltyFactor : Rat
  requestOverheadPenaltySegmentSpan : Nat
  applyPenaltyCapping : Bool
  absoluteMaxPenaltyCap : Nat
deriving Repr, DecidableEq

/-- The per-call bookkeeping record (`submitRequest`). -/
structure SubmitRequest where
  requestedLoad : Nat
  requestedTimestamp : Nat
  requestSegmentStartTime : Nat
deriving Repr, DecidableEq

/-- The result of a submission (`SubmitResult`); `retryIn` in milliseconds. -/
structure SubmitResult where
  accepted : Bool
  retryInAvailable : Bool
  retryIn : Nat
deriving Repr, DecidableEq

/-- The observability readout (`RuntimeStatistics`). -/
structure RuntimeStatistics where
  windowTotal : Nat
  windowSegments : List Nat
deriving Repr, DecidableEq

/-- `locateSegmentStartTime`: align a timestamp down to its segment start. -/
def locateSegmentStartTime (cfg : EffectiveConfig) (t : Nat) : Nat :=
  t / cfg.windowSegmentSize * cfg.windowSegmentSize

/-- `buildLoadRequest` (tenant lookup aside, which is threaded explicitly). -/
def buildLoadRequest (cfg : EffectiveConfig) (timestamp load : Nat) : SubmitRequest :=
  { requestedLoad := load
    requestedTimestamp := timestamp
    requestSegmentStartTime := locateSegmentStartTime cfg timestamp }

/-- The state `getTenant` creates on first reference to a tenant key. -/
def freshTenant : TenantData :=
  { windowQueue := [], wasOver := false, windowTotal := 0, version := 1 }

/-- `markDirty`: bump the tenant version. -/
def markDirty (tenant : TenantData) : TenantData :=
  { tenant with version := tenant.version + 1 }

/-- The fast-path test of `rotateWindow`: non-empty queue, front already at
the current segment start, back newer than `start - windowSize`. -/
def rotateFastPath (cfg : EffectiveConfig) (s : Nat) : List WindowSegment → Bool
  | [] => false
  | f :: rest =>
    f.startTime == s && decide (s - cfg.windowSize < (rest.getLastD f).startTime)

/-- The future-segment removal loop of `rotateWindow`: pop segments strictly
newer than the current segment start off the front, accumulating their load.
Returns the accumulated load to restore and the remaining queue. -/
def popFutures (s : Nat) : List WindowSegment → Nat × List WindowSegment
  | [] => (0, [])
  | f :: rest =>
    if f.startTime ≤ s then (0, f :: rest)
    else
      let p := popFutures s rest
      (p.1 + f.value, p.2)

/-- The back-eviction loop of `rotateWindow` on the reversed queue (oldest
first): drop segments whose start time is at most `removeBefore`,
accumulating the removed load. -/
def dropOldRev (removeBefore : Nat) : List WindowSegment → List WindowSegment × Nat
  | [] => ([], 0)
  | s :: rest =>
    if s.startTime ≤ removeBefore then
      let p := dropOldRev removeBefore rest
      (p.1, p.2 + s.value)
    else (s :: rest, 0)

/-- Pop segments with `startTime ≤ removeBefore` off the back of the queue,
exactly as the `PopBack` loop of `rotateWindow` does. -/
def evictBack (removeBefore : Nat) (q : List WindowSegment) : List WindowSegment × Nat :=
  let p := dropOldRev removeBefore q.reverse
  (p.1.reverse, p.2)

/-- Expected start time of the `i`-th most recent segment. -/
def expectedStart (cfg : EffectiveConfig) (latest i : Nat) : Nat :=
  latest - i * cfg.windowSegmentSize

/-- The `validSegments` lookup of `ensureLatestNSegments`: among the first
`n` queue entries, the last one registered under start time `st` (the Go map
keeps the last insertion for a duplicated key). -/
def lookupValid (q : List WindowSegment) (n st : Nat) : Option WindowSegment :=
  (q.take n).reverse.find? (fun s => s.startTime == st)

/-- The rebuild test of `ensureLatestNSegments`: some of the `n` most recent
slots is missing or holds a segment with an unexpected start time. -/
def ensureRebuildNeeded (cfg : EffectiveConfig) (latest n : Nat)
    (q : List WindowSegment) : Bool :=
  decide (q.length < n) ||
    (List.range n).any (fun i =>
      match q[i]? with
      | some seg => seg.startTime != expectedStart cfg latest i
      | none => false)

/-- The strictly-older back of the queue kept by a rebuild: iterate from the
back while the start time is below the rebuild range. -/
def ensureKeptTail (cfg : EffectiveConfig) (latest n : Nat)
    (q : List WindowSegment) : List WindowSegment :=
  (q.reverse.takeWhile
    (fun s => decide (s.startTime < expectedStart cfg latest (n - 1)))).reverse

/-- The `n` contiguous most-recent segments materialized by a rebuild,
reusing still-valid segments and zero-filling the gaps. -/
def ensureRebuilt (cfg : EffectiveConfig) (latest n : Nat)
    (q : List WindowSegment) : List WindowSegment :=
  (List.range n).map (fun i =>
    match lookupValid q n (expectedStart cfg latest i) with
    | some s => s
    | none => { startTime := expectedStart cfg latest i, value := 0 })

/-- `ensureLatestNSegments`: ensure that the `n` most recent segments exist
at the front of the queue, rebuilding the queue if any is missing or
misaligned.  The rebuild keeps the strictly-older back of the queue and
materializes the `n` contiguous expected segments, reusing still-valid ones. -/
def ensureLatestNSegments (cfg : EffectiveConfig) (req : SubmitRequest)
    (n : Nat) (tenant : TenantData) : TenantData :=
  let latest := req.requestSegmentStartTime
  let q := tenant.windowQueue
  if !ensureRebuildNeeded cfg latest n q then tenant
  else
    { tenant with
      windowQueue := ensureRebuilt cfg latest n q ++ ensureKeptTail cfg latest n q }

/-- The per-segment penalty distribution vector: `n` entries of `base`, the
first `rem` of them incremented. -/
def distList (n base rem : Nat) : List Nat :=
  (List.range n).map (fun i => if i < rem then base + 1 else base)

/-- Add the distribution vector into the values of the leading segments. -/
def addDist : List Nat → List WindowSegment → List WindowSegment
  | [], q => q
  | _ :: _, [] => []
  | d :: ds, s :: q => { s with value := s.value + d } :: addDist ds q

/-- `distributePenalty`: spread `amount` over the `numSegmentsMax` most
recent segments; when `amount < numSegmentsMax` the span shrinks to `amount`
so every touched segment receives at least 1. -/
def distributePenalty (cfg : EffectiveConfig) (req : SubmitRequest)
    (amount numSegmentsMax : Nat) (tenant : TenantData) : TenantData :=
  if amount = 0 then tenant
  else
    let n := if amount / numSegmentsMax < 1 then amount else numSegmentsMax
    let base := if amount / numSegmentsMax < 1 then 1 else amount / numSegmentsMax
    let dist := distList n base (amount % n)
    let t1 := ensureLatestNSegments cfg req n tenant
    { t1 with
      windowQueue := addDist dist t1.windowQueue
      windowTotal := t1.windowTotal + dist.sum }

/-- The guarded future-segment removal of `rotateWindow`: the pop loop runs
only when the queue front is strictly in the future of the current segment
start (`popFutures` returns the queue unchanged in exactly that case too,
but the source guards the loop, so the guard is kept). -/
def rotatePopFutures (s : Nat) (q : List WindowSegment) : Nat × List WindowSegment :=
  match q with
  | [] => (0, [])
  | f :: rest => if s < f.startTime then popFutures s (f :: rest) else (0, f :: rest)

/-- The front-segment insertion of `rotateWindow`: if the front is missing
or not at the current segment start, push a fresh empty segment.  Returns
whether a push happened (the `dirty` contribution) and the queue. -/
def rotateInsertFront (s : Nat) (q : List WindowSegment) : Bool × List WindowSegment :=
  match q with
  | [] => (true, [{ startTime := s, value := 0 }])
  | f :: rest =>
    if f.startTime != s then (true, { startTime := s, value := 0 } :: f :: rest)
    else (false, f :: rest)

/-- The guarded back eviction of `rotateWindow` (runs only when more than
one segment is queued). -/
def rotateEvict (removeBefore : Nat) (q : List WindowSegment) :
    List WindowSegment × Nat :=
  if 1 < q.length then evictBack removeBefore q else (q, 0)

/-- The slow path of `rotateWindow`: pop future segments, ensure the front
segment, evict aged segments, redistribute the future load into the current
segment, and bump the version if anything changed. -/
def rotateSlow (cfg : EffectiveConfig) (req : SubmitRequest) (tenant : TenantData) :
    TenantData :=
  let s := req.requestSegmentStartTime
  let pf := rotatePopFutures s tenant.windowQueue
  let ins := rotateInsertFront s pf.2
  let ev := rotateEvict (req.requestedTimestamp - cfg.windowSize) ins.2
  let t3 : TenantData :=
    { tenant with
      windowQueue := ev.1
      windowTotal := tenant.windowTotal - pf.1 - ev.2 }
  let dirty := ins.1 || decide (ev.1.length ≠ ins.2.length) || decide (0 < pf.1)
  let t4 := if 0 < pf.1 then distributePenalty cfg req pf.1 1 t3 else t3
  if dirty then markDirty t4 else t4

/-- `rotateWindow`: align the queue with the request's segment start time,
compensating future segments (clock skew across sync peers), inserting the
current segment and evicting segments that fell outside the window. -/
def rotateWindow (cfg : EffectiveConfig) (req : SubmitRequest) (tenant : TenantData) :
    TenantData :=
  if rotateFastPath cfg req.requestSegmentStartTime tenant.windowQueue then tenant
  else rotateSlow cfg req tenant

/-- Failure modes of `computeRetryIn`: the explicit errors of the source and
the defensive panic on a negative wait. -/
inductive RetryInError where
  | excessiveLoad
  | inconsistentQueue
  | negativeRetryIn
deriving Repr, DecidableEq

/-- The oldest-to-newest walk of `computeRetryIn`: subtract segment values
from `toFree` while it stays positive, remembering the start time of the
last visited segment. -/
def retryWalk : List WindowSegment → Int → Nat → Nat × Int
  | [], toFree, last => (last, toFree)
  | seg :: rest, toFree, last =>
    if 0 < toFree then
      retryWalk rest (if 0 < seg.value then toFree - (seg.value : Int) else toFree)
        seg.startTime
    else (last, toFree)

/-- `computeRetryIn`: the minimum wait (milliseconds) until enough load ages
out of the window for the requested load to fit. -/
def computeRetryIn (cfg : EffectiveConfig) (req : SubmitRequest) (tenant : TenantData) :
    Except RetryInError Nat :=
  if cfg.maxLoad < req.requestedLoad then .error .excessiveLoad
  else
    let toFree : Int :=
      (req.requestedLoad : Int) + (tenant.windowTotal : Int) - (cfg.maxLoad : Int)
    if toFree ≤ 0 then .ok 0
    else
      let w := retryWalk tenant.windowQueue.reverse toFree 0
      if w.1 = 0 ∨ 0 < w.2 then .error .inconsistentQueue
      else
        let minSegmentAvailTime := w.1 + cfg.windowSize
        if minSegmentAvailTime < req.requestedTimestamp then .error .negativeRetryIn
        else .ok (minSegmentAvailTime - req.requestedTimestamp)

/-- The capping removal loop on the reversed queue (oldest first): shave
`amount` starting from the oldest segment, removing emptied segments.
Returns the amount actually removed and the remaining (reversed) queue. -/
def removeOldestRev : Nat → List WindowSegment → Nat × List WindowSegment
  | _, [] => (0, [])
  | amount, s :: rest =>
    if amount = 0 then (0, s :: rest)
    else if amount ≤ s.value then
      if s.value - amount = 0 then (amount, rest)
      else (amount, { s with value := s.value - amount } :: rest)
    else
      let p := removeOldestRev (amount - s.value) rest
      (s.value + p.1, p.2)

/-- `removeFromOldestSegments`: shave `amount` from the oldest segments and
restore a single empty segment at the current segment start if the queue
would become empty. -/
def removeFromOldestSegments (req : SubmitRequest) (amount : Nat) (tenant : TenantData) :
    TenantData :=
  let p := removeOldestRev amount tenant.windowQueue.reverse
  let q1 := p.2.reverse
  let q2 :=
    if q1 = [] then [{ startTime := req.requestSegmentStartTime, value := 0 }] else q1
  { tenant with windowQueue := q2, windowTotal := tenant.windowTotal - p.1 }

/-- `applyCapping`: when enabled, bring the window total back down to the
absolute penalty cap by shaving the oldest segments. -/
def applyCapping (cfg : EffectiveConfig) (req : SubmitRequest) (tenant : TenantData) :
    TenantData :=
  if !cfg.applyPenaltyCapping then tenant
  else if cfg.absoluteMaxPenaltyCap < tenant.windowTotal then
    removeFromOldestSegments req (tenant.windowTotal - cfg.absoluteMaxPenaltyCap) tenant
  else tenant

/-- The internal `probe`: rotate, then check whether the load would fit. -/
def probeCore (cfg : EffectiveConfig) (req : SubmitRequest) (tenant : TenantData) :
    Bool × TenantData :=
  let t1 := rotateWindow cfg req tenant
  (decide (t1.windowTotal + req.requestedLoad ≤ cfg.maxLoad), t1)

/-- `acceptLoad`: clear the overload flag, add the load to the front segment
and the total, cap, bump the version.  (The source reads the queue front,
which is non-empty after any rotation; the empty case is unreachable.) -/
def acceptLoad (cfg : EffectiveConfig) (req : SubmitRequest) (tenant : TenantData) :
    TenantData :=
  match tenant.windowQueue with
  | [] => tenant
  | f :: rest =>
    let t1 : TenantData :=
      { tenant with
        wasOver := false
        windowTotal := tenant.windowTotal + req.requestedLoad
        windowQueue := { f with value := f.value + req.requestedLoad } :: rest }
    markDirty (applyCapping cfg req t1)

/-- `math.Round` on the non-negative arguments produced by the penalty
computation: round half away from zero. -/
def roundHalfUp (x : Rat) : Int := (x + 1 / 2).floor

/-- The penalty phase of `rejectLoad`: returns `(someAdded, dirty, state)`.
A first rejection (overload flag clear) applies the overstep penalty and
raises the flag; a repeated rejection applies the rounded request-overhead
penalty when it reaches 1. -/
def rejectPenaltyStep (cfg : EffectiveConfig) (req : SubmitRequest)
    (tenant : TenantData) : Bool × Bool × TenantData :=
  if !tenant.wasOver then
    let t' :=
      if cfg.applyOverstepPenalty then
        distributePenalty cfg req cfg.absoluteOverstepPenalty
          cfg.overstepPenaltySegmentSpan tenant
      else tenant
    (cfg.applyOverstepPenalty, true, { t' with wasOver := true })
  else if cfg.applyRequestOverheadPenalty then
    let penalty := roundHalfUp (cfg.requestOverheadPenaltyFactor * (req.requestedLoad : Rat))
    if 1 ≤ penalty then
      (true, true,
        distributePenalty cfg req penalty.toNat cfg.requestOverheadPenaltySegmentSpan tenant)
    else (false, false, tenant)
  else (false, false, tenant)

/-- The retry-hint phase of `rejectLoad`: unless disabled, a successfully
computed hint is attached; any failure reports no hint. -/
def rejectRetryResult (cfg : EffectiveConfig) (req : SubmitRequest)
    (t3 : TenantData) : SubmitResult :=
  if !cfg.skipRetryInComputing then
    match computeRetryIn cfg req t3 with
    | .ok d => { accepted := false, retryInAvailable := true, retryIn := d }
    | .error _ => { accepted := false, retryInAvailable := false, retryIn := 0 }
  else { accepted := false, retryInAvailable := false, retryIn := 0 }

/-- `rejectLoad`: apply the overstep penalty on a first rejection or the
request-overhead penalty on a repeated one, cap if anything was added, bump
the version if anything changed, then compute the retry hint. -/
def rejectLoad (cfg : EffectiveConfig) (req : SubmitRequest) (tenant : TenantData) :
    SubmitResult × TenantData :=
  let step := rejectPenaltyStep cfg req tenant
  let t2 := if step.1 then applyCapping cfg req step.2.2 else step.2.2
  let t3 := if step.2.1 then markDirty t2 else t2
  (rejectRetryResult cfg req t3, t3)

/-- The public `Probe` (the adapterless sync transaction just runs the task). -/
def probeOp (cfg : EffectiveConfig) (timestamp load : Nat) (tenant : TenantData) :
    Bool × TenantData :=
  probeCore cfg (buildLoadRequest cfg timestamp load) tenant

/-- The public `Submit`: probe, then take the accept or the reject path. -/
def submitOp (cfg : EffectiveConfig) (timestamp load : Nat) (tenant : TenantData) :
    SubmitResult × TenantData :=
  let req := buildLoadRequest cfg timestamp load
  let p := probeCore cfg req tenant
  if p.1 then
    ({ accepted := true, retryInAvailable := false, retryIn := 0 }, acceptLoad cfg req p.2)
  else rejectLoad cfg req p.2

/-- The public `Stats` readout for one tenant (read-only). -/
def statsOp (tenant : TenantData) : RuntimeStatistics :=
  { windowTotal := tenant.windowTotal
    windowSegments := tenant.windowQueue.map (fun s => s.value) }

/-! ## The composite coordinator

A composite limiter is an ordered list of member limiters; for a fixed
tenant key, its state is the list of member configurations paired with that
tenant's per-member state. -/

/-- One member of a composite limiter, for a fixed tenant key. -/
structure MemberState where
  config : EffectiveConfig
  tenant : TenantData
deriving Repr, DecidableEq

/-- Phase one of the composite `submit` for one member: probe, and on a
rejection invoke the member's reject path.  Returns the probe outcome, the
rejection result when the member rejected, and the member's new state. -/
def memberPhase1 (timestamp load : Nat) (m : MemberState) :
    Bool × Option SubmitResult × MemberState :=
  let req := buildLoadRequest m.config timestamp load
  let p := probeCore m.config req m.tenant
  if p.1 then (true, none, { m with tenant := p.2 })
  else
    let r := rejectLoad m.config req p.2
    (false, some r.1, { m with tenant := r.2 })

/-- The `highestWaitTime` accumulation of the composite `submit`: fold the
source's update rule over the phase-one outcomes. -/
def compositeHighestWait (steps : List (Bool × Option SubmitResult × MemberState)) : Nat :=
  steps.foldl
    (fun h step =>
      match step.2.1 with
      | some r => if r.retryInAvailable && (h == 0 || h < r.retryIn) then r.retryIn else h
      | none => h)
    0

/-- The composite `submit`: probe every member (rejecters take their reject
path immediately); if and only if all probes passed, apply `acceptLoad` to
every member with the request records kept from the probe phase. -/
def compositeSubmit (members : List MemberState) (timestamp load : Nat) :
    SubmitResult × List MemberState :=
  let steps := members.map (memberPhase1 timestamp load)
  let allAccepted := steps.all (fun st => st.1)
  let highest := compositeHighestWait steps
  let members' :=
    if allAccepted then
      steps.map (fun st =>
        { st.2.2 with
          tenant :=
            acceptLoad st.2.2.config (buildLoadRequest st.2.2.config timestamp load)
              st.2.2.tenant })
    else steps.map (fun st => st.2.2)
  ({ accepted := allAccepted
     retryInAvailable := !allAccepted && decide (0 < highest)
     retryIn := highest }, members')

/-- The retry hints the composite `submit` considers: the `RetryIn` values of
the rejection results that carried `RetryInAvailable`. -/
def availableHints (steps : List (Bool × Option SubmitResult × MemberState)) : List Nat :=
  steps.filterMap (fun st =>
    match st.2.1 with
    | some r => if r.retryInAvailable then some r.retryIn else none
    | none => none)

/-! ## The serialization codec

Go strings are `List Char`; the `/`, `,` and `:` separated v1 format is
produced and parsed exactly as in `synchronization.go`. -/

/-- Canonical decimal digits of a natural number (`%d`). -/
def natToChars (n : Nat) : List Char :=
  if _h : n < 10 then [Nat.digitChar n]
  else natToChars (n / 10) ++ [Nat.digitChar (n % 10)]
decreasing_by exact Nat.div_lt_self (by omega) (by omega)

/-- `strings.Split` with a one-character separator. -/
def splitOnChar (c : Char) : List Char → List (List Char)
  | [] => [[]]
  | a :: rest =>
    match splitOnChar c rest with
    | [] => [[]]
    | g :: gs => if a = c then [] :: g :: gs else (a :: g) :: gs

/-- A decimal digit's value, if the character is a digit. -/
def digitVal? (c : Char) : Option Nat :=
  if '0' ≤ c ∧ c ≤ '9' then some (c.toNat - '0'.toNat) else none

/-- `strconv.Atoi` on the canonical unsigned decimal fragment the codec
emits: all-digit, non-empty tokens parse; everything else is an error. -/
def parseNatChars (s : List Char) : Option Nat :=
  if s.isEmpty then none
  else
    s.foldl
      (fun acc c =>
        match acc, digitVal? c with
        | some a, some d => some (a * 10 + d)
        | _, _ => none)
      (some 0)

/-- One serialized segment: `start:value`. -/
def serializeSegment (s : WindowSegment) : List Char :=
  natToChars s.startTime ++ ':' :: natToChars s.value

/-- The comma-joined segment section, queue front first (the source appends
a trailing comma per segment and trims it). -/
def serializeSegments : List WindowSegment → List Char
  | [] => []
  | [s] => serializeSegment s
  | s :: rest => serializeSegment s ++ ',' :: serializeSegments rest

/-- `serializeStatus`: `v1/<version>/<total>/<wasOver>/<segments>`. -/
def serializeStatus (tenant : TenantData) : List Char :=
  'v' :: '1' :: '/' :: natToChars tenant.version
    ++ '/' :: natToChars tenant.windowTotal
    ++ '/' :: (if tenant.wasOver then ['1'] else ['0'])
    ++ '/' :: serializeSegments tenant.windowQueue

/-- The decode failures of `restoreSerializedStatus`. -/
inductive RestoreError where
  | notEnoughTokens
  | invalidSerializationVersion
  | invalidTokenCount
  | badVersion
  | staleVersion
  | badWindowTotal
  | badSegment
deriving Repr, DecidableEq

/-- Parse one `start:value` token. -/
def parseSegToken (tok : List Char) : Option WindowSegment :=
  match splitOnChar ':' tok with
  | [a, b] =>
    match parseNatChars a, parseNatChars b with
    | some st, some v => some { startTime := st, value := v }
    | _, _ => none
  | _ => none

/-- The segment-restoration loop: tokens are consumed back to front with
`PushFront`, so the successfully parsed suffix of tokens becomes the queue
in forward order; a malformed token aborts the loop, keeping the partial
queue (the source has already cleared the old one). -/
def parseSegmentsBackToFront : List (List Char) → List WindowSegment × Bool
  | [] => ([], true)
  | tok :: rest =>
    let p := parseSegmentsBackToFront rest
    if p.2 then
      match parseSegToken tok with
      | some s => (s :: p.1, true)
      | none => (p.1, false)
    else p

/-- `restoreSerializedStatus`: decode a payload into the tenant state.
Returns the tenant as the source leaves it (on a segment decode failure the
queue has already been cleared and partially refilled) together with the
error, if any; a matching version is a no-op and a lower remote version is
a staleness error. -/
def restoreSerializedStatus (serialized : List Char) (tenant : TenantData) :
    TenantData × Option RestoreError :=
  match splitOnChar '/' serialized with
  | [] => (tenant, some .notEnoughTokens)
  | tag :: rest =>
    if tag ≠ ['v', '1'] then (tenant, some .invalidSerializationVersion)
    else
      match rest with
      | [verTok, totTok, overTok, segTok] =>
        match parseNatChars verTok with
        | none => (tenant, some .badVersion)
        | some remoteVersion =>
          if tenant.version = remoteVersion then (tenant, none)
          else if remoteVersion < tenant.version then (tenant, some .staleVersion)
          else
            match parseNatChars totTok with
            | none => (tenant, some .badWindowTotal)
            | some total =>
              let wasOver := overTok = ['1']
              let p := parseSegmentsBackToFront (splitOnChar ',' segTok)
              if p.2 then
                ({ windowQueue := p.1, wasOver := wasOver, windowTotal := total
                   version := remoteVersion }, none)
              else ({ tenant with windowQueue := p.1 }, some .badSegment)
      | _ => (tenant, some .invalidTokenCount)

/-! ## Invariants -/

/-- Total load stored in a queue. -/
def segSum (q : List WindowSegment) : Nat := (q.map (fun s => s.value)).sum

/-- The queue is strictly newest-first: start times strictly decrease from
front to back. -/
def StrictlyNewestFirst (q : List WindowSegment) : Prop :=
  q.Pairwise (fun a b => b.startTime < a.startTime)

/-- Every start time in the queue is a multiple of the segment size. -/
def Aligned (cfg : EffectiveConfig) (q : List WindowSegment) : Prop :=
  ∀ s ∈ q, cfg.windowSegmentSize ∣ s.startTime

/-- The documented per-tenant invariants: the cached total is the sum of the
segment values, and the queue is strictly ordered and segment-aligned. -/
def TenantWF (cfg : EffectiveConfig) (tenant : TenantData) : Prop :=
  tenant.windowTotal = segSum tenant.windowQueue ∧
  StrictlyNewestFirst tenant.windowQueue ∧
  Aligned cfg tenant.windowQueue

/-- The facts the factory (`validateConfiguration`) guarantees about an
effective configuration. -/
def CfgWF (cfg : EffectiveConfig) : Prop :=
  0 < cfg.windowSegmentSize ∧
  cfg.windowSize = cfg.numSegments * cfg.windowSegmentSize ∧
  1 ≤ cfg.numSegments ∧
  1 ≤ cfg.overstepPenaltySegmentSpan ∧
  cfg.overstepPenaltySegmentSpan ≤ cfg.numSegments ∧
  1 ≤ cfg.requestOverheadPenaltySegmentSpan ∧
  cfg.requestOverheadPenaltySegmentSpan ≤ cfg.numSegments ∧
  cfg.maxLoad ≤ cfg.absoluteMaxPenaltyCap

/-- A well-formed request: the segment start is derived from the timestamp,
and the wall-clock timestamp is at least one window wide (true of every
epoch-based timestamp for any practical window; this is what keeps all the
`uint64` subtractions of the source away from underflow). -/
def ReqWF (cfg : EffectiveConfig) (req : SubmitRequest) : Prop :=
  req.requestSegmentStartTime = locateSegmentStartTime cfg req.requestedTimestamp ∧
  cfg.windowSize ≤ req.requestSegmentStartTime

instance (q : List WindowSegment) : Decidable (StrictlyNewestFirst q) :=
  inferInstanceAs (Decidable (q.Pairwise _))

instance (cfg : EffectiveConfig) (q : List WindowSegment) : Decidable (Aligned cfg q) :=
  inferInstanceAs (Decidable (∀ s ∈ q, cfg.windowSegmentSize ∣ s.startTime))

instance (cfg : EffectiveConfig) (tenant : TenantData) : Decidable (TenantWF cfg tenant) :=
  inferInstanceAs (Decidable (_ ∧ _ ∧ _))

instance (cfg : EffectiveConfig) : Decidable (CfgWF cfg) :=
  inferInstanceAs (Decidable (_ ∧ _ ∧ _ ∧ _ ∧ _ ∧ _ ∧ _ ∧ _))

instance (cfg : EffectiveConfig) (req : SubmitRequest) : Decidable (ReqWF cfg req) :=
  inferInstanceAs (Decidable (_ ∧ _))

/-- The state `rotateWindow` promises: the invariants hold, the queue is
non-empty with its front exactly at the request's segment start, and no
segment has aged out of the window. -/
def RotatedState (cfg : EffectiveConfig) (req : SubmitRequest) (tenant : TenantData) : Prop :=
  TenantWF cfg tenant ∧
  (∃ f rest, tenant.windowQueue = f :: rest ∧
    f.startTime = req.requestSegmentStartTime) ∧
  ∀ s ∈ tenant.windowQueue, req.requestedTimestamp < s.startTime + cfg.windowSize

/-- The span `distributePenalty` actually spreads over: the requested span,
reduced to the amount when the amount is smaller. -/
def penaltySpan (amount n : Nat) : Nat := if amount < n then amount else n

/-- A representative effective configuration (10 segments of 1000 ms, max
load 100, overstep penalty 10 over 3 segments, capping at 150) used for the
concrete checks below. -/
def sampleConfig : EffectiveConfig :=
  { maxLoad := 100
    windowSize := 10000
    windowSegmentSize := 1000
    numSegments := 10
    skipRetryInComputing := false
    applyOverstepPenalty := true
    absoluteOverstepPenalty := 10
    overstepPenaltySegmentSpan := 3
    applyRequestOverheadPenalty := false
    requestOverheadPenaltyFactor := 0
    requestOverheadPenaltySegmentSpan := 1
    applyPenaltyCapping := true
    absoluteMaxPenaltyCap := 150 }

/-- The same configuration with a zero load budget: every request is
rejected. -/
def sampleConfigLow : EffectiveConfig :=
  { sampleConfig with maxLoad := 0, absoluteMaxPenaltyCap := 0 }

/-! ### Elementary facts -/

theorem segSum_append (a b : List WindowSegment) :
    segSum (a ++ b) = segSum a + segSum b := by
  simp [segSum]

theorem segSum_reverse (a : List WindowSegment) : segSum a.reverse = segSum a := by
  simp [segSum, List.sum_reverse]

theorem segSum_cons (s : WindowSegment) (q : List WindowSegment) :
    segSum (s :: q) = s.value + segSum q := by
  simp [segSum]

theorem segSum_nil : segSum [] = 0 := rfl

theorem reqWF_facts {cfg : EffectiveConfig} {req : SubmitRequest}
    (hc : CfgWF cfg) (hr : ReqWF cfg req) :
    cfg.windowSegmentSize ∣ req.requestSegmentStartTime ∧
    req.requestSegmentStartTime ≤ req.requestedTimestamp ∧
    req.requestedTimestamp < req.requestSegmentStartTime + cfg.windowSegmentSize ∧
    cfg.windowSegmentSize ≤ cfg.windowSize := by
  obtain ⟨hseg, hws, hnum, -⟩ := hc
  obtain ⟨hS, -⟩ := hr
  refine ⟨?_, ?_, ?_, ?_⟩
  · rw [hS]; exact dvd_mul_left _ _
  · rw [hS]; exact Nat.div_mul_le_self _ _
  · rw [hS]
    unfold locateSegmentStartTime
    have h1 := Nat.div_add_mod req.requestedTimestamp cfg.windowSegmentSize
    rw [Nat.mul_comm] at h1
    have h2 := Nat.mod_lt req.requestedTimestamp hseg
    linarith
  · calc cfg.windowSegmentSize = 1 * cfg.windowSegmentSize := by ring
      _ ≤ cfg.numSegments * cfg.windowSegmentSize := Nat.mul_le_mul_right _ hnum
      _ = cfg.windowSize := hws.symm

theorem strictlyNewestFirst_head_max {f : WindowSegment} {rest : List WindowSegment}
    (h : StrictlyNewestFirst (f :: rest)) :
    ∀ x ∈ f :: rest, x.startTime ≤ f.startTime := by
  rw [StrictlyNewestFirst, List.pairwise_cons] at h
  intro x hx
  rcases List.mem_cons.mp hx with rfl | hx
  · exact le_refl _
  · exact le_of_lt (h.1 x hx)

theorem getLastD_min_of_sorted :
    ∀ (rest : List WindowSegment) (f : WindowSegment),
      StrictlyNewestFirst (f :: rest) →
      ∀ x ∈ f :: rest, (rest.getLastD f).startTime ≤ x.startTime := by
  intro rest
  induction rest with
  | nil =>
    intro f _ x hx
    rcases List.mem_cons.mp hx with rfl | hx
    · simp
    · simp at hx
  | cons g rest' ih =>
    intro f h x hx
    rw [StrictlyNewestFirst, List.pairwise_cons] at h
    have hsorted : StrictlyNewestFirst (g :: rest') := h.2
    have hgf : g.startTime < f.startTime := h.1 g (by simp)
    rw [List.getLastD_cons]
    rcases List.mem_cons.mp hx with rfl | hx
    · exact le_trans (le_of_lt (lt_of_le_of_lt (ih g hsorted g (by simp)) hgf)) (le_refl _)
    · exact ih g hsorted x hx

/-! ### The rotation sub-loops -/

theorem popFutures_spec (s : Nat) (q : List WindowSegment) :
    ∃ pre, q = pre ++ (popFutures s q).2 ∧
      (popFutures s q).1 = segSum pre ∧
      (∀ x ∈ pre, s < x.startTime) ∧
      (∀ f, (popFutures s q).2.head? = some f → f.startTime ≤ s) := by
  induction q with
  | nil =>
    refine ⟨[], by simp [popFutures], by simp [popFutures, segSum], by simp, ?_⟩
    intro f hf
    simp [popFutures] at hf
  | cons f rest ih =>
    by_cases h : f.startTime ≤ s
    · refine ⟨[], by simp [popFutures, h], by simp [popFutures, h, segSum], by simp, ?_⟩
      intro g hg
      simp [popFutures, h] at hg
      simpa [hg] using h
    · obtain ⟨pre, hq, hsum, hmem, hhead⟩ := ih
      refine ⟨f :: pre, ?_, ?_, ?_, ?_⟩
      · simp only [popFutures, if_neg h]
        rw [List.cons_append, ← hq]
      · simp only [popFutures, if_neg h]
        rw [segSum_cons, hsum]
        omega
      · intro x hx
        rcases List.mem_cons.mp hx with rfl | hx
        · omega
        · exact hmem x hx
      · intro g hg
        simp only [popFutures, if_neg h] at hg
        exact hhead g hg

theorem dropOldRev_spec (rb : Nat) (l : List WindowSegment) :
    ∃ dropped, l = dropped ++ (dropOldRev rb l).1 ∧
      (dropOldRev rb l).2 = segSum dropped ∧
      (∀ x ∈ dropped, x.startTime ≤ rb) ∧
      (∀ f, (dropOldRev rb l).1.head? = some f → rb < f.startTime) := by
  induction l with
  | nil =>
    refine ⟨[], by simp [dropOldRev], by simp [dropOldRev, segSum], by simp, ?_⟩
    intro f hf
    simp [dropOldRev] at hf
  | cons s rest ih =>
    by_cases h : s.startTime ≤ rb
    · obtain ⟨dropped, hl, hsum, hmem, hhead⟩ := ih
      refine ⟨s :: dropped, ?_, ?_, ?_, ?_⟩
      · simp only [dropOldRev, if_pos h]
        rw [List.cons_append, ← hl]
      · simp only [dropOldRev, if_pos h]
        rw [segSum_cons, hsum]
        omega
      · intro x hx
        rcases List.mem_cons.mp hx with rfl | hx
        · exact h
        · exact hmem x hx
      · intro g hg
        simp only [dropOldRev, if_pos h] at hg
        exact hhead g hg
    · refine ⟨[], by simp [dropOldRev, h], by simp [dropOldRev, h, segSum], by simp, ?_⟩
      intro g hg
      simp only [dropOldRev, if_neg h, List.head?_cons, Option.some.injEq] at hg
      subst hg
      omega

theorem evictBack_spec (rb : Nat) (q : List WindowSegment) :
    ∃ dropped, q = (evictBack rb q).1 ++ dropped ∧
      (evictBack rb q).2 = segSum dropped ∧
      (∀ x ∈ dropped, x.startTime ≤ rb) ∧
      (∀ f, (evictBack rb q).1.getLast? = some f → rb < f.startTime) := by
  obtain ⟨droppedRev, hl, hsum, hmem, hhead⟩ := dropOldRev_spec rb q.reverse
  refine ⟨droppedRev.reverse, ?_, ?_, ?_, ?_⟩
  · conv_lhs => rw [← List.reverse_reverse q, hl]
    rw [List.reverse_append]
    rfl
  · simpa [evictBack, segSum_reverse] using hsum
  · intro x hx
    exact hmem x (List.mem_reverse.mp hx)
  · intro f hf
    apply hhead
    have h1 : (dropOldRev rb q.reverse).1.reverse.getLast? = some f := by
      simpa [evictBack] using hf
    rwa [List.getLast?_reverse] at h1

/-! ### Facts about `ensureLatestNSegments` -/

theorem nodupKeys_of_sorted {q : List WindowSegment} (h : StrictlyNewestFirst q) :
    (q.map (fun s => s.startTime)).Nodup := by
  rw [List.Nodup, List.pairwise_map]
  exact h.imp fun hab => by omega

theorem find?_key_of_mem {l : List WindowSegment} {a : WindowSegment}
    (hnd : (l.map (fun s => s.startTime)).Nodup) (ha : a ∈ l) {st : Nat}
    (hst : a.startTime = st) :
    l.find? (fun s => s.startTime == st) = some a := by
  induction l with
  | nil => simp at ha
  | cons b rest ih =>
    simp only [List.map_cons, List.nodup_cons] at hnd
    rcases List.mem_cons.mp ha with rfl | ha
    · rw [List.find?_cons]
      simp [hst]
    · have hb : (b.startTime == st) = false := by
        rw [beq_eq_false_iff_ne]
        intro he
        exact hnd.1 (he.trans hst.symm ▸ List.mem_map_of_mem (fun s => s.startTime) ha)
      rw [List.find?_cons, hb]
      exact ih hnd.2 ha

theorem expectedStart_anti (cfg : EffectiveConfig) (S : Nat) {i j : Nat} (h : i ≤ j) :
    expectedStart cfg S j ≤ expectedStart cfg S i :=
  Nat.sub_le_sub_left (Nat.mul_le_mul_right _ h) S

theorem expectedStart_strict_anti (cfg : EffectiveConfig) {S n : Nat}
    (hseg : 0 < cfg.windowSegmentSize)
    (hle : (n - 1) * cfg.windowSegmentSize ≤ S) {i j : Nat}
    (hij : i < j) (hj : j < n) :
    expectedStart cfg S j < expectedStart cfg S i := by
  have h1 : i * cfg.windowSegmentSize < j * cfg.windowSegmentSize :=
    (Nat.mul_lt_mul_right hseg).mpr hij
  have h2 : j * cfg.windowSegmentSize ≤ (n - 1) * cfg.windowSegmentSize :=
    Nat.mul_le_mul_right _ (by omega)
  unfold expectedStart
  omega

theorem expectedStart_inj (cfg : EffectiveConfig) {S n : Nat}
    (hseg : 0 < cfg.windowSegmentSize)
    (hle : (n - 1) * cfg.windowSegmentSize ≤ S) {i j : Nat}
    (hi : i < n) (hj : j < n)
    (h : expectedStart cfg S i = expectedStart cfg S j) : i = j := by
  rcases Nat.lt_trichotomy i j with hij | hij | hij
  · exact absurd h (Nat.ne_of_gt (expectedStart_strict_anti cfg hseg hle hij hj))
  · exact hij
  · exact absurd h (Nat.ne_of_lt (expectedStart_strict_anti cfg hseg hle hij hi))

/-- Every segment aligned, bounded by `S` and at least `expectedStart S (n-1)`
sits at one of the `n` expected start times. -/
theorem mem_expected_of_aligned (cfg : EffectiveConfig) {S n : Nat}
    (hseg : 0 < cfg.windowSegmentSize) (hS : cfg.windowSegmentSize ∣ S)
    (hn : 0 < n) (hle : (n - 1) * cfg.windowSegmentSize ≤ S) {st : Nat}
    (hdvd : cfg.windowSegmentSize ∣ st) (hub : st ≤ S)
    (hlb : expectedStart cfg S (n - 1) ≤ st) :
    ∃ k < n, st = expectedStart cfg S k := by
  have hdiff : cfg.windowSegmentSize ∣ S - st := Nat.dvd_sub' hS hdvd
  obtain ⟨k, hk⟩ := hdiff
  refine ⟨k, ?_, ?_⟩
  · unfold expectedStart at hlb
    have h1 : cfg.windowSegmentSize * k ≤ (n - 1) * cfg.windowSegmentSize := by omega
    rw [Nat.mul_comm] at h1
    have := Nat.le_of_mul_le_mul_right h1 hseg
    omega
  · unfold expectedStart
    rw [Nat.mul_comm]
    omega

theorem sum_map_ite_eq_zero {n k v : Nat} (h : n ≤ k) :
    ((List.range n).map (fun i => if i = k then v else 0)).sum = 0 := by
  induction n with
  | zero => simp
  | succ m ih =>
    rw [List.range_succ, List.map_append, List.sum_append, ih (by omega)]
    simp
    omega

theorem sum_map_ite_single {n k v : Nat} (h : k < n) :
    ((List.range n).map (fun i => if i = k then v else 0)).sum = v := by
  induction n with
  | zero => omega
  | succ m ih =>
    rw [List.range_succ, List.map_append, List.sum_append]
    by_cases hk : k = m
    · subst hk
      rw [sum_map_ite_eq_zero (le_refl _)]
      simp
    · rw [ih (by omega)]
      simp [Ne.symm hk]

/-- On a strictly increasing (oldest-first) list, everything that survives
`dropWhile (startTime < rb)` has start time at least `rb`. -/
theorem dropWhile_ge {rb : Nat} :
    ∀ {l : List WindowSegment},
      l.Pairwise (fun a b => a.startTime < b.startTime) →
      ∀ x ∈ l.dropWhile (fun s => decide (s.startTime < rb)), rb ≤ x.startTime := by
  intro l
  induction l with
  | nil => intro _ x hx; simp at hx
  | cons a rest ih =>
    intro h x hx
    rw [List.pairwise_cons] at h
    by_cases hp : a.startTime < rb
    · rw [List.dropWhile_cons, if_pos (by simpa using hp)] at hx
      exact ih h.2 x hx
    · rw [List.dropWhile_cons, if_neg (by simpa using hp)] at hx
      rcases List.mem_cons.mp hx with rfl | hx
      · omega
      · have := h.1 x hx
        omega

/-- Two multiples of the segment size that are strictly ordered differ by at
least a whole segment. -/
theorem aligned_gap {seg a b : Nat} (ha : seg ∣ a) (hb : seg ∣ b) (h : b < a) :
    b + seg ≤ a := by
  obtain ⟨x, rfl⟩ := ha
  obtain ⟨y, rfl⟩ := hb
  have hseg : 0 < seg := by
    rcases Nat.eq_zero_or_pos seg with h0 | h0
    · subst h0; omega
    · exact h0
  have : y < x := by
    by_contra hxy
    exact absurd (Nat.mul_le_mul_left seg (Nat.le_of_not_lt hxy)) (Nat.not_le_of_lt h)
  calc seg * y + seg = seg * (y + 1) := by ring
    _ ≤ seg * x := Nat.mul_le_mul_left seg this


/-- Summing the reused segment values over the `n` expected slots counts
each segment of a key-distinct pool (whose keys all are expected starts)
exactly once. -/
theorem sum_lookup_values (cfg : EffectiveConfig) {S n : Nat}
    (hseg : 0 < cfg.windowSegmentSize)
    (hle : (n - 1) * cfg.windowSegmentSize ≤ S) :
    ∀ A : List WindowSegment,
      (A.map (fun s => s.startTime)).Nodup →
      (∀ a ∈ A, ∃ k, k < n ∧ a.startTime = expectedStart cfg S k) →
      ((List.range n).map (fun k =>
        match A.find? (fun s => s.startTime == expectedStart cfg S k) with
        | some a => a.value
        | none => 0)).sum = segSum A := by
  intro A
  induction A with
  | nil =>
    intro _ _
    simp [segSum]
  | cons a A' ih =>
    intro hnd hex
    simp only [List.map_cons, List.nodup_cons] at hnd
    obtain ⟨ka, hka, hkaeq⟩ := hex a (by simp)
    have hA'key : ∀ x ∈ A', x.startTime ≠ a.startTime := fun x hx he =>
      hnd.1 (he ▸ List.mem_map_of_mem (fun s => s.startTime) hx)
    have hpoint : ∀ k ∈ List.range n,
        (match (a :: A').find? (fun s => s.startTime == expectedStart cfg S k) with
         | some x => x.value
         | none => 0)
        = (match A'.find? (fun s => s.startTime == expectedStart cfg S k) with
           | some x => x.value
           | none => 0) + (if k = ka then a.value else 0) := by
      intro k hk
      rw [List.mem_range] at hk
      by_cases hkka : k = ka
      · subst hkka
        rw [List.find?_cons]
        have hguard : (a.startTime == expectedStart cfg S k) = true := by
          simp [hkaeq]
        rw [hguard]
        have hnone : A'.find? (fun s => s.startTime == expectedStart cfg S k) = none := by
          rw [List.find?_eq_none]
          intro x hx hbeq
          rw [beq_iff_eq] at hbeq
          exact hA'key x hx (hbeq.trans hkaeq.symm)
        rw [hnone]
        simp
      · rw [List.find?_cons]
        have hguard : (a.startTime == expectedStart cfg S k) = false := by
          rw [beq_eq_false_iff_ne, hkaeq]
          intro he
          exact hkka (expectedStart_inj cfg hseg hle hk hka he.symm)
        rw [hguard]
        simp [hkka]
    rw [List.map_congr_left hpoint, List.sum_map_add,
      ih hnd.2 (fun x hx => hex x (by simp [hx])), sum_map_ite_single hka, segSum_cons]
    omega

/-- In a sorted, aligned queue bounded above by `S`, the `i`-th segment's
start time is at most `S - i * segmentSize` (stated additively). -/
theorem start_add_index_le (cfg : EffectiveConfig) :
    ∀ (q : List WindowSegment) (S : Nat),
      StrictlyNewestFirst q → Aligned cfg q →
      (∀ x ∈ q, x.startTime ≤ S) →
      ∀ i s, q[i]? = some s → s.startTime + i * cfg.windowSegmentSize ≤ S := by
  intro q
  induction q with
  | nil =>
    intro S _ _ _ i s hs
    simp at hs
  | cons a rest ih =>
    intro S hsort halign hub i s hs
    rw [StrictlyNewestFirst, List.pairwise_cons] at hsort
    cases i with
    | zero =>
      simp only [List.getElem?_cons_zero, Option.some.injEq] at hs
      subst hs
      simpa using hub a (List.mem_cons_self a rest)
    | succ j =>
      simp only [List.getElem?_cons_succ] at hs
      have hsmem : s ∈ rest := List.getElem?_mem hs
      have hub' : ∀ x ∈ rest, x.startTime ≤ a.startTime - cfg.windowSegmentSize := by
        intro x hx
        have hlt := hsort.1 x hx
        have := aligned_gap (halign a (by simp)) (halign x (by simp [hx])) hlt
        omega
      have hrec := ih (a.startTime - cfg.windowSegmentSize) hsort.2
        (fun x hx => halign x (by simp [hx])) hub' j s hs
      have haS : a.startTime ≤ S := hub a (by simp)
      have hx0 : s.startTime + cfg.windowSegmentSize ≤ a.startTime :=
        aligned_gap (halign a (by simp)) (halign s (by simp [hsmem])) (hsort.1 s hsmem)
      have hmul : (j + 1) * cfg.windowSegmentSize
          = j * cfg.windowSegmentSize + cfg.windowSegmentSize := by ring
      omega

theorem strictlyNewestFirst_iff_keys {l : List WindowSegment} :
    StrictlyNewestFirst l ↔
      (l.map (fun s => s.startTime)).Pairwise (fun a b => b < a) := by
  rw [StrictlyNewestFirst, List.pairwise_map]

theorem ensureRebuilt_length (cfg : EffectiveConfig) (S n : Nat)
    (q : List WindowSegment) : (ensureRebuilt cfg S n q).length = n := by
  simp [ensureRebuilt]

theorem lookupValid_some_start {q : List WindowSegment} {n st : Nat}
    {s : WindowSegment} (h : lookupValid q n st = some s) :
    s.startTime = st ∧ s ∈ q.take n := by
  unfold lookupValid at h
  have h1 := List.find?_some h
  have h2 := List.mem_of_find?_eq_some h
  rw [beq_iff_eq] at h1
  exact ⟨h1, List.mem_reverse.mp h2⟩

theorem ensureRebuilt_map_start (cfg : EffectiveConfig) (S n : Nat)
    (q : List WindowSegment) :
    (ensureRebuilt cfg S n q).map (fun s => s.startTime)
      = (List.range n).map (expectedStart cfg S) := by
  unfold ensureRebuilt
  rw [List.map_map]
  apply List.map_congr_left
  intro k _
  simp only [Function.comp]
  cases h : lookupValid q n (expectedStart cfg S k) with
  | some s => exact (lookupValid_some_start h).1
  | none => rfl

theorem ensureRebuilt_mem (cfg : EffectiveConfig) (S n : Nat)
    (q : List WindowSegment) {x : WindowSegment}
    (hx : x ∈ ensureRebuilt cfg S n q) :
    ∃ k, k < n ∧ x.startTime = expectedStart cfg S k ∧
      (x ∈ q.take n ∨ x = { startTime := expectedStart cfg S k, value := 0 }) := by
  unfold ensureRebuilt at hx
  obtain ⟨k, hk, hxk⟩ := List.mem_map.mp hx
  rw [List.mem_range] at hk
  refine ⟨k, hk, ?_, ?_⟩
  · cases h : lookupValid q n (expectedStart cfg S k) with
    | some s =>
      rw [h] at hxk
      simp only at hxk
      rw [← hxk]
      exact (lookupValid_some_start h).1
    | none =>
      rw [h] at hxk
      simp only at hxk
      rw [← hxk]
  · cases h : lookupValid q n (expectedStart cfg S k) with
    | some s =>
      rw [h] at hxk
      simp only at hxk
      exact Or.inl (hxk ▸ (lookupValid_some_start h).2)
    | none =>
      rw [h] at hxk
      simp only at hxk
      exact Or.inr hxk.symm

theorem ensureRebuilt_getElem (cfg : EffectiveConfig) (S n : Nat)
    (q : List WindowSegment) {k : Nat} (hk : k < n) :
    ∃ s, (ensureRebuilt cfg S n q)[k]? = some s ∧
      s.startTime = expectedStart cfg S k := by
  have hlen : k < (ensureRebuilt cfg S n q).length := by
    rw [ensureRebuilt_length]; exact hk
  refine ⟨(ensureRebuilt cfg S n q)[k], List.getElem?_eq_getElem hlen, ?_⟩
  have h1 : ((ensureRebuilt cfg S n q).map (fun s => s.startTime))[k]?
      = some (expectedStart cfg S k) := by
    rw [ensureRebuilt_map_start, List.getElem?_map, List.getElem?_range hk]
    rfl
  rw [List.getElem?_map, List.getElem?_eq_getElem hlen] at h1
  simpa using h1

/-- The heart of the rebuild analysis: on a sorted, aligned queue bounded by
the segment start `S`, rebuilding the `n` most recent slots and keeping the
strictly-older tail loses no load, keeps the order, alignment and bounds,
and every new segment is either an old one or a fresh empty slot inside the
rebuild range. -/
theorem ensureRebuild_spec (cfg : EffectiveConfig) (S n : Nat) (q : List WindowSegment)
    (hseg : 0 < cfg.windowSegmentSize)
    (hn : 0 < n)
    (hle : (n - 1) * cfg.windowSegmentSize ≤ S)
    (hSdvd : cfg.windowSegmentSize ∣ S)
    (hsorted : StrictlyNewestFirst q)
    (halign : Aligned cfg q)
    (hub : ∀ x ∈ q, x.startTime ≤ S) :
    segSum (ensureRebuilt cfg S n q ++ ensureKeptTail cfg S n q) = segSum q ∧
    StrictlyNewestFirst (ensureRebuilt cfg S n q ++ ensureKeptTail cfg S n q) ∧
    Aligned cfg (ensureRebuilt cfg S n q ++ ensureKeptTail cfg S n q) ∧
    (∀ x ∈ ensureRebuilt cfg S n q ++ ensureKeptTail cfg S n q,
      x ∈ q ∨ (expectedStart cfg S (n - 1) ≤ x.startTime ∧ x.startTime ≤ S)) := by
  have hsplit : q = (q.reverse.dropWhile
        (fun s => decide (s.startTime < expectedStart cfg S (n - 1)))).reverse
      ++ ensureKeptTail cfg S n q := by
    unfold ensureKeptTail
    have h0 := List.takeWhile_append_dropWhile
      (p := fun s => decide (s.startTime < expectedStart cfg S (n - 1))) (l := q.reverse)
    have h1 : q = (q.reverse.takeWhile
          (fun s => decide (s.startTime < expectedStart cfg S (n - 1)))
        ++ q.reverse.dropWhile
          (fun s => decide (s.startTime < expectedStart cfg S (n - 1)))).reverse := by
      rw [h0, List.reverse_reverse]
    rw [List.reverse_append] at h1
    exact h1
  have hB_lt : ∀ x ∈ ensureKeptTail cfg S n q,
      x.startTime < expectedStart cfg S (n - 1) := by
    intro x hx
    unfold ensureKeptTail at hx
    rw [List.mem_reverse] at hx
    have := List.mem_takeWhile_imp hx
    simpa using this
  have hB_sub : List.Sublist (ensureKeptTail cfg S n q) q := by
    conv_rhs => rw [hsplit]
    exact List.sublist_append_right _ _
  have hA_sub : List.Sublist (q.reverse.dropWhile
      (fun s => decide (s.startTime < expectedStart cfg S (n - 1)))).reverse q := by
    conv_rhs => rw [hsplit]
    exact List.sublist_append_left _ _
  have hrevsort : q.reverse.Pairwise (fun a b => a.startTime < b.startTime) := by
    rw [List.pairwise_reverse]
    exact hsorted
  have hA_ge : ∀ x ∈ (q.reverse.dropWhile
      (fun s => decide (s.startTime < expectedStart cfg S (n - 1)))).reverse,
      expectedStart cfg S (n - 1) ≤ x.startTime := by
    intro x hx
    rw [List.mem_reverse] at hx
    exact dropWhile_ge hrevsort x hx
  have hA_mem_q : ∀ x ∈ (q.reverse.dropWhile
      (fun s => decide (s.startTime < expectedStart cfg S (n - 1)))).reverse, x ∈ q :=
    fun x hx => hA_sub.subset hx
  have hA_keys : (((q.reverse.dropWhile
      (fun s => decide (s.startTime < expectedStart cfg S (n - 1)))).reverse).map
      (fun s => s.startTime)).Nodup :=
    (nodupKeys_of_sorted hsorted).sublist (hA_sub.map _)
  have hA_exp : ∀ a ∈ (q.reverse.dropWhile
      (fun s => decide (s.startTime < expectedStart cfg S (n - 1)))).reverse,
      ∃ k, k < n ∧ a.startTime = expectedStart cfg S k := by
    intro a ha
    exact mem_expected_of_aligned cfg hseg hSdvd hn hle
      (halign a (hA_mem_q a ha)) (hub a (hA_mem_q a ha)) (hA_ge a ha)
  have hmul1 : n * cfg.windowSegmentSize
      = (n - 1) * cfg.windowSegmentSize + cfg.windowSegmentSize := by
    cases n with
    | zero => omega
    | succ m => simp [Nat.succ_sub_one]; ring
  have hA_take : ∀ a ∈ (q.reverse.dropWhile
      (fun s => decide (s.startTime < expectedStart cfg S (n - 1)))).reverse,
      a ∈ q.take n := by
    intro a ha
    have haq := hA_mem_q a ha
    have hsplitq := List.take_append_drop n q
    rcases List.mem_append.mp (hsplitq ▸ haq) with h | h
    · exact h
    · exfalso
      obtain ⟨j, hj⟩ := List.mem_iff_getElem?.mp h
      rw [List.getElem?_drop] at hj
      have hidx := start_add_index_le cfg q S hsorted halign hub (n + j) a hj
      have hge := hA_ge a ha
      have hmul2 : (n + j) * cfg.windowSegmentSize
          = n * cfg.windowSegmentSize + j * cfg.windowSegmentSize := by ring
      unfold expectedStart at hge
      omega
  have htake_cases : ∀ x ∈ q.take n,
      x ∈ (q.reverse.dropWhile
        (fun s => decide (s.startTime < expectedStart cfg S (n - 1)))).reverse
      ∨ x ∈ ensureKeptTail cfg S n q := by
    intro x hx
    have hxq : x ∈ q := (List.take_sublist n q).subset hx
    exact List.mem_append.mp (hsplit ▸ hxq)
  have hlook : ∀ k, k < n → lookupValid q n (expectedStart cfg S k)
      = ((q.reverse.dropWhile
          (fun s => decide (s.startTime < expectedStart cfg S (n - 1)))).reverse).find?
        (fun s => s.startTime == expectedStart cfg S k) := by
    intro k hk
    have hanti : expectedStart cfg S (n - 1) ≤ expectedStart cfg S k :=
      expectedStart_anti cfg S (by omega)
    by_cases hex : ∃ a ∈ (q.reverse.dropWhile
        (fun s => decide (s.startTime < expectedStart cfg S (n - 1)))).reverse,
        a.startTime = expectedStart cfg S k
    · obtain ⟨a, ha, hae⟩ := hex
      rw [find?_key_of_mem hA_keys ha hae]
      unfold lookupValid
      have htknd : (((q.take n).reverse).map (fun s => s.startTime)).Nodup := by
        rw [List.map_reverse]
        rw [List.nodup_reverse]
        exact (nodupKeys_of_sorted hsorted).sublist ((List.take_sublist n q).map _)
      exact find?_key_of_mem htknd (List.mem_reverse.mpr (hA_take a ha)) hae
    · push_neg at hex
      have h1 : ((q.reverse.dropWhile
          (fun s => decide (s.startTime < expectedStart cfg S (n - 1)))).reverse).find?
          (fun s => s.startTime == expectedStart cfg S k) = none := by
        rw [List.find?_eq_none]
        intro x hx
        simp only [beq_iff_eq]
        exact hex x hx
      have h2 : lookupValid q n (expectedStart cfg S k) = none := by
        unfold lookupValid
        rw [List.find?_eq_none]
        intro x hx
        rw [List.mem_reverse] at hx
        rcases htake_cases x hx with hA | hB
        · simp only [beq_iff_eq]
          exact hex x hA
        · have := hB_lt x hB
          simp only [beq_iff_eq]
          omega
      rw [h1, h2]
  have hsumR : segSum (ensureRebuilt cfg S n q)
      = segSum (q.reverse.dropWhile
        (fun s => decide (s.startTime < expectedStart cfg S (n - 1)))).reverse := by
    unfold segSum ensureRebuilt
    rw [List.map_map]
    have hpt : ∀ k ∈ List.range n,
        ((fun s => s.value) ∘ fun i =>
          match lookupValid q n (expectedStart cfg S i) with
          | some s => s
          | none => { startTime := expectedStart cfg S i, value := 0 }) k
        = (match ((q.reverse.dropWhile
            (fun s => decide (s.startTime < expectedStart cfg S (n - 1)))).reverse).find?
            (fun s => s.startTime == expectedStart cfg S k) with
           | some a => a.value
           | none => 0) := by
      intro k hk
      rw [List.mem_range] at hk
      simp only [Function.comp]
      rw [hlook k hk]
      cases ((q.reverse.dropWhile
          (fun s => decide (s.startTime < expectedStart cfg S (n - 1)))).reverse).find?
          (fun s => s.startTime == expectedStart cfg S k) with
      | some s => rfl
      | none => rfl
    rw [List.map_congr_left hpt]
    exact sum_lookup_values cfg hseg hle _ hA_keys hA_exp
  have hRsorted : StrictlyNewestFirst (ensureRebuilt cfg S n q) := by
    rw [strictlyNewestFirst_iff_keys, ensureRebuilt_map_start, List.pairwise_map]
    refine List.Pairwise.imp_of_mem ?_ (List.pairwise_lt_range n)
    intro i j hi hj hij
    rw [List.mem_range] at hj
    exact expectedStart_strict_anti cfg hseg hle hij hj
  have hcross : ∀ a ∈ ensureRebuilt cfg S n q, ∀ b ∈ ensureKeptTail cfg S n q,
      b.startTime < a.startTime := by
    intro a ha b hb
    obtain ⟨k, hk, hak, -⟩ := ensureRebuilt_mem cfg S n q ha
    have h1 := hB_lt b hb
    have h2 : expectedStart cfg S (n - 1) ≤ expectedStart cfg S k :=
      expectedStart_anti cfg S (by omega)
    omega
  refine ⟨?_, ?_, ?_, ?_⟩
  · rw [segSum_append, hsumR, ← segSum_append, ← hsplit]
  · rw [StrictlyNewestFirst, List.pairwise_append]
    exact ⟨hRsorted, hsorted.sublist hB_sub, hcross⟩
  · intro x hx
    rcases List.mem_append.mp hx with hR | hB
    · obtain ⟨k, hk, hxk, -⟩ := ensureRebuilt_mem cfg S n q hR
      rw [hxk]
      unfold expectedStart
      exact Nat.dvd_sub' hSdvd (dvd_mul_left _ _)
    · exact halign x (hB_sub.subset hB)
  · intro x hx
    rcases List.mem_append.mp hx with hR | hB
    · obtain ⟨k, hk, hxk, hcase⟩ := ensureRebuilt_mem cfg S n q hR
      rcases hcase with htk | hzero
      · exact Or.inl ((List.take_sublist n q).subset htk)
      · refine Or.inr ⟨?_, ?_⟩
        · rw [hxk]
          exact expectedStart_anti cfg S (by omega)
        · rw [hxk]
          exact Nat.sub_le _ _
    · exact Or.inl (hB_sub.subset hB)

theorem ensureLatestNSegments_fields (cfg : EffectiveConfig) (req : SubmitRequest)
    (n : Nat) (tenant : TenantData) :
    (ensureLatestNSegments cfg req n tenant).windowTotal = tenant.windowTotal ∧
    (ensureLatestNSegments cfg req n tenant).wasOver = tenant.wasOver ∧
    (ensureLatestNSegments cfg req n tenant).version = tenant.version := by
  unfold ensureLatestNSegments
  by_cases h : ensureRebuildNeeded cfg req.requestSegmentStartTime n
      tenant.windowQueue <;> simp [h]

/-- Full behaviour of `ensureLatestNSegments` on a well-formed queue bounded
by the request's segment start: the carried load, order, alignment are
preserved, the first `n` slots exist at the expected start times, and every
segment either comes from the old queue or is fresh and inside the rebuild
range. -/
theorem ensureLatestNSegments_spec (cfg : EffectiveConfig) (req : SubmitRequest)
    (n : Nat) (tenant : TenantData)
    (hseg : 0 < cfg.windowSegmentSize)
    (hn : 0 < n)
    (hle : (n - 1) * cfg.windowSegmentSize ≤ req.requestSegmentStartTime)
    (hSdvd : cfg.windowSegmentSize ∣ req.requestSegmentStartTime)
    (hsorted : StrictlyNewestFirst tenant.windowQueue)
    (halign : Aligned cfg tenant.windowQueue)
    (hub : ∀ x ∈ tenant.windowQueue, x.startTime ≤ req.requestSegmentStartTime) :
    segSum (ensureLatestNSegments cfg req n tenant).windowQueue
        = segSum tenant.windowQueue ∧
    StrictlyNewestFirst (ensureLatestNSegments cfg req n tenant).windowQueue ∧
    Aligned cfg (ensureLatestNSegments cfg req n tenant).windowQueue ∧
    n ≤ (ensureLatestNSegments cfg req n tenant).windowQueue.length ∧
    (∀ i, i < n → ∃ s,
      (ensureLatestNSegments cfg req n tenant).windowQueue[i]? = some s ∧
      s.startTime = expectedStart cfg req.requestSegmentStartTime i) ∧
    (∀ x ∈ (ensureLatestNSegments cfg req n tenant).windowQueue,
      x ∈ tenant.windowQueue ∨
        (expectedStart cfg req.requestSegmentStartTime (n - 1) ≤ x.startTime ∧
         x.startTime ≤ req.requestSegmentStartTime)) := by
  by_cases hreb : ensureRebuildNeeded cfg req.requestSegmentStartTime n
      tenant.windowQueue = true
  · -- rebuild
    have hres : (ensureLatestNSegments cfg req n tenant).windowQueue
        = ensureRebuilt cfg req.requestSegmentStartTime n tenant.windowQueue
          ++ ensureKeptTail cfg req.requestSegmentStartTime n tenant.windowQueue := by
      simp [ensureLatestNSegments, hreb]
    obtain ⟨hsum, hsort, halg, hmem⟩ := ensureRebuild_spec cfg
      req.requestSegmentStartTime n tenant.windowQueue hseg hn hle hSdvd hsorted halign hub
    rw [hres]
    refine ⟨hsum, hsort, halg, ?_, ?_, hmem⟩
    · rw [List.length_append, ensureRebuilt_length]
      omega
    · intro i hi
      obtain ⟨s, hs, hse⟩ := ensureRebuilt_getElem cfg
        req.requestSegmentStartTime n tenant.windowQueue hi
      refine ⟨s, ?_, hse⟩
      rw [List.getElem?_append_left (by rw [ensureRebuilt_length]; exact hi)]
      exact hs
  · -- no rebuild: the queue already satisfies the requirement
    rw [Bool.not_eq_true] at hreb
    have hres : ensureLatestNSegments cfg req n tenant = tenant := by
      simp [ensureLatestNSegments, hreb]
    unfold ensureRebuildNeeded at hreb
    rw [Bool.or_eq_false_iff] at hreb
    obtain ⟨h1, h2⟩ := hreb
    rw [decide_eq_false_iff_not] at h1
    rw [List.any_eq_false] at h2
    rw [hres]
    refine ⟨rfl, hsorted, halign, by omega, ?_, fun x hx => Or.inl hx⟩
    intro i hi
    have hilen : i < tenant.windowQueue.length := by omega
    have hget : tenant.windowQueue[i]? = some tenant.windowQueue[i] :=
      List.getElem?_eq_getElem hilen
    have h3 := h2 i (List.mem_range.mpr hi)
    rw [hget] at h3
    simp only [bne_iff_ne, ne_eq, Decidable.not_not] at h3
    exact ⟨tenant.windowQueue[i], hget, h3⟩

/-! ### `distributePenalty` -/

theorem distList_sum (n base rem : Nat) :
    (distList n base rem).sum = n * base + min rem n := by
  induction n with
  | zero => simp [distList]
  | succ m ih =>
    unfold distList at ih ⊢
    rw [List.range_succ, List.map_append, List.sum_append, ih]
    have hmul : (m + 1) * base = m * base + base := by ring
    by_cases hm : m < rem
    · simp only [List.map_cons, List.map_nil, if_pos hm, List.sum_cons, List.sum_nil]
      omega
    · simp only [List.map_cons, List.map_nil, if_neg hm, List.sum_cons, List.sum_nil]
      omega

theorem distList_length (n base rem : Nat) : (distList n base rem).length = n := by
  simp [distList]

theorem distList_pos (n base rem : Nat) (hbase : 0 < base) :
    ∀ d ∈ distList n base rem, 0 < d := by
  intro d hd
  obtain ⟨i, -, hi⟩ := List.mem_map.mp hd
  by_cases h : i < rem <;> simp [h] at hi <;> omega

theorem addDist_length : ∀ (ds : List Nat) (q : List WindowSegment),
    ds.length ≤ q.length → (addDist ds q).length = q.length := by
  intro ds
  induction ds with
  | nil => intro q _; rfl
  | cons d ds ih =>
    intro q hq
    cases q with
    | nil => simp at hq
    | cons s q' =>
      simp only [addDist, List.length_cons]
      rw [ih q' (by simpa using hq)]

theorem addDist_map_start : ∀ (ds : List Nat) (q : List WindowSegment),
    ds.length ≤ q.length →
    (addDist ds q).map (fun s => s.startTime) = q.map (fun s => s.startTime) := by
  intro ds
  induction ds with
  | nil => intro q _; rfl
  | cons d ds ih =>
    intro q hq
    cases q with
    | nil => simp at hq
    | cons s q' =>
      simp only [addDist, List.map_cons]
      rw [ih q' (by simpa using hq)]

theorem addDist_sum : ∀ (ds : List Nat) (q : List WindowSegment),
    ds.length ≤ q.length → segSum (addDist ds q) = segSum q + ds.sum := by
  intro ds
  induction ds with
  | nil => intro q _; simp [addDist]
  | cons d ds ih =>
    intro q hq
    cases q with
    | nil => simp at hq
    | cons s q' =>
      simp only [addDist]
      rw [segSum_cons, segSum_cons, ih q' (by simpa using hq), List.sum_cons]
      simp only []
      omega

theorem forall_start_of_map_eq {l₁ l₂ : List WindowSegment}
    (h : l₁.map (fun s => s.startTime) = l₂.map (fun s => s.startTime))
    (P : Nat → Prop) (hP : ∀ x ∈ l₂, P x.startTime) : ∀ x ∈ l₁, P x.startTime := by
  intro x hx
  have hmap : x.startTime ∈ l₂.map (fun s => s.startTime) :=
    h ▸ List.mem_map_of_mem (fun s => s.startTime) hx
  obtain ⟨y, hy, he⟩ := List.mem_map.mp hmap
  exact he ▸ hP y hy

theorem getElem_start_of_map_eq {l₁ l₂ : List WindowSegment}
    (h : l₁.map (fun s => s.startTime) = l₂.map (fun s => s.startTime))
    {i v : Nat} (hex : ∃ s, l₂[i]? = some s ∧ s.startTime = v) :
    ∃ s, l₁[i]? = some s ∧ s.startTime = v := by
  obtain ⟨s, hs, hv⟩ := hex
  have hlen : l₁.length = l₂.length := by
    have := congrArg List.length h
    simpa using this
  have hilen : i < l₁.length := by
    rw [hlen]
    exact (List.getElem?_eq_some_iff.mp hs).1
  refine ⟨l₁[i], List.getElem?_eq_getElem hilen, ?_⟩
  have h1 : (l₁.map (fun s => s.startTime))[i]? = (l₂.map (fun s => s.startTime))[i]? := by
    rw [h]
  rw [List.getElem?_map, List.getElem?_map, hs, List.getElem?_eq_getElem hilen] at h1
  simpa [hv] using h1

theorem distributeQueue_spec (cfg : EffectiveConfig) (req : SubmitRequest)
    (n : Nat) (ds : List Nat) (tenant : TenantData)
    (hseg : 0 < cfg.windowSegmentSize)
    (hn0 : 0 < n)
    (hlen : ds.length = n)
    (hle : (n - 1) * cfg.windowSegmentSize ≤ req.requestSegmentStartTime)
    (hSdvd : cfg.windowSegmentSize ∣ req.requestSegmentStartTime)
    (hsorted : StrictlyNewestFirst tenant.windowQueue)
    (halign : Aligned cfg tenant.windowQueue)
    (hub : ∀ x ∈ tenant.windowQueue, x.startTime ≤ req.requestSegmentStartTime) :
    segSum (addDist ds (ensureLatestNSegments cfg req n tenant).windowQueue)
        = segSum tenant.windowQueue + ds.sum ∧
    StrictlyNewestFirst (addDist ds (ensureLatestNSegments cfg req n tenant).windowQueue) ∧
    Aligned cfg (addDist ds (ensureLatestNSegments cfg req n tenant).windowQueue) ∧
    (∀ x ∈ addDist ds (ensureLatestNSegments cfg req n tenant).windowQueue,
      (∃ y ∈ tenant.windowQueue, x.startTime = y.startTime) ∨
        (expectedStart cfg req.requestSegmentStartTime (n - 1) ≤ x.startTime ∧
         x.startTime ≤ req.requestSegmentStartTime)) ∧
    (∃ f rest, addDist ds (ensureLatestNSegments cfg req n tenant).windowQueue
        = f :: rest ∧ f.startTime = req.requestSegmentStartTime) := by
  obtain ⟨hsum, hsort, halg, hlength, hget, hmem⟩ :=
    ensureLatestNSegments_spec cfg req n tenant hseg hn0 hle hSdvd hsorted halign hub
  have hdle : ds.length ≤ (ensureLatestNSegments cfg req n tenant).windowQueue.length := by
    omega
  have hmap := addDist_map_start ds _ hdle
  refine ⟨?_, ?_, ?_, ?_, ?_⟩
  · rw [addDist_sum ds _ hdle, hsum]
  · rw [strictlyNewestFirst_iff_keys, hmap, ← strictlyNewestFirst_iff_keys]
    exact hsort
  · exact forall_start_of_map_eq hmap (fun st => cfg.windowSegmentSize ∣ st) halg
  · have htrans := forall_start_of_map_eq hmap
      (fun st => (∃ y ∈ tenant.windowQueue, st = y.startTime) ∨
        (expectedStart cfg req.requestSegmentStartTime (n - 1) ≤ st ∧
         st ≤ req.requestSegmentStartTime)) ?_
    · exact htrans
    · intro x hx
      rcases hmem x hx with hold | hb
      · exact Or.inl ⟨x, hold, rfl⟩
      · exact Or.inr hb
  · obtain ⟨s0, hs0, hs0e⟩ := hget 0 hn0
    have hfront := getElem_start_of_map_eq hmap ⟨s0, hs0, hs0e⟩
    obtain ⟨f, hf, hfe⟩ := hfront
    cases hq : addDist ds (ensureLatestNSegments cfg req n tenant).windowQueue with
    | nil => rw [hq] at hf; simp at hf
    | cons g rest =>
      rw [hq] at hf
      simp only [List.getElem?_cons_zero, Option.some.injEq] at hf
      refine ⟨g, rest, rfl, ?_⟩
      rw [hf, hfe]
      simp [expectedStart]

/-- Full behaviour of `distributePenalty` on a well-formed queue: exactly
`amount` is added, both to the cached total and to the segment values; the
order, alignment and start-time bounds are preserved, and afterwards the
queue is fronted by the request's segment (when anything was added). -/
theorem distributePenalty_spec (cfg : EffectiveConfig) (req : SubmitRequest)
    (amount numSegmentsMax : Nat) (tenant : TenantData)
    (hseg : 0 < cfg.windowSegmentSize)
    (hm : 0 < numSegmentsMax)
    (hle : (numSegmentsMax - 1) * cfg.windowSegmentSize ≤ req.requestSegmentStartTime)
    (hSdvd : cfg.windowSegmentSize ∣ req.requestSegmentStartTime)
    (hsorted : StrictlyNewestFirst tenant.windowQueue)
    (halign : Aligned cfg tenant.windowQueue)
    (hub : ∀ x ∈ tenant.windowQueue, x.startTime ≤ req.requestSegmentStartTime) :
    (distributePenalty cfg req amount numSegmentsMax tenant).windowTotal
        = tenant.windowTotal + amount ∧
    (distributePenalty cfg req amount numSegmentsMax tenant).wasOver = tenant.wasOver ∧
    (distributePenalty cfg req amount numSegmentsMax tenant).version = tenant.version ∧
    segSum (distributePenalty cfg req amount numSegmentsMax tenant).windowQueue
        = segSum tenant.windowQueue + amount ∧
    StrictlyNewestFirst
      (distributePenalty cfg req amount numSegmentsMax tenant).windowQueue ∧
    Aligned cfg (distributePenalty cfg req amount numSegmentsMax tenant).windowQueue ∧
    (∀ x ∈ (distributePenalty cfg req amount numSegmentsMax tenant).windowQueue,
      (∃ y ∈ tenant.windowQueue, x.startTime = y.startTime) ∨
        (expectedStart cfg req.requestSegmentStartTime (numSegmentsMax - 1) ≤ x.startTime ∧
         x.startTime ≤ req.requestSegmentStartTime)) ∧
    (0 < amount →
      ∃ f rest, (distributePenalty cfg req amount numSegmentsMax tenant).windowQueue
          = f :: rest ∧ f.startTime = req.requestSegmentStartTime) := by
  by_cases ha : amount = 0
  · subst ha
    have hres : distributePenalty cfg req 0 numSegmentsMax tenant = tenant := by
      simp [distributePenalty]
    rw [hres]
    refine ⟨by omega, rfl, rfl, by omega, hsorted, halign, ?_, by omega⟩
    intro x hx
    exact Or.inl ⟨x, hx, rfl⟩
  · have key : ∀ n base : Nat, 0 < n → n ≤ numSegmentsMax →
        (distList n base (amount % n)).sum = amount →
        (let t1 := ensureLatestNSegments cfg req n tenant
         let q' := addDist (distList n base (amount % n)) t1.windowQueue
         (t1.windowTotal + (distList n base (amount % n)).sum
            = tenant.windowTotal + amount ∧
          t1.wasOver = tenant.wasOver ∧
          t1.version = tenant.version ∧
          segSum q' = segSum tenant.windowQueue + amount ∧
          StrictlyNewestFirst q' ∧
          Aligned cfg q' ∧
          (∀ x ∈ q',
            (∃ y ∈ tenant.windowQueue, x.startTime = y.startTime) ∨
              (expectedStart cfg req.requestSegmentStartTime (numSegmentsMax - 1)
                  ≤ x.startTime ∧
               x.startTime ≤ req.requestSegmentStartTime)) ∧
          (∃ f rest, q' = f :: rest ∧
            f.startTime = req.requestSegmentStartTime))) := by
      intro n base hn0 hnle hsum
      have hle' : (n - 1) * cfg.windowSegmentSize ≤ req.requestSegmentStartTime :=
        le_trans (Nat.mul_le_mul_right _ (by omega)) hle
      obtain ⟨hflds1, hflds2, hflds3⟩ := ensureLatestNSegments_fields cfg req n tenant
      obtain ⟨hqsum, hqsort, hqalg, hqmem, hqfront⟩ := distributeQueue_spec cfg req n
        (distList n base (amount % n)) tenant hseg hn0 (distList_length _ _ _)
        hle' hSdvd hsorted halign hub
      refine ⟨by omega, hflds2, hflds3, by omega, hqsort, hqalg, ?_, hqfront⟩
      intro x hx
      rcases hqmem x hx with hold | hb
      · exact Or.inl hold
      · refine Or.inr ⟨le_trans (expectedStart_anti cfg _ (by omega)) hb.1, hb.2⟩
    by_cases hb : amount / numSegmentsMax < 1
    · have hlt : amount < numSegmentsMax := by
        rcases Nat.lt_or_ge amount numSegmentsMax with h | h
        · exact h
        · exfalso
          have := Nat.div_le_div_right (c := numSegmentsMax) h
          rw [Nat.div_self hm] at this
          omega
      have hsum : (distList amount 1 (amount % amount)).sum = amount := by
        rw [Nat.mod_self, distList_sum]
        omega
      have hk := key amount 1 (by omega) (by omega) hsum
      simp only [distributePenalty, if_neg ha, if_pos hb]
      simp only at hk
      obtain ⟨k1, k2, k3, k4, k5, k6, k7, k8⟩ := hk
      exact ⟨k1, k2, k3, k4, k5, k6, k7, fun _ => k8⟩
    · have hbase : 1 ≤ amount / numSegmentsMax := by omega
      have hsum : (distList numSegmentsMax (amount / numSegmentsMax)
          (amount % numSegmentsMax)).sum = amount := by
        rw [distList_sum]
        have hmod : amount % numSegmentsMax < numSegmentsMax := Nat.mod_lt _ hm
        have hdm := Nat.div_add_mod amount numSegmentsMax
        have hcomm : numSegmentsMax * (amount / numSegmentsMax)
            = amount / numSegmentsMax * numSegmentsMax := Nat.mul_comm _ _
        omega
      have hk := key numSegmentsMax (amount / numSegmentsMax) hm (le_refl _) hsum
      simp only [distributePenalty, if_neg ha, if_neg hb]
      simp only at hk
      obtain ⟨k1, k2, k3, k4, k5, k6, k7, k8⟩ := hk
      exact ⟨k1, k2, k3, k4, k5, k6, k7, fun _ => k8⟩

/-! ### `rotateWindow` -/

theorem getLast?_cons_eq_getLastD : ∀ (l : List WindowSegment) (a : WindowSegment),
    (a :: l).getLast? = some (l.getLastD a) := by
  intro l
  induction l with
  | nil => intro a; rfl
  | cons b l ih =>
    intro a
    rw [List.getLast?_cons_cons, ih, List.getLastD_cons]

theorem getLastD_mem : ∀ (rest : List WindowSegment) (f : WindowSegment),
    rest.getLastD f ∈ f :: rest := by
  intro rest
  induction rest with
  | nil => intro f; simp
  | cons g rest' ih =>
    intro f
    rw [List.getLastD_cons]
    exact List.mem_cons_of_mem f (ih g)

theorem rotatePopFutures_spec (s : Nat) (q : List WindowSegment) :
    ∃ pre, q = pre ++ (rotatePopFutures s q).2 ∧
      (rotatePopFutures s q).1 = segSum pre ∧
      (∀ x ∈ pre, s < x.startTime) ∧
      (∀ f, (rotatePopFutures s q).2.head? = some f → f.startTime ≤ s) := by
  cases q with
  | nil =>
    refine ⟨[], by simp [rotatePopFutures], by simp [rotatePopFutures, segSum], by simp, ?_⟩
    intro f hf
    simp [rotatePopFutures] at hf
  | cons f rest =>
    by_cases h : s < f.startTime
    · have hres : rotatePopFutures s (f :: rest) = popFutures s (f :: rest) := by
        simp [rotatePopFutures, h]
      rw [hres]
      exact popFutures_spec s (f :: rest)
    · refine ⟨[], by simp [rotatePopFutures, h], by simp [rotatePopFutures, h, segSum],
        by simp, ?_⟩
      intro g hg
      simp only [rotatePopFutures, if_neg h, List.head?_cons, Option.some.injEq] at hg
      subst hg
      omega

theorem rotateInsertFront_spec (s : Nat) (q : List WindowSegment)
    (hhead : ∀ f, q.head? = some f → f.startTime ≤ s)
    (hsorted : StrictlyNewestFirst q) :
    ∃ f rest, (rotateInsertFront s q).2 = f :: rest ∧ f.startTime = s ∧
      segSum (rotateInsertFront s q).2 = segSum q ∧
      StrictlyNewestFirst (rotateInsertFront s q).2 ∧
      (∀ x ∈ (rotateInsertFront s q).2,
        x ∈ q ∨ x = { startTime := s, value := 0 }) ∧
      (∀ x ∈ (rotateInsertFront s q).2, x.startTime ≤ s) := by
  cases q with
  | nil =>
    refine ⟨{ startTime := s, value := 0 }, [], by simp [rotateInsertFront], rfl,
      by simp [rotateInsertFront, segSum], ?_, ?_, ?_⟩
    · simp [rotateInsertFront, StrictlyNewestFirst]
    · intro x hx
      simp [rotateInsertFront] at hx
      exact Or.inr hx
    · intro x hx
      simp [rotateInsertFront] at hx
      rw [hx]
  | cons g rest =>
    have hgs : g.startTime ≤ s := hhead g rfl
    have hall : ∀ x ∈ g :: rest, x.startTime ≤ g.startTime :=
      strictlyNewestFirst_head_max hsorted
    by_cases h : g.startTime = s
    · have hres : rotateInsertFront s (g :: rest) = (false, g :: rest) := by
        simp [rotateInsertFront, h]
      rw [hres]
      refine ⟨g, rest, rfl, h, rfl, hsorted, fun x hx => Or.inl hx, ?_⟩
      intro x hx
      have := hall x hx
      omega
    · have hres : rotateInsertFront s (g :: rest)
          = (true, { startTime := s, value := 0 } :: g :: rest) := by
        simp [rotateInsertFront, h]
      rw [hres]
      refine ⟨{ startTime := s, value := 0 }, g :: rest, rfl, rfl,
        by simp [segSum], ?_, ?_, ?_⟩
      · rw [StrictlyNewestFirst, List.pairwise_cons]
        refine ⟨?_, hsorted⟩
        intro x hx
        have := hall x hx
        simp only []
        omega
      · intro x hx
        rcases List.mem_cons.mp hx with rfl | hx
        · exact Or.inr rfl
        · exact Or.inl hx
      · intro x hx
        rcases List.mem_cons.mp hx with rfl | hx
        · simp
        · have := hall x hx
          omega

theorem rotateEvict_spec (rb : Nat) (q : List WindowSegment)
    (hsorted : StrictlyNewestFirst q)
    (hne : q ≠ [])
    (hheadgt : ∀ f, q.head? = some f → rb < f.startTime) :
    ∃ dropped, q = (rotateEvict rb q).1 ++ dropped ∧
      (rotateEvict rb q).2 = segSum dropped ∧
      (rotateEvict rb q).1 ≠ [] ∧
      (rotateEvict rb q).1.head? = q.head? ∧
      (∀ x ∈ (rotateEvict rb q).1, rb < x.startTime) := by
  by_cases hlen : 1 < q.length
  · have hres : rotateEvict rb q = evictBack rb q := by
      simp [rotateEvict, hlen]
    obtain ⟨dropped, hq, hsum, hdropped, hlast⟩ := evictBack_spec rb q
    rw [hres]
    have hkeptne : (evictBack rb q).1 ≠ [] := by
      intro hnil
      rw [hnil, List.nil_append] at hq
      cases q with
      | nil => exact hne rfl
      | cons f rest =>
        have := hheadgt f rfl
        have hf : f ∈ dropped := by rw [← hq]; simp
        have := hdropped f hf
        omega
    refine ⟨dropped, hq, hsum, hkeptne, ?_, ?_⟩
    · conv_rhs => rw [hq]
      cases hk : (evictBack rb q).1 with
      | nil => exact absurd hk hkeptne
      | cons k0 krest => simp
    · -- every kept segment is newer than the last kept one, which is > rb
      cases hk : (evictBack rb q).1 with
      | nil => exact absurd hk hkeptne
      | cons k0 krest =>
        intro x hx
        have hsortk : StrictlyNewestFirst (k0 :: krest) := by
          rw [← hk]
          have hsub : List.Sublist (evictBack rb q).1 q := by
            conv_rhs => rw [hq]
            exact List.sublist_append_left _ _
          exact hsorted.sublist hsub
        have hlastmem := getLastD_min_of_sorted krest k0 hsortk x hx
        have hlastval : (k0 :: krest).getLast? = some (krest.getLastD k0) :=
          getLast?_cons_eq_getLastD krest k0
        have := hlast (krest.getLastD k0) (by rw [hk]; exact hlastval)
        omega
  · have hres : rotateEvict rb q = (q, 0) := by
      simp [rotateEvict, hlen]
    rw [hres]
    refine ⟨[], by simp, by simp [segSum], hne, rfl, ?_⟩
    intro x hx
    cases q with
    | nil => exact absurd rfl hne
    | cons f rest =>
      have hflen : rest = [] := by
        cases rest with
        | nil => rfl
        | cons a b => simp at hlen
      subst hflen
      rcases List.mem_cons.mp hx with rfl | hx
      · exact hheadgt x rfl
      · simp at hx

theorem markDirty_fields (t : TenantData) :
    (markDirty t).windowQueue = t.windowQueue ∧
    (markDirty t).windowTotal = t.windowTotal ∧
    (markDirty t).wasOver = t.wasOver ∧
    (markDirty t).version = t.version + 1 :=
  ⟨rfl, rfl, rfl, rfl⟩

/-- `rotateWindow` establishes the rotated-state contract: the invariants
are preserved, the queue is non-empty and fronted by the request's segment,
no remaining segment has aged out of the window, the cached total can only
shrink, the overload flag is untouched and the version is bumped at most
once. -/
theorem rotateWindow_spec (cfg : EffectiveConfig) (req : SubmitRequest)
    (tenant : TenantData)
    (hc : CfgWF cfg) (hr : ReqWF cfg req) (hwf : TenantWF cfg tenant) :
    RotatedState cfg req (rotateWindow cfg req tenant) ∧
    (rotateWindow cfg req tenant).windowTotal ≤ tenant.windowTotal ∧
    (rotateWindow cfg req tenant).wasOver = tenant.wasOver ∧
    ((rotateWindow cfg req tenant).version = tenant.version ∨
     (rotateWindow cfg req tenant).version = tenant.version + 1) := by
  obtain ⟨hSdvd, hSt, htS, hsegws⟩ := reqWF_facts hc hr
  obtain ⟨hseg, hws, hnum, -⟩ := hc
  obtain ⟨hSdef, hwsS⟩ := hr
  obtain ⟨htot, hsorted, halign⟩ := hwf
  have hwsdvd : cfg.windowSegmentSize ∣ cfg.windowSize :=
    ⟨cfg.numSegments, by rw [hws]; ring⟩
  by_cases hfp : rotateFastPath cfg req.requestSegmentStartTime tenant.windowQueue = true
  · -- fast path: no change, and the fast-path test already certifies the contract
    have hres : rotateWindow cfg req tenant = tenant := by
      simp [rotateWindow, hfp]
    rw [hres]
    cases hq : tenant.windowQueue with
    | nil => rw [hq] at hfp; simp [rotateFastPath] at hfp
    | cons f rest =>
      rw [hq] at hfp
      simp only [rotateFastPath, Bool.and_eq_true, beq_iff_eq, decide_eq_true_eq] at hfp
      obtain ⟨hf, hback⟩ := hfp
      refine ⟨⟨⟨htot, hsorted, halign⟩, ⟨f, rest, hq, hf⟩, ?_⟩, le_refl _, rfl, Or.inl rfl⟩
      intro x hx
      rw [hq] at hx
      have hsorted' : StrictlyNewestFirst (f :: rest) := hq ▸ hsorted
      have halign' : Aligned cfg (f :: rest) := hq ▸ halign
      have hbmem : rest.getLastD f ∈ f :: rest := getLastD_mem rest f
      have hbmin := getLastD_min_of_sorted rest f hsorted' x hx
      have hbal : cfg.windowSegmentSize ∣ (rest.getLastD f).startTime := halign' _ hbmem
      have hswal :
          cfg.windowSegmentSize ∣ (req.requestSegmentStartTime - cfg.windowSize) :=
        Nat.dvd_sub' hSdvd hwsdvd
      have hgap := aligned_gap hbal hswal hback
      omega
  · rw [Bool.not_eq_true] at hfp
    have hres : rotateWindow cfg req tenant = rotateSlow cfg req tenant := by
      simp [rotateWindow, hfp]
    rw [hres]
    -- name the intermediate products
    obtain ⟨pre, hqsplit, hpresum, hprefut, hpophead⟩ :=
      rotatePopFutures_spec req.requestSegmentStartTime tenant.windowQueue
    have hq1sub : List.Sublist
        (rotatePopFutures req.requestSegmentStartTime tenant.windowQueue).2
        tenant.windowQueue := by
      conv_rhs => rw [hqsplit]
      exact List.sublist_append_right _ _
    have hq1sorted : StrictlyNewestFirst
        (rotatePopFutures req.requestSegmentStartTime tenant.windowQueue).2 :=
      hsorted.sublist hq1sub
    obtain ⟨f2, rest2, hins2, hf2, hinssum, hinssorted, hinsmem, hinsub⟩ :=
      rotateInsertFront_spec req.requestSegmentStartTime
        (rotatePopFutures req.requestSegmentStartTime tenant.windowQueue).2
        hpophead hq1sorted
    have hSgtrb : req.requestedTimestamp - cfg.windowSize < req.requestSegmentStartTime := by
      omega
    have hinshead : ∀ g, (rotateInsertFront req.requestSegmentStartTime
        (rotatePopFutures req.requestSegmentStartTime tenant.windowQueue).2).2.head?
          = some g →
        req.requestedTimestamp - cfg.windowSize < g.startTime := by
      intro g hg
      rw [hins2] at hg
      simp only [List.head?_cons, Option.some.injEq] at hg
      subst hg
      omega
    obtain ⟨dropped, hevsplit, hevsum, hevne, hevhead, hevgt⟩ :=
      rotateEvict_spec (req.requestedTimestamp - cfg.windowSize)
        (rotateInsertFront req.requestSegmentStartTime
          (rotatePopFutures req.requestSegmentStartTime tenant.windowQueue).2).2
        hinssorted (by rw [hins2]; simp) hinshead
    -- facts about the post-eviction queue
    have hq3sub : List.Sublist
        (rotateEvict (req.requestedTimestamp - cfg.windowSize)
          (rotateInsertFront req.requestSegmentStartTime
            (rotatePopFutures req.requestSegmentStartTime tenant.windowQueue).2).2).1
        (rotateInsertFront req.requestSegmentStartTime
          (rotatePopFutures req.requestSegmentStartTime tenant.windowQueue).2).2 := by
      conv_rhs => rw [hevsplit]
      exact List.sublist_append_left _ _
    have hq3sorted : StrictlyNewestFirst _ := hinssorted.sublist hq3sub
    have hq3align : Aligned cfg
        (rotateEvict (req.requestedTimestamp - cfg.windowSize)
          (rotateInsertFront req.requestSegmentStartTime
            (rotatePopFutures req.requestSegmentStartTime tenant.windowQueue).2).2).1 := by
      intro x hx
      rcases hinsmem x (hq3sub.subset hx) with hold | hnew
      · exact halign x (hq1sub.subset hold)
      · rw [hnew]
        exact hSdvd
    have hq3ub : ∀ x ∈ (rotateEvict (req.requestedTimestamp - cfg.windowSize)
        (rotateInsertFront req.requestSegmentStartTime
          (rotatePopFutures req.requestSegmentStartTime tenant.windowQueue).2).2).1,
        x.startTime ≤ req.requestSegmentStartTime :=
      fun x hx => hinsub x (hq3sub.subset hx)
    have hq3front : ∃ f3 rest3, (rotateEvict (req.requestedTimestamp - cfg.windowSize)
        (rotateInsertFront req.requestSegmentStartTime
          (rotatePopFutures req.requestSegmentStartTime tenant.windowQueue).2).2).1
        = f3 :: rest3 ∧ f3.startTime = req.requestSegmentStartTime := by
      cases hk : (rotateEvict (req.requestedTimestamp - cfg.windowSize)
          (rotateInsertFront req.requestSegmentStartTime
            (rotatePopFutures req.requestSegmentStartTime tenant.windowQueue).2).2).1 with
      | nil => exact absurd hk hevne
      | cons f3 rest3 =>
        refine ⟨f3, rest3, rfl, ?_⟩
        have h1 := hevhead
        rw [hk, hins2] at h1
        simp only [List.head?_cons, Option.some.injEq] at h1
        rw [h1, hf2]
    -- sums
    have hsum3 : tenant.windowTotal
          - (rotatePopFutures req.requestSegmentStartTime tenant.windowQueue).1
          - (rotateEvict (req.requestedTimestamp - cfg.windowSize)
            (rotateInsertFront req.requestSegmentStartTime
              (rotatePopFutures req.requestSegmentStartTime tenant.windowQueue).2).2).2
        = segSum (rotateEvict (req.requestedTimestamp - cfg.windowSize)
            (rotateInsertFront req.requestSegmentStartTime
              (rotatePopFutures req.requestSegmentStartTime tenant.windowQueue).2).2).1 := by
      have h1 : segSum tenant.windowQueue = segSum pre
          + segSum (rotatePopFutures req.requestSegmentStartTime tenant.windowQueue).2 := by
        conv_lhs => rw [hqsplit]
        rw [segSum_append]
      have h2 : segSum (rotateInsertFront req.requestSegmentStartTime
            (rotatePopFutures req.requestSegmentStartTime tenant.windowQueue).2).2
          = segSum (rotateEvict (req.requestedTimestamp - cfg.windowSize)
              (rotateInsertFront req.requestSegmentStartTime
                (rotatePopFutures req.requestSegmentStartTime tenant.windowQueue).2).2).1
            + segSum dropped := by
        conv_lhs => rw [hevsplit]
        rw [segSum_append]
      omega
    have hpreletot : segSum tenant.windowQueue = segSum pre
        + segSum (rotatePopFutures req.requestSegmentStartTime tenant.windowQueue).2 := by
      conv_lhs => rw [hqsplit]
      rw [segSum_append]
    have hwst : cfg.windowSize ≤ req.requestedTimestamp := by omega
    have hbundle :
        RotatedState cfg req
          (if 0 < (rotatePopFutures req.requestSegmentStartTime tenant.windowQueue).1 then
            distributePenalty cfg req
              (rotatePopFutures req.requestSegmentStartTime tenant.windowQueue).1 1
              { tenant with
                windowQueue := (rotateEvict (req.requestedTimestamp - cfg.windowSize)
                  (rotateInsertFront req.requestSegmentStartTime
                    (rotatePopFutures req.requestSegmentStartTime
                      tenant.windowQueue).2).2).1
                windowTotal := tenant.windowTotal
                  - (rotatePopFutures req.requestSegmentStartTime tenant.windowQueue).1
                  - (rotateEvict (req.requestedTimestamp - cfg.windowSize)
                    (rotateInsertFront req.requestSegmentStartTime
                      (rotatePopFutures req.requestSegmentStartTime
                        tenant.windowQueue).2).2).2 }
          else
            { tenant with
              windowQueue := (rotateEvict (req.requestedTimestamp - cfg.windowSize)
                (rotateInsertFront req.requestSegmentStartTime
                  (rotatePopFutures req.requestSegmentStartTime
                    tenant.windowQueue).2).2).1
              windowTotal := tenant.windowTotal
                - (rotatePopFutures req.requestSegmentStartTime tenant.windowQueue).1
                - (rotateEvict (req.requestedTimestamp - cfg.windowSize)
                  (rotateInsertFront req.requestSegmentStartTime
                    (rotatePopFutures req.requestSegmentStartTime
                      tenant.windowQueue).2).2).2 }) ∧
        (if 0 < (rotatePopFutures req.requestSegmentStartTime tenant.windowQueue).1 then
            distributePenalty cfg req
              (rotatePopFutures req.requestSegmentStartTime tenant.windowQueue).1 1
              { tenant with
                windowQueue := (rotateEvict (req.requestedTimestamp - cfg.windowSize)
                  (rotateInsertFront req.requestSegmentStartTime
                    (rotatePopFutures req.requestSegmentStartTime
                      tenant.windowQueue).2).2).1
                windowTotal := tenant.windowTotal
                  - (rotatePopFutures req.requestSegmentStartTime tenant.windowQueue).1
                  - (rotateEvict (req.requestedTimestamp - cfg.windowSize)
                    (rotateInsertFront req.requestSegmentStartTime
                      (rotatePopFutures req.requestSegmentStartTime
                        tenant.windowQueue).2).2).2 }
          else
            { tenant with
              windowQueue := (rotateEvict (req.requestedTimestamp - cfg.windowSize)
                (rotateInsertFront req.requestSegmentStartTime
                  (rotatePopFutures req.requestSegmentStartTime
                    tenant.windowQueue).2).2).1
              windowTotal := tenant.windowTotal
                - (rotatePopFutures req.requestSegmentStartTime tenant.windowQueue).1
                - (rotateEvict (req.requestedTimestamp - cfg.windowSize)
                  (rotateInsertFront req.requestSegmentStartTime
                    (rotatePopFutures req.requestSegmentStartTime
                      tenant.windowQueue).2).2).2 }).windowTotal
          ≤ tenant.windowTotal ∧
        (if 0 < (rotatePopFutures req.requestSegmentStartTime tenant.windowQueue).1 then
            distributePenalty cfg req
              (rotatePopFutures req.requestSegmentStartTime tenant.windowQueue).1 1
              { tenant with
                windowQueue := (rotateEvict (req.requestedTimestamp - cfg.windowSize)
                  (rotateInsertFront req.requestSegmentStartTime
                    (rotatePopFutures req.requestSegmentStartTime
                      tenant.windowQueue).2).2).1
                windowTotal := tenant.windowTotal
                  - (rotatePopFutures req.requestSegmentStartTime tenant.windowQueue).1
                  - (rotateEvict (req.requestedTimestamp - cfg.windowSize)
                    (rotateInsertFront req.requestSegmentStartTime
                      (rotatePopFutures req.requestSegmentStartTime
                        tenant.windowQueue).2).2).2 }
          else
            { tenant with
              windowQueue := (rotateEvict (req.requestedTimestamp - cfg.windowSize)
                (rotateInsertFront req.requestSegmentStartTime
                  (rotatePopFutures req.requestSegmentStartTime
                    tenant.windowQueue).2).2).1
              windowTotal := tenant.windowTotal
                - (rotatePopFutures req.requestSegmentStartTime tenant.windowQueue).1
                - (rotateEvict (req.requestedTimestamp - cfg.windowSize)
                  (rotateInsertFront req.requestSegmentStartTime
                    (rotatePopFutures req.requestSegmentStartTime
                      tenant.windowQueue).2).2).2 }).wasOver
          = tenant.wasOver ∧
        (if 0 < (rotatePopFutures req.requestSegmentStartTime tenant.windowQueue).1 then
            distributePenalty cfg req
              (rotatePopFutures req.requestSegmentStartTime tenant.windowQueue).1 1
              { tenant with
                windowQueue := (rotateEvict (req.requestedTimestamp - cfg.windowSize)
                  (rotateInsertFront req.requestSegmentStartTime
                    (rotatePopFutures req.requestSegmentStartTime
                      tenant.windowQueue).2).2).1
                windowTotal := tenant.windowTotal
                  - (rotatePopFutures req.requestSegmentStartTime tenant.windowQueue).1
                  - (rotateEvict (req.requestedTimestamp - cfg.windowSize)
                    (rotateInsertFront req.requestSegmentStartTime
                      (rotatePopFutures req.requestSegmentStartTime
                        tenant.windowQueue).2).2).2 }
          else
            { tenant with
              windowQueue := (rotateEvict (req.requestedTimestamp - cfg.windowSize)
                (rotateInsertFront req.requestSegmentStartTime
                  (rotatePopFutures req.requestSegmentStartTime
                    tenant.windowQueue).2).2).1
              windowTotal := tenant.windowTotal
                - (rotatePopFutures req.requestSegmentStartTime tenant.windowQueue).1
                - (rotateEvict (req.requestedTimestamp - cfg.windowSize)
                  (rotateInsertFront req.requestSegmentStartTime
                    (rotatePopFutures req.requestSegmentStartTime
                      tenant.windowQueue).2).2).2 }).version
          = tenant.version := by
      by_cases hrestore :
          0 < (rotatePopFutures req.requestSegmentStartTime tenant.windowQueue).1
      · rw [if_pos hrestore]
        obtain ⟨hd1, hd2, hd3, hd4, hd5, hd6, hd7, hd8⟩ :=
          distributePenalty_spec cfg req
            (rotatePopFutures req.requestSegmentStartTime tenant.windowQueue).1 1
            { tenant with
              windowQueue := (rotateEvict (req.requestedTimestamp - cfg.windowSize)
                (rotateInsertFront req.requestSegmentStartTime
                  (rotatePopFutures req.requestSegmentStartTime
                    tenant.windowQueue).2).2).1
              windowTotal := tenant.windowTotal
                - (rotatePopFutures req.requestSegmentStartTime tenant.windowQueue).1
                - (rotateEvict (req.requestedTimestamp - cfg.windowSize)
                  (rotateInsertFront req.requestSegmentStartTime
                    (rotatePopFutures req.requestSegmentStartTime
                      tenant.windowQueue).2).2).2 }
            hseg (by omega) (by simp) hSdvd hq3sorted hq3align hq3ub
        obtain ⟨f4, rest4, hq4, hf4⟩ := hd8 hrestore
        refine ⟨⟨⟨?_, hd5, hd6⟩, ⟨f4, rest4, hq4, hf4⟩, ?_⟩, ?_, hd2, hd3⟩
        · rw [hd1, hd4]
          simp only []
          omega
        · intro x hx
          rcases hd7 x hx with ⟨y, hy, hxy⟩ | ⟨hlo, hhi⟩
          · have := hevgt y hy
            omega
          · have : x.startTime = req.requestSegmentStartTime := by
              have h0 : expectedStart cfg req.requestSegmentStartTime (1 - 1)
                  = req.requestSegmentStartTime := by
                simp [expectedStart]
              rw [h0] at hlo
              omega
            omega
        · rw [hd1]
          simp only []
          omega
      · rw [if_neg hrestore]
        have hres0 : (rotatePopFutures req.requestSegmentStartTime tenant.windowQueue).1
            = 0 := by omega
        refine ⟨⟨⟨?_, hq3sorted, hq3align⟩, hq3front, ?_⟩, ?_, rfl, rfl⟩
        · simp only []
          omega
        · intro x hx
          have := hevgt x hx
          omega
        · simp only []
          omega
    simp only [rotateSlow]
    by_cases hdirty :
        ((rotateInsertFront req.requestSegmentStartTime
            (rotatePopFutures req.requestSegmentStartTime tenant.windowQueue).2).1
          || decide ((rotateEvict (req.requestedTimestamp - cfg.windowSize)
              (rotateInsertFront req.requestSegmentStartTime
                (rotatePopFutures req.requestSegmentStartTime
                  tenant.windowQueue).2).2).1.length
            ≠ (rotateInsertFront req.requestSegmentStartTime
                (rotatePopFutures req.requestSegmentStartTime
                  tenant.windowQueue).2).2.length)
          || decide (0 < (rotatePopFutures req.requestSegmentStartTime
              tenant.windowQueue).1)) = true
    · rw [if_pos hdirty]
      obtain ⟨hb1, hb2, hb3, hb4⟩ := hbundle
      obtain ⟨⟨hw1, hw2, hw3⟩, hwf, hwa⟩ := hb1
      exact ⟨⟨⟨hw1, hw2, hw3⟩, hwf, hwa⟩, hb2, hb3, Or.inr (by rw [markDirty, hb4])⟩
    · rw [if_neg hdirty]
      obtain ⟨hb1, hb2, hb3, hb4⟩ := hbundle
      exact ⟨hb1, hb2, hb3, Or.inl hb4⟩

/-! ### Capping -/

theorem removeOldestRev_spec : ∀ (amount : Nat) (l : List WindowSegment),
    (removeOldestRev amount l).1 = min amount (segSum l) ∧
    segSum (removeOldestRev amount l).2 = segSum l - min amount (segSum l) ∧
    (∀ x ∈ (removeOldestRev amount l).2,
      ∃ y ∈ l, x.startTime = y.startTime ∧ x.value ≤ y.value) ∧
    List.Sublist ((removeOldestRev amount l).2.map (fun s => s.startTime))
      (l.map (fun s => s.startTime)) ∧
    ((removeOldestRev amount l).2 ≠ [] →
      ((removeOldestRev amount l).2.getLast?).map (fun s => s.startTime)
        = (l.getLast?).map (fun s => s.startTime)) := by
  intro amount l
  induction l generalizing amount with
  | nil =>
    refine ⟨by simp [removeOldestRev, segSum], by simp [removeOldestRev, segSum],
      ?_, by simp [removeOldestRev], ?_⟩
    · intro x hx
      simp [removeOldestRev] at hx
    · intro h
      simp [removeOldestRev] at h
  | cons s rest ih =>
    by_cases h0 : amount = 0
    · subst h0
      have hres : removeOldestRev 0 (s :: rest) = (0, s :: rest) := by
        simp [removeOldestRev]
      rw [hres]
      refine ⟨by simp, by simp, fun x hx => ⟨x, hx, rfl, le_refl _⟩,
        List.Sublist.refl _, fun _ => rfl⟩
    · by_cases h1 : amount ≤ s.value
      · by_cases h2 : s.value - amount = 0
        · have hres : removeOldestRev amount (s :: rest) = (amount, rest) := by
            simp [removeOldestRev, h0, h1, h2]
          rw [hres]
          dsimp only
          have hva : s.value = amount := by omega
          refine ⟨?_, ?_, fun x hx => ⟨x, by simp [hx], rfl, le_refl _⟩, ?_, ?_⟩
          · rw [segSum_cons]; omega
          · rw [segSum_cons]; omega
          · rw [List.map_cons]
            exact List.sublist_cons_self _ _
          · intro hne
            cases rest with
            | nil => exact absurd rfl hne
            | cons a b => rw [List.getLast?_cons_cons]
        · have hres : removeOldestRev amount (s :: rest)
              = (amount, { s with value := s.value - amount } :: rest) := by
            simp [removeOldestRev, h0, h1, h2]
          rw [hres]
          dsimp only
          refine ⟨?_, ?_, ?_, ?_, ?_⟩
          · rw [segSum_cons]; omega
          · rw [segSum_cons, segSum_cons]
            dsimp only
            omega
          · intro x hx
            rcases List.mem_cons.mp hx with rfl | hx
            · refine ⟨s, by simp, rfl, ?_⟩
              dsimp only
              omega
            · exact ⟨x, by simp [hx], rfl, le_refl _⟩
          · rw [List.map_cons, List.map_cons]
          · intro hne
            cases rest with
            | nil => rfl
            | cons a b => rw [List.getLast?_cons_cons, List.getLast?_cons_cons]
      · obtain ⟨ih1, ih2, ih3, ih4, ih5⟩ := ih (amount - s.value)
        have hres : removeOldestRev amount (s :: rest)
            = (s.value + (removeOldestRev (amount - s.value) rest).1,
               (removeOldestRev (amount - s.value) rest).2) := by
          simp [removeOldestRev, h0, h1]
        rw [hres]
        dsimp only
        refine ⟨?_, ?_, ?_, ?_, ?_⟩
        · rw [segSum_cons]; omega
        · rw [segSum_cons]; omega
        · intro x hx
          obtain ⟨y, hy, he, hv⟩ := ih3 x hx
          exact ⟨y, by simp [hy], he, hv⟩
        · rw [List.map_cons]
          exact ih4.trans (List.sublist_cons_self _ _)
        · intro hne
          have hrestne : rest ≠ [] := by
            intro hrnil
            rw [hrnil] at hne
            simp [removeOldestRev] at hne
          rw [ih5 hne]
          cases rest with
          | nil => exact absurd rfl hrestne
          | cons a b => rw [List.getLast?_cons_cons]

theorem removeFromOldestSegments_spec (cfg : EffectiveConfig) (req : SubmitRequest)
    (amount : Nat) (tenant : TenantData)
    (htot : tenant.windowTotal = segSum tenant.windowQueue)
    (hsorted : StrictlyNewestFirst tenant.windowQueue)
    (halign : Aligned cfg tenant.windowQueue)
    (hSdvd : cfg.windowSegmentSize ∣ req.requestSegmentStartTime) :
    (removeFromOldestSegments req amount tenant).windowTotal
        = tenant.windowTotal - min amount tenant.windowTotal ∧
    (removeFromOldestSegments req amount tenant).windowTotal
        = segSum (removeFromOldestSegments req amount tenant).windowQueue ∧
    StrictlyNewestFirst (removeFromOldestSegments req amount tenant).windowQueue ∧
    Aligned cfg (removeFromOldestSegments req amount tenant).windowQueue ∧
    (removeFromOldestSegments req amount tenant).windowQueue ≠ [] ∧
    (∀ f rest, tenant.windowQueue = f :: rest →
        f.startTime = req.requestSegmentStartTime →
      ∃ f2 rest2,
        (removeFromOldestSegments req amount tenant).windowQueue = f2 :: rest2 ∧
        f2.startTime = req.requestSegmentStartTime) ∧
    (removeFromOldestSegments req amount tenant).wasOver = tenant.wasOver ∧
    (removeFromOldestSegments req amount tenant).version = tenant.version ∧
    (∀ x ∈ (removeFromOldestSegments req amount tenant).windowQueue,
      (∃ y ∈ tenant.windowQueue, x.startTime = y.startTime) ∨
       x.startTime = req.requestSegmentStartTime) := by
  obtain ⟨hr1, hr2, hr3, hr4, hr5⟩ :=
    removeOldestRev_spec amount tenant.windowQueue.reverse
  have hsums : segSum tenant.windowQueue.reverse = segSum tenant.windowQueue :=
    segSum_reverse _
  by_cases hq1 : (removeOldestRev amount tenant.windowQueue.reverse).2.reverse = []
  · have hres : removeFromOldestSegments req amount tenant
        = { tenant with
            windowQueue := [{ startTime := req.requestSegmentStartTime, value := 0 }]
            windowTotal := tenant.windowTotal
              - (removeOldestRev amount tenant.windowQueue.reverse).1 } := by
      simp [removeFromOldestSegments, hq1]
    have hp2 : (removeOldestRev amount tenant.windowQueue.reverse).2 = [] := by
      rwa [List.reverse_eq_nil_iff] at hq1
    have hzero : segSum (removeOldestRev amount tenant.windowQueue.reverse).2 = 0 := by
      rw [hp2]; rfl
    rw [hres]
    refine ⟨by dsimp only; rw [hr1, hsums]; omega, ?_, ?_, ?_, by simp, ?_, rfl, rfl, ?_⟩
    · have h0 := hr2
      rw [hp2, segSum_nil, hsums] at h0
      dsimp only
      rw [hr1, hsums]
      have hrhs : segSum [{ startTime := req.requestSegmentStartTime, value := 0 }]
          = 0 := by simp [segSum]
      rw [hrhs]
      omega
    · simp [StrictlyNewestFirst]
    · intro x hx
      simp at hx
      rw [hx]
      exact hSdvd
    · intro f rest _ _
      exact ⟨_, [], rfl, rfl⟩
    · intro x hx
      simp at hx
      rw [hx]
      exact Or.inr rfl
  · have hres : removeFromOldestSegments req amount tenant
        = { tenant with
            windowQueue := (removeOldestRev amount tenant.windowQueue.reverse).2.reverse
            windowTotal := tenant.windowTotal
              - (removeOldestRev amount tenant.windowQueue.reverse).1 } := by
      simp [removeFromOldestSegments, hq1]
    have hp2 : (removeOldestRev amount tenant.windowQueue.reverse).2 ≠ [] := by
      intro h
      rw [h] at hq1
      exact hq1 rfl
    rw [hres]
    refine ⟨by dsimp only; rw [hr1, hsums]; omega, ?_, ?_, ?_, hq1, ?_, rfl, rfl, ?_⟩
    · dsimp only
      rw [segSum_reverse, hr2, hr1, hsums]
      omega
    · rw [strictlyNewestFirst_iff_keys]
      have hkeys : List.Sublist
          ((removeOldestRev amount tenant.windowQueue.reverse).2.reverse.map
            (fun s => s.startTime))
          (tenant.windowQueue.map (fun s => s.startTime)) := by
        rw [List.map_reverse]
        have := hr4.reverse
        rwa [List.map_reverse, List.reverse_reverse] at this
      exact (strictlyNewestFirst_iff_keys.mp hsorted).sublist hkeys
    · intro x hx
      obtain ⟨y, hy, he, -⟩ := hr3 x (List.mem_reverse.mp hx)
      rw [he]
      exact halign y (List.mem_reverse.mp hy)
    · intro f rest hqe hfS
      cases hk : (removeOldestRev amount tenant.windowQueue.reverse).2.reverse with
      | nil => exact absurd hk hq1
      | cons f2 rest2 =>
        refine ⟨f2, rest2, rfl, ?_⟩
        have hhead : (removeOldestRev amount tenant.windowQueue.reverse).2.reverse.head?
            = some f2 := by rw [hk]; rfl
        rw [List.head?_reverse] at hhead
        have h5 := hr5 hp2
        rw [hhead, List.getLast?_reverse, hqe] at h5
        simp only [List.head?_cons, Option.map_some', Option.some.injEq] at h5
        omega
    · intro x hx
      obtain ⟨y, hy, he, -⟩ := hr3 x (List.mem_reverse.mp hx)
      exact Or.inl ⟨y, List.mem_reverse.mp hy, he⟩

/-- Behaviour of `applyCapping` on a well-formed state: it never increases
the total, it enforces the absolute cap when enabled, and it preserves the
window invariants, the non-emptiness and the front segment. -/
theorem applyCapping_spec (cfg : EffectiveConfig) (req : SubmitRequest)
    (tenant : TenantData)
    (htot : tenant.windowTotal = segSum tenant.windowQueue)
    (hsorted : StrictlyNewestFirst tenant.windowQueue)
    (halign : Aligned cfg tenant.windowQueue)
    (hSdvd : cfg.windowSegmentSize ∣ req.requestSegmentStartTime) :
    (applyCapping cfg req tenant).windowTotal ≤ tenant.windowTotal ∧
    (cfg.applyPenaltyCapping = true →
      (applyCapping cfg req tenant).windowTotal ≤ cfg.absoluteMaxPenaltyCap) ∧
    (applyCapping cfg req tenant).windowTotal
        = segSum (applyCapping cfg req tenant).windowQueue ∧
    StrictlyNewestFirst (applyCapping cfg req tenant).windowQueue ∧
    Aligned cfg (applyCapping cfg req tenant).windowQueue ∧
    (tenant.windowQueue ≠ [] → (applyCapping cfg req tenant).windowQueue ≠ []) ∧
    (∀ f rest, tenant.windowQueue = f :: rest →
        f.startTime = req.requestSegmentStartTime →
      ∃ f2 rest2, (applyCapping cfg req tenant).windowQueue = f2 :: rest2 ∧
        f2.startTime = req.requestSegmentStartTime) ∧
    (applyCapping cfg req tenant).wasOver = tenant.wasOver ∧
    (applyCapping cfg req tenant).version = tenant.version ∧
    (∀ x ∈ (applyCapping cfg req tenant).windowQueue,
      (∃ y ∈ tenant.windowQueue, x.startTime = y.startTime) ∨
       x.startTime = req.requestSegmentStartTime) := by
  by_cases hcap : cfg.applyPenaltyCapping = true
  · by_cases hover : cfg.absoluteMaxPenaltyCap < tenant.windowTotal
    · have hres : applyCapping cfg req tenant
          = removeFromOldestSegments req
            (tenant.windowTotal - cfg.absoluteMaxPenaltyCap) tenant := by
        simp [applyCapping, hcap, hover]
      obtain ⟨hm1, hm2, hm3, hm4, hm5, hm6, hm7, hm8, hm9⟩ :=
        removeFromOldestSegments_spec cfg req
          (tenant.windowTotal - cfg.absoluteMaxPenaltyCap) tenant htot hsorted halign hSdvd
      rw [hres]
      exact ⟨by omega, fun _ => by omega, hm2, hm3, hm4, fun _ => hm5, hm6, hm7, hm8, hm9⟩
    · have hres : applyCapping cfg req tenant = tenant := by
        simp [applyCapping, hcap, hover]
      rw [hres]
      refine ⟨le_refl _, fun _ => by omega, htot, hsorted, halign, fun h => h, ?_, rfl, rfl, ?_⟩
      · intro f rest hq hf
        exact ⟨f, rest, hq, hf⟩
      · intro x hx
        exact Or.inl ⟨x, hx, rfl⟩
  · have hres : applyCapping cfg req tenant = tenant := by
      simp [applyCapping, hcap]
    rw [hres]
    refine ⟨le_refl _, fun h => absurd h hcap, htot, hsorted, halign, fun h => h, ?_, rfl,
      rfl, ?_⟩
    · intro f rest hq hf
      exact ⟨f, rest, hq, hf⟩
    · intro x hx
      exact Or.inl ⟨x, hx, rfl⟩

/-! ### Accept and reject paths -/

theorem rotated_hub {cfg : EffectiveConfig} {req : SubmitRequest} {tenant : TenantData}
    (hrot : RotatedState cfg req tenant) :
    ∀ x ∈ tenant.windowQueue, x.startTime ≤ req.requestSegmentStartTime := by
  obtain ⟨⟨-, hsorted, -⟩, ⟨f, rest, hq, hf⟩, -⟩ := hrot
  intro x hx
  rw [hq] at hx hsorted
  have := strictlyNewestFirst_head_max hsorted x hx
  omega

theorem applyCapping_noop (cfg : EffectiveConfig) (req : SubmitRequest)
    (tenant : TenantData)
    (h : cfg.applyPenaltyCapping = true →
      tenant.windowTotal ≤ cfg.absoluteMaxPenaltyCap) :
    applyCapping cfg req tenant = tenant := by
  by_cases hcap : cfg.applyPenaltyCapping = true
  · have hle := h hcap
    have hnlt : ¬ cfg.absoluteMaxPenaltyCap < tenant.windowTotal := by omega
    simp [applyCapping, hcap, hnlt]
  · simp [applyCapping, hcap]

/-- Exact behaviour of `acceptLoad` when capping cannot fire (in particular
whenever the load was admitted, since then the new total is within
`maxLoad ≤ absoluteMaxPenaltyCap`): the load lands on the front segment and
the total, the overload flag clears, the version bumps once. -/
theorem acceptLoad_exact (cfg : EffectiveConfig) (req : SubmitRequest)
    (tenant : TenantData)
    (hrot : RotatedState cfg req tenant)
    (hnocap : cfg.applyPenaltyCapping = true →
      tenant.windowTotal + req.requestedLoad ≤ cfg.absoluteMaxPenaltyCap) :
    ∃ f rest, tenant.windowQueue = f :: rest ∧
      (acceptLoad cfg req tenant).windowQueue
        = { f with value := f.value + req.requestedLoad } :: rest ∧
      (acceptLoad cfg req tenant).windowTotal
        = tenant.windowTotal + req.requestedLoad ∧
      (acceptLoad cfg req tenant).wasOver = false ∧
      (acceptLoad cfg req tenant).version = tenant.version + 1 := by
  obtain ⟨⟨htot, hsorted, halign⟩, ⟨f, rest, hq, hf⟩, -⟩ := hrot
  have hres : acceptLoad cfg req tenant
      = markDirty (applyCapping cfg req
          { tenant with
            wasOver := false
            windowTotal := tenant.windowTotal + req.requestedLoad
            windowQueue := { f with value := f.value + req.requestedLoad } :: rest }) := by
    simp only [acceptLoad, hq]
  have hnoop : applyCapping cfg req
      { tenant with
        wasOver := false
        windowTotal := tenant.windowTotal + req.requestedLoad
        windowQueue := { f with value := f.value + req.requestedLoad } :: rest }
      = { tenant with
          wasOver := false
          windowTotal := tenant.windowTotal + req.requestedLoad
          windowQueue := { f with value := f.value + req.requestedLoad } :: rest } :=
    applyCapping_noop cfg req _ (fun hcap => hnocap hcap)
  rw [hres, hnoop]
  exact ⟨f, rest, hq, rfl, rfl, rfl, rfl⟩

/-- Invariant-level behaviour of `acceptLoad` on a rotated state: the
overload flag clears, the version bumps once, the invariants survive, the
queue stays non-empty and the capped total respects the absolute cap. -/
theorem acceptLoad_spec (cfg : EffectiveConfig) (req : SubmitRequest)
    (tenant : TenantData)
    (hrot : RotatedState cfg req tenant)
    (hSdvd : cfg.windowSegmentSize ∣ req.requestSegmentStartTime) :
    (acceptLoad cfg req tenant).wasOver = false ∧
    (acceptLoad cfg req tenant).version = tenant.version + 1 ∧
    (acceptLoad cfg req tenant).windowTotal
      = segSum (acceptLoad cfg req tenant).windowQueue ∧
    StrictlyNewestFirst (acceptLoad cfg req tenant).windowQueue ∧
    Aligned cfg (acceptLoad cfg req tenant).windowQueue ∧
    (acceptLoad cfg req tenant).windowQueue ≠ [] ∧
    (cfg.applyPenaltyCapping = true →
      (acceptLoad cfg req tenant).windowTotal ≤ cfg.absoluteMaxPenaltyCap) := by
  obtain ⟨⟨htot, hsorted, halign⟩, ⟨f, rest, hq, hf⟩, -⟩ := hrot
  have hres : acceptLoad cfg req tenant
      = markDirty (applyCapping cfg req
          { tenant with
            wasOver := false
            windowTotal := tenant.windowTotal + req.requestedLoad
            windowQueue := { f with value := f.value + req.requestedLoad } :: rest }) := by
    simp only [acceptLoad, hq]
  have ht1tot : tenant.windowTotal + req.requestedLoad
      = segSum ({ f with value := f.value + req.requestedLoad } :: rest) := by
    rw [segSum_cons]
    rw [hq, segSum_cons] at htot
    dsimp only
    omega
  have ht1sorted : StrictlyNewestFirst
      ({ f with value := f.value + req.requestedLoad } :: rest) := by
    rw [strictlyNewestFirst_iff_keys]
    rw [hq] at hsorted
    rw [strictlyNewestFirst_iff_keys] at hsorted
    simpa using hsorted
  have ht1align : Aligned cfg ({ f with value := f.value + req.requestedLoad } :: rest) := by
    intro x hx
    rcases List.mem_cons.mp hx with rfl | hx
    · have : f ∈ tenant.windowQueue := by rw [hq]; simp
      exact halign f this
    · exact halign x (by rw [hq]; simp [hx])
  obtain ⟨hc1, hc2, hc3, hc4, hc5, hc6, hc7, hc8, hc9, hc10⟩ :=
    applyCapping_spec cfg req
      { tenant with
        wasOver := false
        windowTotal := tenant.windowTotal + req.requestedLoad
        windowQueue := { f with value := f.value + req.requestedLoad } :: rest }
      ht1tot ht1sorted ht1align hSdvd
  rw [hres]
  refine ⟨hc8, by rw [markDirty]; rw [hc9], hc3, hc4, hc5, hc6 (by simp), hc2⟩

theorem rejectRetryResult_accepted (cfg : EffectiveConfig) (req : SubmitRequest)
    (t : TenantData) : (rejectRetryResult cfg req t).accepted = false := by
  unfold rejectRetryResult
  split
  · split <;> rfl
  · rfl

/-- Invariant-level behaviour of `rejectLoad` on a rotated state: the call
always rejects, leaves the tenant overloaded, preserves the window
invariants and the non-empty queue, bumps the version at most once, and
never lets a capped total grow past the absolute cap. -/
theorem rejectLoad_spec (cfg : EffectiveConfig) (req : SubmitRequest)
    (tenant : TenantData)
    (hc : CfgWF cfg) (hr : ReqWF cfg req)
    (hrot : RotatedState cfg req tenant) :
    (rejectLoad cfg req tenant).1.accepted = false ∧
    (rejectLoad cfg req tenant).2.wasOver = true ∧
    (rejectLoad cfg req tenant).2.windowTotal
      = segSum (rejectLoad cfg req tenant).2.windowQueue ∧
    StrictlyNewestFirst (rejectLoad cfg req tenant).2.windowQueue ∧
    Aligned cfg (rejectLoad cfg req tenant).2.windowQueue ∧
    (rejectLoad cfg req tenant).2.windowQueue ≠ [] ∧
    ((rejectLoad cfg req tenant).2.version = tenant.version ∨
     (rejectLoad cfg req tenant).2.version = tenant.version + 1) ∧
    (cfg.applyPenaltyCapping = true →
      tenant.windowTotal ≤ cfg.absoluteMaxPenaltyCap →
      (rejectLoad cfg req tenant).2.windowTotal ≤ cfg.absoluteMaxPenaltyCap) := by
  obtain ⟨hSdvd, hSt, htS, hsegws⟩ := reqWF_facts hc hr
  obtain ⟨hseg, hws, hnum, hsp1, hsp2, hsp3, hsp4, -⟩ := hc
  obtain ⟨-, hwsS⟩ := hr
  have hub := rotated_hub hrot
  obtain ⟨⟨htot, hsorted, halign⟩, ⟨f, rest, hq, hf⟩, -⟩ := hrot
  have hqne : tenant.windowQueue ≠ [] := by rw [hq]; simp
  have hspanle : ∀ n : Nat, n ≤ cfg.numSegments →
      (n - 1) * cfg.windowSegmentSize ≤ req.requestSegmentStartTime := by
    intro n hn
    calc (n - 1) * cfg.windowSegmentSize
        ≤ cfg.numSegments * cfg.windowSegmentSize :=
          Nat.mul_le_mul_right _ (by omega)
      _ = cfg.windowSize := hws.symm
      _ ≤ req.requestSegmentStartTime := hwsS
  -- a reusable account of the penalty phase followed by capping and dirty
  have main : ∀ amount span : Nat, 0 < span → span ≤ cfg.numSegments →
      ∀ wo : Bool,
      ((applyCapping cfg req
          { distributePenalty cfg req amount span tenant with wasOver := wo }).wasOver
        = wo ∧
       (applyCapping cfg req
          { distributePenalty cfg req amount span tenant with wasOver := wo }).windowTotal
        = segSum (applyCapping cfg req
          { distributePenalty cfg req amount span tenant with
            wasOver := wo }).windowQueue ∧
       StrictlyNewestFirst (applyCapping cfg req
          { distributePenalty cfg req amount span tenant with wasOver := wo }).windowQueue ∧
       Aligned cfg (applyCapping cfg req
          { distributePenalty cfg req amount span tenant with wasOver := wo }).windowQueue ∧
       (applyCapping cfg req
          { distributePenalty cfg req amount span tenant with
            wasOver := wo }).windowQueue ≠ [] ∧
       (applyCapping cfg req
          { distributePenalty cfg req amount span tenant with wasOver := wo }).version
        = tenant.version ∧
       (cfg.applyPenaltyCapping = true →
        (applyCapping cfg req
          { distributePenalty cfg req amount span tenant with
            wasOver := wo }).windowTotal ≤ cfg.absoluteMaxPenaltyCap)) := by
    intro amount span hsp0 hsple wo
    obtain ⟨hd1, hd2, hd3, hd4, hd5, hd6, hd7, hd8⟩ :=
      distributePenalty_spec cfg req amount span tenant hseg hsp0
        (hspanle span hsple) hSdvd hsorted halign hub
    have hDtot : ({ distributePenalty cfg req amount span tenant with
        wasOver := wo } : TenantData).windowTotal
        = segSum ({ distributePenalty cfg req amount span tenant with
          wasOver := wo } : TenantData).windowQueue := by
      dsimp only
      rw [hd1, hd4, htot]
    obtain ⟨hc1, hc2, hc3, hc4, hc5, hc6, hc7, hc8, hc9, hc10⟩ :=
      applyCapping_spec cfg req
        { distributePenalty cfg req amount span tenant with wasOver := wo }
        hDtot hd5 hd6 hSdvd
    have hDne : ({ distributePenalty cfg req amount span tenant with
        wasOver := wo } : TenantData).windowQueue ≠ [] := by
      dsimp only
      by_cases h0 : 0 < amount
      · obtain ⟨g, grest, hg, -⟩ := hd8 h0
        rw [hg]
        simp
      · have ha0 : amount = 0 := by omega
        subst ha0
        have : distributePenalty cfg req 0 span tenant = tenant := by
          simp [distributePenalty]
        rw [this, hq]
        simp
    exact ⟨hc8, hc3, hc4, hc5, hc6 hDne, by rw [hc9]; exact hd3, hc2⟩
  by_cases hwo : tenant.wasOver = false
  · by_cases hop : cfg.applyOverstepPenalty = true
    · have hres : (rejectLoad cfg req tenant).2
          = markDirty (applyCapping cfg req
            { distributePenalty cfg req cfg.absoluteOverstepPenalty
                cfg.overstepPenaltySegmentSpan tenant with wasOver := true }) := by
        simp [rejectLoad, rejectPenaltyStep, hwo, hop]
      obtain ⟨hm1, hm2, hm3, hm4, hm5, hm6, hm7⟩ :=
        main cfg.absoluteOverstepPenalty cfg.overstepPenaltySegmentSpan hsp1 hsp2 true
      refine ⟨rejectRetryResult_accepted cfg req _, ?_, ?_, ?_, ?_, ?_, ?_, ?_⟩
      · rw [hres]; exact hm1
      · rw [hres]; exact hm2
      · rw [hres]; exact hm3
      · rw [hres]; exact hm4
      · rw [hres]; exact hm5
      · rw [hres]
        right
        rw [markDirty, hm6]
      · intro h1 _
        rw [hres]
        exact hm7 h1
    · have hres : (rejectLoad cfg req tenant).2
          = markDirty { tenant with wasOver := true } := by
        simp [rejectLoad, rejectPenaltyStep, hwo, hop]
      rw [hres]
      refine ⟨rejectRetryResult_accepted cfg req _, rfl, htot, hsorted, halign, hqne,
        Or.inr rfl, ?_⟩
      intro _ h2
      exact h2
  · rw [Bool.not_eq_false] at hwo
    by_cases hov : cfg.applyRequestOverheadPenalty = true
    · by_cases hpen : 1 ≤ roundHalfUp
          (cfg.requestOverheadPenaltyFactor * (req.requestedLoad : Rat))
      · have hres : (rejectLoad cfg req tenant).2
            = markDirty (applyCapping cfg req
              (distributePenalty cfg req
                (roundHalfUp (cfg.requestOverheadPenaltyFactor
                  * (req.requestedLoad : Rat))).toNat
                cfg.requestOverheadPenaltySegmentSpan tenant)) := by
          simp [rejectLoad, rejectPenaltyStep, hwo, hov, hpen]
        have hDeq : (distributePenalty cfg req
              (roundHalfUp (cfg.requestOverheadPenaltyFactor
                * (req.requestedLoad : Rat))).toNat
              cfg.requestOverheadPenaltySegmentSpan tenant)
            = { distributePenalty cfg req
                (roundHalfUp (cfg.requestOverheadPenaltyFactor
                  * (req.requestedLoad : Rat))).toNat
                cfg.requestOverheadPenaltySegmentSpan tenant with
                wasOver := tenant.wasOver } := by
          obtain ⟨-, hwoeq, -⟩ := distributePenalty_spec cfg req
            (roundHalfUp (cfg.requestOverheadPenaltyFactor
              * (req.requestedLoad : Rat))).toNat
            cfg.requestOverheadPenaltySegmentSpan tenant hseg hsp3
            (hspanle _ hsp4) hSdvd hsorted halign hub
          cases hD : distributePenalty cfg req
            (roundHalfUp (cfg.requestOverheadPenaltyFactor
              * (req.requestedLoad : Rat))).toNat
            cfg.requestOverheadPenaltySegmentSpan tenant
          rw [hD] at hwoeq
          simp only [] at hwoeq ⊢
          rw [hwoeq]
        obtain ⟨hm1, hm2, hm3, hm4, hm5, hm6, hm7⟩ :=
          main (roundHalfUp (cfg.requestOverheadPenaltyFactor
            * (req.requestedLoad : Rat))).toNat
            cfg.requestOverheadPenaltySegmentSpan hsp3 hsp4 tenant.wasOver
        refine ⟨rejectRetryResult_accepted cfg req _, ?_, ?_, ?_, ?_, ?_, ?_, ?_⟩
        · rw [hres, hDeq]
          exact hm1.trans hwo
        · rw [hres, hDeq]; exact hm2
        · rw [hres, hDeq]; exact hm3
        · rw [hres, hDeq]; exact hm4
        · rw [hres, hDeq]; exact hm5
        · rw [hres, hDeq]
          right
          rw [markDirty, hm6]
        · intro h1 _
          rw [hres, hDeq]
          exact hm7 h1
      · have hres : (rejectLoad cfg req tenant).2 = tenant := by
          simp [rejectLoad, rejectPenaltyStep, hwo, hov, hpen]
        rw [hres]
        exact ⟨rejectRetryResult_accepted cfg req _, hwo, htot, hsorted, halign, hqne,
          Or.inl rfl, fun _ h2 => h2⟩
    · have hres : (rejectLoad cfg req tenant).2 = tenant := by
        simp [rejectLoad, rejectPenaltyStep, hwo, hov]
      rw [hres]
      exact ⟨rejectRetryResult_accepted cfg req _, hwo, htot, hsorted, halign, hqne,
        Or.inl rfl, fun _ h2 => h2⟩

/-! ### `computeRetryIn` -/

theorem retryWalk_stop (l : List WindowSegment) (tf : Int) (last : Nat)
    (h : ¬ 0 < tf) : retryWalk l tf last = (last, tf) := by
  cases l with
  | nil => rfl
  | cons a rest => simp [retryWalk, h]

theorem retryWalk_acc (x : WindowSegment) (rest : List WindowSegment) (tf : Int)
    (a b : Nat) (h : 0 < tf) :
    retryWalk (x :: rest) tf a = retryWalk (x :: rest) tf b := by
  simp [retryWalk, h]

/-- The walk of `computeRetryIn` stops exactly at the oldest-to-newest
position where the running value sum first reaches `tf`: the visited prefix
`pre` did not suffice, the stopping segment `s` carries positive value and
completes the freeing, and the walk reports its start time with a
non-positive remainder. -/
theorem retryWalk_spec : ∀ (l : List WindowSegment) (tf : Int),
    0 < tf → tf ≤ (segSum l : Int) →
    ∃ pre s post, l = pre ++ s :: post ∧
      (retryWalk l tf 0).1 = s.startTime ∧
      (retryWalk l tf 0).2 ≤ 0 ∧
      0 < s.value ∧
      ((segSum pre : Int) < tf ∧ tf ≤ (segSum pre : Int) + (s.value : Int)) := by
  intro l
  induction l with
  | nil =>
    intro tf htf hle
    rw [segSum_nil] at hle
    omega
  | cons a rest ih =>
    intro tf htf hle
    rw [segSum_cons] at hle
    push_cast at hle
    have hstep : retryWalk (a :: rest) tf 0
        = retryWalk rest (if 0 < a.value then tf - (a.value : Int) else tf)
            a.startTime := by
      simp [retryWalk, htf]
    by_cases hdone : (if 0 < a.value then tf - (a.value : Int) else tf) ≤ 0
    · have hval : 0 < a.value := by
        by_cases hv : 0 < a.value
        · exact hv
        · rw [if_neg hv] at hdone; omega
      rw [if_pos hval] at hdone
      refine ⟨[], a, rest, rfl, ?_, ?_, hval, ?_⟩
      · rw [hstep, if_pos hval, retryWalk_stop _ _ _ (by omega)]
      · rw [hstep, if_pos hval, retryWalk_stop _ _ _ (by omega)]
        exact hdone
      · rw [segSum_nil]
        push_cast
        omega
    · have hpos : 0 < (if 0 < a.value then tf - (a.value : Int) else tf) := by omega
      have hle' : (if 0 < a.value then tf - (a.value : Int) else tf)
          ≤ (segSum rest : Int) := by
        by_cases hv : 0 < a.value
        · rw [if_pos hv]; omega
        · rw [if_neg hv]
          have : a.value = 0 := by omega
          omega
      obtain ⟨pre, s, post, hdec, hlast, hrem, hsval, hlo, hhi⟩ := ih _ hpos hle'
      have hrestne : rest ≠ [] := by
        intro hnil
        rw [hnil, segSum_nil] at hle'
        omega
      have haccs : retryWalk rest (if 0 < a.value then tf - (a.value : Int) else tf)
          a.startTime
          = retryWalk rest (if 0 < a.value then tf - (a.value : Int) else tf) 0 := by
        cases rest with
        | nil => exact absurd rfl hrestne
        | cons r0 rr => exact retryWalk_acc r0 rr _ _ _ hpos
      refine ⟨a :: pre, s, post, by rw [List.cons_append, hdec], ?_, ?_, hsval, ?_⟩
      · rw [hstep, haccs, hlast]
      · rw [hstep, haccs]
        exact hrem
      · rw [segSum_cons]
        push_cast
        by_cases hv : 0 < a.value
        · rw [if_pos hv] at hlo hhi
          omega
        · rw [if_neg hv] at hlo hhi
          have : a.value = 0 := by omega
          omega

/-- Full case analysis of `computeRetryIn` on a rotated, well-formed state:
an over-max request fails, a fitting request waits zero, and otherwise the
call returns the age-out time of the oldest-to-newest walk's last
contributing segment, which is never in the past. -/
theorem computeRetryIn_spec (cfg : EffectiveConfig) (req : SubmitRequest)
    (tenant : TenantData)
    (hc : CfgWF cfg) (hr : ReqWF cfg req)
    (hrot : RotatedState cfg req tenant) :
    (cfg.maxLoad < req.requestedLoad →
      computeRetryIn cfg req tenant = .error .excessiveLoad) ∧
    (req.requestedLoad ≤ cfg.maxLoad →
      req.requestedLoad + tenant.windowTotal ≤ cfg.maxLoad →
      computeRetryIn cfg req tenant = .ok 0) ∧
    (req.requestedLoad ≤ cfg.maxLoad →
      cfg.maxLoad < req.requestedLoad + tenant.windowTotal →
      ∃ d pre s post,
        computeRetryIn cfg req tenant = .ok d ∧
        tenant.windowQueue.reverse = pre ++ s :: post ∧
        0 < s.value ∧
        segSum pre < req.requestedLoad + tenant.windowTotal - cfg.maxLoad ∧
        req.requestedLoad + tenant.windowTotal - cfg.maxLoad
          ≤ segSum pre + s.value ∧
        req.requestedTimestamp ≤ s.startTime + cfg.windowSize ∧
        d = s.startTime + cfg.windowSize - req.requestedTimestamp) := by
  obtain ⟨hSdvd, hSt, htS, hsegws⟩ := reqWF_facts hc hr
  obtain ⟨-, hwsS⟩ := hr
  obtain ⟨⟨htot, hsorted, halign⟩, ⟨f, rest, hq, hf⟩, hage⟩ := hrot
  refine ⟨?_, ?_, ?_⟩
  · intro hover
    simp [computeRetryIn, hover]
  · intro hle hfit
    have hnover : ¬ cfg.maxLoad < req.requestedLoad := by omega
    have htf : ((req.requestedLoad : Int) + (tenant.windowTotal : Int)
        - (cfg.maxLoad : Int)) ≤ 0 := by omega
    simp [computeRetryIn, hnover, htf]
  · intro hle hfree
    have hnover : ¬ cfg.maxLoad < req.requestedLoad := by omega
    have htf : ¬ ((req.requestedLoad : Int) + (tenant.windowTotal : Int)
        - (cfg.maxLoad : Int)) ≤ 0 := by omega
    have htfpos : 0 < (req.requestedLoad : Int) + (tenant.windowTotal : Int)
        - (cfg.maxLoad : Int) := by omega
    have htfle : (req.requestedLoad : Int) + (tenant.windowTotal : Int)
        - (cfg.maxLoad : Int) ≤ (segSum tenant.windowQueue.reverse : Int) := by
      rw [segSum_reverse, ← htot]
      omega
    obtain ⟨pre, s, post, hdec, hlast, hrem, hsval, hlo, hhi⟩ :=
      retryWalk_spec tenant.windowQueue.reverse _ htfpos htfle
    have hsmem : s ∈ tenant.windowQueue := by
      rw [← List.mem_reverse, hdec]
      simp
    have hsage := hage s hsmem
    have hspos : 0 < s.startTime := by omega
    have hlastne : (retryWalk tenant.windowQueue.reverse
        ((req.requestedLoad : Int) + (tenant.windowTotal : Int)
          - (cfg.maxLoad : Int)) 0).1 ≠ 0 := by
      rw [hlast]
      omega
    have hremle : ¬ (0 < (retryWalk tenant.windowQueue.reverse
        ((req.requestedLoad : Int) + (tenant.windowTotal : Int)
          - (cfg.maxLoad : Int)) 0).2) := by omega
    have hnopanic : ¬ ((retryWalk tenant.windowQueue.reverse
        ((req.requestedLoad : Int) + (tenant.windowTotal : Int)
          - (cfg.maxLoad : Int)) 0).1 + cfg.windowSize
        < req.requestedTimestamp) := by
      rw [hlast]
      omega
    refine ⟨s.startTime + cfg.windowSize - req.requestedTimestamp, pre, s, post,
      ?_, hdec, hsval, ?_, ?_, by omega, rfl⟩
    · simp only [computeRetryIn, if_neg hnover, if_neg htf]
      rw [if_neg (by push_neg; exact ⟨hlastne, by omega⟩), if_neg hnopanic, hlast]
    · omega
    · omega

/-! ### The public operations -/

/-- A request built by `buildLoadRequest` from any timestamp at least one
window plus one segment past the epoch is well formed. -/
theorem reqWF_buildLoadRequest (cfg : EffectiveConfig) (timestamp load : Nat)
    (hc : CfgWF cfg)
    (hts : cfg.windowSize + cfg.windowSegmentSize ≤ timestamp) :
    ReqWF cfg (buildLoadRequest cfg timestamp load) := by
  obtain ⟨hseg, hws, hnum, -⟩ := hc
  refine ⟨rfl, ?_⟩
  show cfg.windowSize ≤ locateSegmentStartTime cfg timestamp
  unfold locateSegmentStartTime
  have h1 : cfg.numSegments + 1 ≤ timestamp / cfg.windowSegmentSize := by
    have h2 : (cfg.numSegments + 1) * cfg.windowSegmentSize ≤ timestamp := by
      have hexp : (cfg.numSegments + 1) * cfg.windowSegmentSize
          = cfg.numSegments * cfg.windowSegmentSize + cfg.windowSegmentSize := by ring
      rw [hws] at hts
      omega
    have h3 := Nat.div_le_div_right (c := cfg.windowSegmentSize) h2
    rwa [Nat.mul_div_cancel _ hseg] at h3
  calc cfg.windowSize = cfg.numSegments * cfg.windowSegmentSize := hws
    _ ≤ (timestamp / cfg.windowSegmentSize) * cfg.windowSegmentSize :=
        Nat.mul_le_mul_right _ (by omega)

theorem probeOp_state (cfg : EffectiveConfig) (timestamp load : Nat)
    (tenant : TenantData) :
    (probeOp cfg timestamp load tenant).2
      = rotateWindow cfg (buildLoadRequest cfg timestamp load) tenant ∧
    (probeOp cfg timestamp load tenant).1
      = decide ((rotateWindow cfg (buildLoadRequest cfg timestamp load) tenant).windowTotal
          + load ≤ cfg.maxLoad) :=
  ⟨rfl, rfl⟩

theorem submitOp_accepts (cfg : EffectiveConfig) (timestamp load : Nat)
    (tenant : TenantData)
    (h : (rotateWindow cfg (buildLoadRequest cfg timestamp load) tenant).windowTotal
        + load ≤ cfg.maxLoad) :
    submitOp cfg timestamp load tenant
      = ({ accepted := true, retryInAvailable := false, retryIn := 0 },
         acceptLoad cfg (buildLoadRequest cfg timestamp load)
           (rotateWindow cfg (buildLoadRequest cfg timestamp load) tenant)) := by
  have hrl : (buildLoadRequest cfg timestamp load).requestedLoad = load := rfl
  simp [submitOp, probeCore, hrl, h]

theorem submitOp_rejects (cfg : EffectiveConfig) (timestamp load : Nat)
    (tenant : TenantData)
    (h : ¬ (rotateWindow cfg (buildLoadRequest cfg timestamp load) tenant).windowTotal
        + load ≤ cfg.maxLoad) :
    submitOp cfg timestamp load tenant
      = rejectLoad cfg (buildLoadRequest cfg timestamp load)
          (rotateWindow cfg (buildLoadRequest cfg timestamp load) tenant) := by
  have hrl : (buildLoadRequest cfg timestamp load).requestedLoad = load := rfl
  simp [submitOp, probeCore, hrl, h]

theorem addDist_getElem_lt : ∀ (ds : List Nat) (q : List WindowSegment) (i : Nat),
    i < ds.length → ds.length ≤ q.length →
    ∃ s d, q[i]? = some s ∧ ds[i]? = some d ∧
      (addDist ds q)[i]? = some { s with value := s.value + d } := by
  intro ds
  induction ds with
  | nil => intro q i hi _; simp at hi
  | cons d ds ih =>
    intro q i hi hlen
    cases q with
    | nil => simp at hlen
    | cons s q' =>
      cases i with
      | zero => exact ⟨s, d, by simp, by simp, by simp [addDist]⟩
      | succ j =>
        obtain ⟨s', d', h1, h2, h3⟩ := ih q' j (by simpa using hi) (by simpa using hlen)
        exact ⟨s', d', by simpa using h1, by simpa using h2, by simpa [addDist] using h3⟩

theorem addDist_getElem_ge : ∀ (ds : List Nat) (q : List WindowSegment) (i : Nat),
    ds.length ≤ i → (addDist ds q)[i]? = q[i]? := by
  intro ds
  induction ds with
  | nil => intro q i _; rfl
  | cons d ds ih =>
    intro q i hi
    cases q with
    | nil => rfl
    | cons s q' =>
      cases i with
      | zero => simp at hi
      | succ j => simpa [addDist] using ih q' j (by simpa using hi)

/-! ### The composite coordinator -/

theorem memberPhase1_pass (timestamp load : Nat) (m : MemberState)
    (h : (rotateWindow m.config (buildLoadRequest m.config timestamp load)
        m.tenant).windowTotal + load ≤ m.config.maxLoad) :
    memberPhase1 timestamp load m
      = (true, none,
         { m with
           tenant :=
             rotateWindow m.config (buildLoadRequest m.config timestamp load) m.tenant }) := by
  have hrl : (buildLoadRequest m.config timestamp load).requestedLoad = load := rfl
  simp [memberPhase1, probeCore, hrl, h]

theorem memberPhase1_fail (timestamp load : Nat) (m : MemberState)
    (h : ¬ (rotateWindow m.config (buildLoadRequest m.config timestamp load)
        m.tenant).windowTotal + load ≤ m.config.maxLoad) :
    memberPhase1 timestamp load m
      = (false,
         some (rejectLoad m.config (buildLoadRequest m.config timestamp load)
           (rotateWindow m.config (buildLoadRequest m.config timestamp load)
             m.tenant)).1,
         { m with
           tenant :=
             (rejectLoad m.config (buildLoadRequest m.config timestamp load)
               (rotateWindow m.config (buildLoadRequest m.config timestamp load)
                 m.tenant)).2 }) := by
  have hrl : (buildLoadRequest m.config timestamp load).requestedLoad = load := rfl
  simp [memberPhase1, probeCore, hrl, h]

theorem memberPhase1_flag (timestamp load : Nat) (m : MemberState) :
    (memberPhase1 timestamp load m).1
      = (probeCore m.config (buildLoadRequest m.config timestamp load) m.tenant).1 := by
  unfold memberPhase1
  by_cases h : (probeCore m.config (buildLoadRequest m.config timestamp load) m.tenant).1
      = true <;> simp [h]

/-- The `highestWaitTime` fold is a running maximum of the available hints. -/
theorem compositeHighestWait_fold :
    ∀ (steps : List (Bool × Option SubmitResult × MemberState)) (h : Nat),
    steps.foldl
      (fun h step =>
        match step.2.1 with
        | some r => if r.retryInAvailable && (h == 0 || h < r.retryIn) then r.retryIn else h
        | none => h)
      h
    = (availableHints steps).foldl Nat.max h := by
  have hfun : (fun (h : Nat) (step : Bool × Option SubmitResult × MemberState) =>
      match step.2.1 with
      | some r => if r.retryInAvailable && (h == 0 || h < r.retryIn) then r.retryIn else h
      | none => h)
    = (fun (h : Nat) (step : Bool × Option SubmitResult × MemberState) =>
      match step.2.1 with
      | some r => if r.retryInAvailable then max h r.retryIn else h
      | none => h) := by
    funext h step
    cases hr : step.2.1 with
    | none => rfl
    | some r =>
      by_cases ha : r.retryInAvailable = true
      · simp only [ha, Bool.true_and, if_true]
        by_cases hc : ((h == 0) || decide (h < r.retryIn)) = true
        · rw [if_pos hc]
          simp only [Bool.or_eq_true, beq_iff_eq, decide_eq_true_eq] at hc
          exact (max_eq_right (by omega : h ≤ r.retryIn)).symm
        · rw [if_neg hc]
          simp only [Bool.or_eq_true, beq_iff_eq, decide_eq_true_eq] at hc
          push_neg at hc
          exact (max_eq_left (by omega : r.retryIn ≤ h)).symm
      · have ha' : r.retryInAvailable = false := by
          rw [Bool.not_eq_true] at ha
          exact ha
        simp [ha']
  intro steps
  rw [hfun]
  induction steps with
  | nil => intro h; rfl
  | cons st rest ih =>
    intro h
    rw [List.foldl_cons]
    cases hr : st.2.1 with
    | none =>
      simp only [availableHints, List.filterMap_cons, hr]
      exact ih h
    | some r =>
      by_cases ha : r.retryInAvailable = true
      · simp only [availableHints, List.filterMap_cons, hr, ha, if_true]
        rw [List.foldl_cons]
        exact ih (max h r.retryIn)
      · have ha' : r.retryInAvailable = false := by
          rw [Bool.not_eq_true] at ha
          exact ha
        simp only [availableHints, List.filterMap_cons, hr, ha', Bool.false_and, if_false]
        exact ih h

theorem foldl_max_spec (l : List Nat) : ∀ (h : Nat),
    h ≤ l.foldl max h ∧
    (∀ x ∈ l, x ≤ l.foldl max h) ∧
    (l.foldl max h = h ∨ l.foldl max h ∈ l) := by
  induction l with
  | nil => intro h; exact ⟨le_refl _, by simp, Or.inl rfl⟩
  | cons a rest ih =>
    intro h
    rw [List.foldl_cons]
    obtain ⟨ih1, ih2, ih3⟩ := ih (max h a)
    refine ⟨le_trans (le_max_left _ _) ih1, ?_, ?_⟩
    · intro x hx
      rcases List.mem_cons.mp hx with rfl | hx
      · exact le_trans (le_max_right _ _) ih1
      · exact ih2 x hx
    · rcases ih3 with he | hm
      · rcases max_choice h a with hc | hc
        · exact Or.inl (by rw [he, hc])
        · exact Or.inr (by rw [he, hc]; simp)
      · exact Or.inr (List.mem_cons_of_mem _ hm)

theorem compositeSubmit_accepted_iff (members : List MemberState)
    (timestamp load : Nat) :
    (compositeSubmit members timestamp load).1.accepted = true ↔
      ∀ m ∈ members,
        (probeCore m.config (buildLoadRequest m.config timestamp load) m.tenant).1
          = true := by
  show ((members.map (memberPhase1 timestamp load)).all (fun st => st.1)) = true ↔ _
  rw [List.all_eq_true]
  constructor
  · intro h m hm
    have := h _ (List.mem_map_of_mem _ hm)
    rw [← memberPhase1_flag]
    exact this
  · intro h st hst
    obtain ⟨m, hm, rfl⟩ := List.mem_map.mp hst
    rw [memberPhase1_flag]
    exact h m hm

theorem probeCore_true_iff (cfg : EffectiveConfig) (timestamp load : Nat)
    (tenant : TenantData) :
    (probeCore cfg (buildLoadRequest cfg timestamp load) tenant).1 = true ↔
      (rotateWindow cfg (buildLoadRequest cfg timestamp load) tenant).windowTotal
        + load ≤ cfg.maxLoad := by
  show decide _ = true ↔ _
  rw [decide_eq_true_eq]
  exact Iff.rfl

theorem compositeSubmit_fields (members : List MemberState) (timestamp load : Nat) :
    (compositeSubmit members timestamp load).1.accepted
      = (members.map (memberPhase1 timestamp load)).all (fun st => st.1) ∧
    (compositeSubmit members timestamp load).1.retryIn
      = (availableHints (members.map (memberPhase1 timestamp load))).foldl max 0 ∧
    (compositeSubmit members timestamp load).1.retryInAvailable
      = (!(members.map (memberPhase1 timestamp load)).all (fun st => st.1)
          && decide (0 < (availableHints
               (members.map (memberPhase1 timestamp load))).foldl max 0)) := by
  have heq : ∀ steps, compositeHighestWait steps = (availableHints steps).foldl max 0 :=
    fun steps => compositeHighestWait_fold steps 0
  refine ⟨rfl, ?_, ?_⟩
  · show compositeHighestWait _ = _
    exact heq _
  · show (_ && decide (0 < compositeHighestWait _)) = _
    rw [heq]

theorem compositeSubmit_members_accept (members : List MemberState)
    (timestamp load : Nat)
    (hall : ∀ m ∈ members,
      (rotateWindow m.config (buildLoadRequest m.config timestamp load)
        m.tenant).windowTotal + load ≤ m.config.maxLoad) :
    (compositeSubmit members timestamp load).2
      = members.map (fun m =>
          { m with
            tenant :=
              acceptLoad m.config (buildLoadRequest m.config timestamp load)
                (rotateWindow m.config (buildLoadRequest m.config timestamp load)
                  m.tenant) }) := by
  have hsteps : ∀ m ∈ members, memberPhase1 timestamp load m
      = (true, none,
         { m with
           tenant :=
             rotateWindow m.config (buildLoadRequest m.config timestamp load) m.tenant }) :=
    fun m hm => memberPhase1_pass timestamp load m (hall m hm)
  have hallb : (members.map (memberPhase1 timestamp load)).all (fun st => st.1) = true := by
    rw [List.all_eq_true]
    intro st hst
    obtain ⟨m, hm, rfl⟩ := List.mem_map.mp hst
    rw [hsteps m hm]
  show (if (members.map (memberPhase1 timestamp load)).all (fun st => st.1) then _ else _)
      = _
  rw [if_pos hallb, List.map_map, List.map_congr_left]
  intro m hm
  simp only [Function.comp_apply, hsteps m hm]

theorem compositeSubmit_members_reject (members : List MemberState)
    (timestamp load : Nat)
    (hno : (compositeSubmit members timestamp load).1.accepted = false) :
    (compositeSubmit members timestamp load).2
      = members.map (fun m => (memberPhase1 timestamp load m).2.2) := by
  have hallb : (members.map (memberPhase1 timestamp load)).all (fun st => st.1) = false :=
    hno
  show (if (members.map (memberPhase1 timestamp load)).all (fun st => st.1) then _ else _)
      = _
  rw [hallb, if_neg (by simp), List.map_map]
  rfl

/-! ### The serialization codec -/

theorem digitVal_digitChar {d : Nat} (h : d < 10) :
    digitVal? (Nat.digitChar d) = some d := by
  interval_cases d <;> rfl

theorem digitChar_isDigit {d : Nat} (h : d < 10) :
    '0' ≤ Nat.digitChar d ∧ Nat.digitChar d ≤ '9' := by
  interval_cases d <;> exact ⟨by decide, by decide⟩

theorem natToChars_ne_nil (n : Nat) : natToChars n ≠ [] := by
  rw [natToChars]
  by_cases h : n < 10 <;> simp [h]

theorem natToChars_digits (n : Nat) : ∀ c ∈ natToChars n, '0' ≤ c ∧ c ≤ '9' := by
  induction n using natToChars.induct with
  | case1 n h =>
    rw [natToChars, dif_pos h]
    intro c hc
    rw [List.mem_singleton] at hc
    subst hc
    exact digitChar_isDigit h
  | case2 n h ih =>
    rw [natToChars, dif_neg h]
    intro c hc
    rcases List.mem_append.mp hc with hc | hc
    · exact ih c hc
    · rw [List.mem_singleton] at hc
      subst hc
      exact digitChar_isDigit (Nat.mod_lt _ (by omega))

theorem natToChars_foldl (n : Nat) : ∀ a : Nat,
    (natToChars n).foldl
      (fun acc c =>
        match acc, digitVal? c with
        | some x, some d => some (x * 10 + d)
        | _, _ => none)
      (some a)
    = some (a * 10 ^ (natToChars n).length + n) := by
  induction n using natToChars.induct with
  | case1 n h =>
    intro a
    rw [natToChars, dif_pos h]
    simp [digitVal_digitChar h]
  | case2 n h ih =>
    intro a
    rw [natToChars, dif_neg h]
    rw [List.foldl_append, ih a]
    have hmod : n % 10 < 10 := Nat.mod_lt _ (by omega)
    simp only [List.foldl_cons, List.foldl_nil, digitVal_digitChar hmod,
      List.length_append, List.length_singleton]
    have hdm := Nat.div_add_mod n 10
    have hpow : 10 ^ ((natToChars (n / 10)).length + 1)
        = 10 ^ (natToChars (n / 10)).length * 10 := by
      rw [Nat.pow_succ]
    rw [hpow]
    congr 1
    ring_nf
    omega

theorem parseNatChars_natToChars (n : Nat) : parseNatChars (natToChars n) = some n := by
  unfold parseNatChars
  rw [if_neg (by simpa [List.isEmpty_iff] using natToChars_ne_nil n)]
  rw [natToChars_foldl n 0]
  simp

theorem splitOnChar_ne_nil (c : Char) : ∀ s, splitOnChar c s ≠ [] := by
  intro s
  induction s with
  | nil => simp [splitOnChar]
  | cons a rest ih =>
    unfold splitOnChar
    cases hs : splitOnChar c rest with
    | nil => simp
    | cons g gs => by_cases hac : a = c <;> simp [hac]

theorem splitOnChar_no_sep (c : Char) : ∀ s : List Char,
    (∀ x ∈ s, x ≠ c) → splitOnChar c s = [s] := by
  intro s
  induction s with
  | nil => intro _; rfl
  | cons a rest ih =>
    intro h
    have hrest := ih (fun x hx => h x (List.mem_cons_of_mem _ hx))
    have hne := h a (List.mem_cons_self _ _)
    conv_lhs => rw [splitOnChar]
    rw [hrest]
    simp [hne]

theorem splitOnChar_sep_cons (c : Char) (ys : List Char) :
    splitOnChar c (c :: ys) = [] :: splitOnChar c ys := by
  conv_lhs => rw [splitOnChar]
  cases hs : splitOnChar c ys with
  | nil => exact absurd hs (splitOnChar_ne_nil c ys)
  | cons g gs => simp

theorem splitOnChar_append_left (c : Char) : ∀ (xs ys g : List Char) (gs : List (List Char)),
    (∀ x ∈ xs, x ≠ c) → splitOnChar c ys = g :: gs →
    splitOnChar c (xs ++ ys) = (xs ++ g) :: gs := by
  intro xs
  induction xs with
  | nil => intro ys g gs _ h2; simpa using h2
  | cons a xs ih =>
    intro ys g gs h1 h2
    have hrec := ih ys g gs (fun x hx => h1 x (List.mem_cons_of_mem _ hx)) h2
    have hne := h1 a (List.mem_cons_self _ _)
    show splitOnChar c (a :: (xs ++ ys)) = ((a :: xs) ++ g) :: gs
    conv_lhs => rw [splitOnChar]
    rw [hrec]
    simp [hne]

theorem splitOnChar_append_sep (c : Char) (xs ys : List Char)
    (h : ∀ x ∈ xs, x ≠ c) :
    splitOnChar c (xs ++ c :: ys) = xs :: splitOnChar c ys := by
  have := splitOnChar_append_left c xs (c :: ys) [] (splitOnChar c ys) h
    (splitOnChar_sep_cons c ys)
  simpa using this

theorem digit_not_sep {c : Char} (h : '0' ≤ c ∧ c ≤ '9') :
    c ≠ '/' ∧ c ≠ ',' ∧ c ≠ ':' := by
  refine ⟨fun he => ?_, fun he => ?_, fun he => ?_⟩ <;>
    (subst he; revert h; decide)

theorem serializeSegment_chars (s : WindowSegment) :
    ∀ x ∈ serializeSegment s, ('0' ≤ x ∧ x ≤ '9') ∨ x = ':' := by
  intro x hx
  unfold serializeSegment at hx
  rcases List.mem_append.mp hx with hx | hx
  · exact Or.inl (natToChars_digits _ x hx)
  · rcases List.mem_cons.mp hx with rfl | hx
    · exact Or.inr rfl
    · exact Or.inl (natToChars_digits _ x hx)

theorem parseSegToken_serializeSegment (s : WindowSegment) :
    parseSegToken (serializeSegment s) = some s := by
  unfold parseSegToken serializeSegment
  rw [splitOnChar_append_sep ':' _ _
      (fun x hx => (digit_not_sep (natToChars_digits _ x hx)).2.2),
    splitOnChar_no_sep ':' _
      (fun x hx => (digit_not_sep (natToChars_digits _ x hx)).2.2)]
  simp [parseNatChars_natToChars]

theorem serializeSegments_chars : ∀ (q : List WindowSegment),
    ∀ x ∈ serializeSegments q, ('0' ≤ x ∧ x ≤ '9') ∨ x = ':' ∨ x = ',' := by
  intro q
  induction q with
  | nil => intro x hx; simp [serializeSegments] at hx
  | cons s rest ih =>
    intro x hx
    cases rest with
    | nil =>
      rcases serializeSegment_chars s x hx with h | h
      · exact Or.inl h
      · exact Or.inr (Or.inl h)
    | cons r rr =>
      rw [show serializeSegments (s :: r :: rr)
          = serializeSegment s ++ ',' :: serializeSegments (r :: rr) from rfl] at hx
      rcases List.mem_append.mp hx with hx | hx
      · rcases serializeSegment_chars s x hx with h | h
        · exact Or.inl h
        · exact Or.inr (Or.inl h)
      · rcases List.mem_cons.mp hx with rfl | hx
        · exact Or.inr (Or.inr rfl)
        · exact ih x hx

theorem splitOnChar_serializeSegments : ∀ (q : List WindowSegment), q ≠ [] →
    splitOnChar ',' (serializeSegments q) = q.map serializeSegment := by
  intro q
  induction q with
  | nil => intro h; exact absurd rfl h
  | cons s rest ih =>
    intro _
    cases rest with
    | nil =>
      rw [show serializeSegments [s] = serializeSegment s from rfl]
      rw [splitOnChar_no_sep ',' _ (fun x hx =>
        by rcases serializeSegment_chars s x hx with h | h
           · exact (digit_not_sep h).2.1
           · rw [h]; decide)]
      rfl
    | cons r rr =>
      rw [show serializeSegments (s :: r :: rr)
          = serializeSegment s ++ ',' :: serializeSegments (r :: rr) from rfl]
      rw [splitOnChar_append_sep ',' _ _ (fun x hx =>
        by rcases serializeSegment_chars s x hx with h | h
           · exact (digit_not_sep h).2.1
           · rw [h]; decide)]
      rw [ih (by simp)]
      rfl

theorem parseSegmentsBackToFront_roundtrip : ∀ (q : List WindowSegment),
    parseSegmentsBackToFront (q.map serializeSegment) = (q, true) := by
  intro q
  induction q with
  | nil => rfl
  | cons s rest ih =>
    show parseSegmentsBackToFront (serializeSegment s :: rest.map serializeSegment) = _
    unfold parseSegmentsBackToFront
    rw [ih]
    simp [parseSegToken_serializeSegment]

theorem splitOnChar_serializeStatus (t : TenantData) :
    splitOnChar '/' (serializeStatus t)
      = [['v', '1'], natToChars t.version, natToChars t.windowTotal,
         (if t.wasOver then ['1'] else ['0']), serializeSegments t.windowQueue] := by
  have h1 : serializeStatus t
      = ['v', '1'] ++ '/' :: (natToChars t.version
          ++ '/' :: (natToChars t.windowTotal
            ++ '/' :: ((if t.wasOver then ['1'] else ['0'])
              ++ '/' :: serializeSegments t.windowQueue))) := by
    simp [serializeStatus]
  have hdig : ∀ n : Nat, ∀ x ∈ natToChars n, x ≠ '/' :=
    fun n x hx => (digit_not_sep (natToChars_digits n x hx)).1
  rw [h1]
  rw [splitOnChar_append_sep '/' _ _ (by intro x hx; fin_cases hx <;> decide)]
  rw [splitOnChar_append_sep '/' _ _ (hdig t.version)]
  rw [splitOnChar_append_sep '/' _ _ (hdig t.windowTotal)]
  rw [splitOnChar_append_sep '/' _ _ (by
    intro x hx
    by_cases hw : t.wasOver <;> simp [hw] at hx <;> (rw [hx]; decide))]
  rw [splitOnChar_no_sep '/' _ (by
    intro x hx
    rcases serializeSegments_chars _ x hx with h | h | h
    · exact (digit_not_sep h).1
    · rw [h]; decide
    · rw [h]; decide)]

/-- Full case analysis of restoring a serialized tenant: equal versions are
a no-op, a stale payload errors without touching the state, a newer payload
with a non-empty serialized queue reproduces the serialized state exactly,
and a newer payload with an empty serialized queue fails on the empty
segment token, leaving the target's queue cleared. -/
theorem restoreSerializedStatus_serializeStatus (src target : TenantData) :
    (src.version = target.version →
      restoreSerializedStatus (serializeStatus src) target = (target, none)) ∧
    (src.version < target.version →
      restoreSerializedStatus (serializeStatus src) target
        = (target, some .staleVersion)) ∧
    (target.version < src.version → src.windowQueue ≠ [] →
      restoreSerializedStatus (serializeStatus src) target
        = ({ windowQueue := src.windowQueue, wasOver := src.wasOver,
             windowTotal := src.windowTotal, version := src.version }, none)) ∧
    (target.version < src.version → src.windowQueue = [] →
      restoreSerializedStatus (serializeStatus src) target
        = ({ target with windowQueue := [] }, some .badSegment)) := by
  have hsplit := splitOnChar_serializeStatus src
  refine ⟨?_, ?_, ?_, ?_⟩
  · intro hv
    simp [restoreSerializedStatus, hsplit, parseNatChars_natToChars, hv.symm]
  · intro hv
    have hne : ¬ target.version = src.version := by omega
    have hlt : src.version < target.version := hv
    simp [restoreSerializedStatus, hsplit, parseNatChars_natToChars, hne, hlt]
  · intro hv hq
    have hne : ¬ target.version = src.version := by omega
    have hnlt : ¬ src.version < target.version := by omega
    have hwo : (decide ((if src.wasOver then ['1'] else ['0']) = ['1'])) = src.wasOver := by
      by_cases hw : src.wasOver <;> simp [hw]
    simp [restoreSerializedStatus, hsplit, parseNatChars_natToChars, hne, hnlt,
      splitOnChar_serializeSegments src.windowQueue hq,
      parseSegmentsBackToFront_roundtrip, hwo]
  · intro hv hq
    have hne : ¬ target.version = src.version := by omega
    have hnlt : ¬ src.version < target.version := by omega
    have hseg : parseSegmentsBackToFront
        (splitOnChar ',' (serializeSegments src.windowQueue)) = ([], false) := by
      rw [hq]
      rfl
    simp [restoreSerializedStatus, hsplit, parseNatChars_natToChars, hne, hnlt, hseg]

/-! ## The claims -/

/-- **C4.** On every rotated tenant state satisfying the window invariants,
`computeRetryIn` fails when the requested load alone exceeds the maximum,
returns a zero wait when the load fits on top of the current total, and
otherwise returns the wait until the last contributing segment (walking the
queue oldest to newest until the load to free is covered) ages out of the
window — a wait that is never negative (the request timestamp never exceeds
that segment's age-out time). -/
theorem claim_C4_computeRetryIn (cfg : EffectiveConfig) (req : SubmitRequest)
    (tenant : TenantData)
    (hc : CfgWF cfg) (hr : ReqWF cfg req)
    (hrot : RotatedState cfg req tenant) :
    (cfg.maxLoad < req.requestedLoad →
      computeRetryIn cfg req tenant = .error .excessiveLoad) ∧
    (req.requestedLoad ≤ cfg.maxLoad →
      req.requestedLoad + tenant.windowTotal ≤ cfg.maxLoad →
      computeRetryIn cfg req tenant = .ok 0) ∧
    (req.requestedLoad ≤ cfg.maxLoad →
      cfg.maxLoad < req.requestedLoad + tenant.windowTotal →
      ∃ d pre s post,
        computeRetryIn cfg req tenant = .ok d ∧
        tenant.windowQueue.reverse = pre ++ s :: post ∧
        0 < s.value ∧
        segSum pre < req.requestedLoad + tenant.windowTotal - cfg.maxLoad ∧
        req.requestedLoad + tenant.windowTotal - cfg.maxLoad
          ≤ segSum pre + s.value ∧
        req.requestedTimestamp ≤ s.startTime + cfg.windowSize ∧
        d = s.startTime + cfg.windowSize - req.requestedTimestamp) :=
  computeRetryIn_spec cfg req tenant hc hr hrot

theorem claim_C4_computeRetryIn_witness :
    computeRetryIn sampleConfig (buildLoadRequest sampleConfig 20500 150)
      { windowQueue := [{ startTime := 20000, value := 30 }], wasOver := false,
        windowTotal := 30, version := 1 } = .error .excessiveLoad ∧
    computeRetryIn sampleConfig (buildLoadRequest sampleConfig 20500 40)
      { windowQueue := [{ startTime := 20000, value := 30 }], wasOver := false,
        windowTotal := 30, version := 1 } = .ok 0 := by
  constructor
  · exact (claim_C4_computeRetryIn sampleConfig
      (buildLoadRequest sampleConfig 20500 150)
      { windowQueue := [{ startTime := 20000, value := 30 }], wasOver := false,
        windowTotal := 30, version := 1 }
      (by decide) ⟨rfl, by decide⟩
      ⟨by decide, ⟨{ startTime := 20000, value := 30 }, [], rfl, by decide⟩,
        by decide⟩).1 (by decide)
  · exact (claim_C4_computeRetryIn sampleConfig
      (buildLoadRequest sampleConfig 20500 40)
      { windowQueue := [{ startTime := 20000, value := 30 }], wasOver := false,
        windowTotal := 30, version := 1 }
      (by decide) ⟨rfl, by decide⟩
      ⟨by decide, ⟨{ startTime := 20000, value := 30 }, [], rfl, by decide⟩,
        by decide⟩).2.1 (by decide) (by decide)

/-- **C9.** For every amount `A ≥ 1` and span `N ≥ 1` (bounded by the
segment count, as every configured span is), `distributePenalty` adds
exactly `A` to the cached total and to the stored segment values; with the
span reduced to `A` when `A < N`, the distribution vector gives the newest
`A mod n` target segments `A / n + 1` each and the remaining target
segments `A / n` each, every touched segment receives at least 1, the
vector sums to `A`, and segments beyond the span are untouched. -/
theorem claim_C9_distribution (cfg : EffectiveConfig) (req : SubmitRequest)
    (A N : Nat) (tenant : TenantData)
    (hc : CfgWF cfg) (hr : ReqWF cfg req)
    (hA : 1 ≤ A) (hN : 1 ≤ N) (hNle : N ≤ cfg.numSegments)
    (hwf : TenantWF cfg tenant)
    (hub : ∀ x ∈ tenant.windowQueue, x.startTime ≤ req.requestSegmentStartTime) :
    (distributePenalty cfg req A N tenant).windowTotal = tenant.windowTotal + A ∧
    segSum (distributePenalty cfg req A N tenant).windowQueue
      = segSum tenant.windowQueue + A ∧
    (distributePenalty cfg req A N tenant).windowQueue
      = addDist (distList (penaltySpan A N) (A / penaltySpan A N) (A % penaltySpan A N))
          (ensureLatestNSegments cfg req (penaltySpan A N) tenant).windowQueue ∧
    (distList (penaltySpan A N) (A / penaltySpan A N) (A % penaltySpan A N)).sum = A ∧
    (∀ d ∈ distList (penaltySpan A N) (A / penaltySpan A N) (A % penaltySpan A N),
      1 ≤ d) ∧
    (∀ i, i < penaltySpan A N → ∃ s,
      (ensureLatestNSegments cfg req (penaltySpan A N) tenant).windowQueue[i]?
        = some s ∧
      s.startTime = expectedStart cfg req.requestSegmentStartTime i ∧
      (distributePenalty cfg req A N tenant).windowQueue[i]?
        = some { s with
            value := s.value
              + (if i < A % penaltySpan A N then A / penaltySpan A N + 1
                 else A / penaltySpan A N) }) ∧
    (∀ i, penaltySpan A N ≤ i →
      (distributePenalty cfg req A N tenant).windowQueue[i]?
        = (ensureLatestNSegments cfg req (penaltySpan A N) tenant).windowQueue[i]?) := by
  obtain ⟨hSdvd, hSt, htS, hsegws⟩ := reqWF_facts hc hr
  obtain ⟨hseg, hws, hnum, -⟩ := hc
  obtain ⟨-, hwsS⟩ := hr
  obtain ⟨htot, hsorted, halign⟩ := hwf
  -- the source's span and base agree with `penaltySpan`
  have hcond : A / N < 1 ↔ A < N := by
    constructor
    · intro h
      have h0 : A / N = 0 := Nat.lt_one_iff.mp h
      rcases Nat.lt_or_ge A N with h1 | h1
      · exact h1
      · exfalso
        have := Nat.div_le_div_right (c := N) h1
        rw [Nat.div_self (by omega)] at this
        omega
    · intro h
      rw [Nat.div_eq_of_lt h]
      omega
  have hspan : penaltySpan A N = if A / N < 1 then A else N := by
    unfold penaltySpan
    by_cases h : A < N
    · rw [if_pos h, if_pos (hcond.mpr h)]
    · rw [if_neg h, if_neg (fun hl => h (hcond.mp hl))]
  have hbase : A / penaltySpan A N = if A / N < 1 then 1 else A / N := by
    unfold penaltySpan
    by_cases h : A < N
    · rw [if_pos h, if_pos (hcond.mpr h), Nat.div_self (by omega)]
    · rw [if_neg h, if_neg (fun hl => h (hcond.mp hl))]
  have hspan0 : 0 < penaltySpan A N := by
    unfold penaltySpan
    by_cases h : A < N <;> simp [h] <;> omega
  have hspanle : penaltySpan A N ≤ N := by
    unfold penaltySpan
    by_cases h : A < N
    · rw [if_pos h]
      omega
    · rw [if_neg h]
  have hbase1 : 1 ≤ A / penaltySpan A N := by
    rw [hbase]
    by_cases h : A / N < 1
    · rw [if_pos h]
    · rw [if_neg h]
      exact Nat.not_lt.mp h
  have hle : (N - 1) * cfg.windowSegmentSize ≤ req.requestSegmentStartTime :=
    le_trans (le_trans (Nat.mul_le_mul_right _ (by omega))
      (le_of_eq hws.symm)) hwsS
  have hleP : (penaltySpan A N - 1) * cfg.windowSegmentSize
      ≤ req.requestSegmentStartTime :=
    le_trans (Nat.mul_le_mul_right _ (by omega)) hle
  have hmod : A % penaltySpan A N < penaltySpan A N := Nat.mod_lt _ hspan0
  -- the queue produced by the source is exactly the `addDist` application
  have hqueue : (distributePenalty cfg req A N tenant).windowQueue
      = addDist (distList (penaltySpan A N) (A / penaltySpan A N)
          (A % penaltySpan A N))
          (ensureLatestNSegments cfg req (penaltySpan A N) tenant).windowQueue := by
    simp only [distributePenalty, if_neg (by omega : ¬ A = 0)]
    rw [← hspan, ← hbase]
  have hsum : (distList (penaltySpan A N) (A / penaltySpan A N)
      (A % penaltySpan A N)).sum = A := by
    rw [distList_sum]
    have hdm := Nat.div_add_mod A (penaltySpan A N)
    have : min (A % penaltySpan A N) (penaltySpan A N) = A % penaltySpan A N := by
      omega
    rw [this]
    have hcomm : penaltySpan A N * (A / penaltySpan A N)
        = A / penaltySpan A N * penaltySpan A N := Nat.mul_comm _ _
    omega
  have htotal : (distributePenalty cfg req A N tenant).windowTotal
      = tenant.windowTotal + A := by
    have htl : (distributePenalty cfg req A N tenant).windowTotal
        = (ensureLatestNSegments cfg req (penaltySpan A N) tenant).windowTotal
          + (distList (penaltySpan A N) (A / penaltySpan A N)
              (A % penaltySpan A N)).sum := by
      simp only [distributePenalty, if_neg (by omega : ¬ A = 0)]
      rw [← hspan, ← hbase]
    rw [htl, hsum, (ensureLatestNSegments_fields cfg req _ tenant).1]
  obtain ⟨hesum, hesort, healg, helen, heget, -⟩ :=
    ensureLatestNSegments_spec cfg req (penaltySpan A N) tenant hseg hspan0 hleP
      hSdvd hsorted halign hub
  have hdlen : (distList (penaltySpan A N) (A / penaltySpan A N)
      (A % penaltySpan A N)).length = penaltySpan A N := distList_length _ _ _
  refine ⟨htotal, ?_, hqueue, hsum, ?_, ?_, ?_⟩
  · rw [hqueue, addDist_sum _ _ (by omega), hesum, hsum]
  · intro d hd
    exact distList_pos _ _ _ hbase1 d hd
  · intro i hi
    obtain ⟨s0, hs0, hse0⟩ := heget i hi
    obtain ⟨s1, d1, hs1, hd1, hres⟩ := addDist_getElem_lt _ _ i
      (by rw [hdlen]; exact hi) (by rw [hdlen]; exact helen)
    have hss : s1 = s0 := by
      rw [hs0] at hs1
      injection hs1 with h
      exact h.symm
    have hdval : d1 = (if i < A % penaltySpan A N then A / penaltySpan A N + 1
        else A / penaltySpan A N) := by
      have hdl : (distList (penaltySpan A N) (A / penaltySpan A N)
          (A % penaltySpan A N))[i]?
          = some (if i < A % penaltySpan A N then A / penaltySpan A N + 1
              else A / penaltySpan A N) := by
        simp [distList, List.getElem?_map, List.getElem?_range, hi]
      rw [hdl] at hd1
      injection hd1 with h
      exact h.symm
    refine ⟨s0, hs0, hse0, ?_⟩
    rw [hqueue, hres, hss, hdval]
  · intro i hi
    rw [hqueue, addDist_getElem_ge _ _ i (by rw [hdlen]; exact hi)]

theorem claim_C9_distribution_witness :
    (distributePenalty sampleConfig (buildLoadRequest sampleConfig 20500 5) 10 3
      { windowQueue := [{ startTime := 20000, value := 30 }], wasOver := false,
        windowTotal := 30, version := 1 }).windowTotal = 30 + 10 ∧
    (distList (penaltySpan 10 3) (10 / penaltySpan 10 3) (10 % penaltySpan 10 3)).sum
      = 10 := by
  have h := claim_C9_distribution sampleConfig (buildLoadRequest sampleConfig 20500 5)
    10 3
    { windowQueue := [{ startTime := 20000, value := 30 }], wasOver := false,
      windowTotal := 30, version := 1 }
    (by decide) ⟨rfl, by decide⟩ (by decide) (by decide) (by decide) (by decide)
    (by decide)
  exact ⟨h.1, h.2.2.2.1⟩

/-- **C1** (amended). `Probe` performs exactly the window rotation and the
admission check: its state is the rotated state, whose version is bumped at
most once (and not at all when the fast path applies, i.e. when the queue
is already rotated for the request).  The original claim — that a probe
never bumps the version — is refuted by `claim_C1_counterexample`: when the
rotation restructures the queue it marks the tenant dirty even though the
sync layer labels `Probe` read-only. -/
theorem claim_C1_probe_rotates (cfg : EffectiveConfig) (timestamp load : Nat)
    (tenant : TenantData)
    (hc : CfgWF cfg) (hwf : TenantWF cfg tenant)
    (hts : cfg.windowSize + cfg.windowSegmentSize ≤ timestamp) :
    (probeOp cfg timestamp load tenant).2
      = rotateWindow cfg (buildLoadRequest cfg timestamp load) tenant ∧
    (probeOp cfg timestamp load tenant).1
      = decide ((rotateWindow cfg (buildLoadRequest cfg timestamp load)
          tenant).windowTotal + load ≤ cfg.maxLoad) ∧
    ((probeOp cfg timestamp load tenant).2.version = tenant.version ∨
     (probeOp cfg timestamp load tenant).2.version = tenant.version + 1) ∧
    (rotateFastPath cfg (buildLoadRequest cfg timestamp load).requestSegmentStartTime
        tenant.windowQueue = true →
      (probeOp cfg timestamp load tenant).2 = tenant) := by
  have hr := reqWF_buildLoadRequest cfg timestamp load hc hts
  obtain ⟨-, -, -, hver⟩ :=
    rotateWindow_spec cfg (buildLoadRequest cfg timestamp load) tenant hc hr hwf
  refine ⟨rfl, rfl, hver, ?_⟩
  intro hfp
  show rotateWindow cfg (buildLoadRequest cfg timestamp load) tenant = tenant
  simp [rotateWindow, hfp]

theorem claim_C1_probe_rotates_witness :
    (probeOp sampleConfig 21000 5
        { windowQueue := [{ startTime := 21000, value := 3 },
                          { startTime := 20000, value := 2 }], wasOver := false,
          windowTotal := 5, version := 7 }).2.version = 7 := by
  have h := claim_C1_probe_rotates sampleConfig 21000 5
    { windowQueue := [{ startTime := 21000, value := 3 },
                      { startTime := 20000, value := 2 }], wasOver := false,
      windowTotal := 5, version := 7 }
    (by decide) (by decide) (by decide)
  rw [h.2.2.2 (by decide)]

theorem claim_C1_counterexample :
    (probeOp sampleConfig 20000 5 freshTenant).2.version ≠ freshTenant.version := by
  decide

/-- **C3.** Whenever `submit` accepts a load `L`, the resulting total is the
post-rotation total plus exactly `L`, the overload flag is cleared, and no
penalty segments are added: the final queue is the rotated queue with `L`
added to its front segment's value. -/
theorem claim_C3_accept_adds_load (cfg : EffectiveConfig) (timestamp load : Nat)
    (tenant : TenantData)
    (hc : CfgWF cfg) (hwf : TenantWF cfg tenant)
    (hts : cfg.windowSize + cfg.windowSegmentSize ≤ timestamp)
    (hacc : (submitOp cfg timestamp load tenant).1.accepted = true) :
    (submitOp cfg timestamp load tenant).2.windowTotal
      = (rotateWindow cfg (buildLoadRequest cfg timestamp load) tenant).windowTotal
        + load ∧
    (submitOp cfg timestamp load tenant).2.wasOver = false ∧
    ∃ f rest,
      (rotateWindow cfg (buildLoadRequest cfg timestamp load) tenant).windowQueue
        = f :: rest ∧
      (submitOp cfg timestamp load tenant).2.windowQueue
        = { f with value := f.value + load } :: rest := by
  have hr := reqWF_buildLoadRequest cfg timestamp load hc hts
  by_cases h : (rotateWindow cfg (buildLoadRequest cfg timestamp load)
      tenant).windowTotal + load ≤ cfg.maxLoad
  · rw [submitOp_accepts cfg timestamp load tenant h]
    have hrot := (rotateWindow_spec cfg (buildLoadRequest cfg timestamp load)
      tenant hc hr hwf).1
    have hnocap : cfg.applyPenaltyCapping = true →
        (rotateWindow cfg (buildLoadRequest cfg timestamp load)
          tenant).windowTotal + (buildLoadRequest cfg timestamp load).requestedLoad
          ≤ cfg.absoluteMaxPenaltyCap := by
      intro _
      obtain ⟨-, -, -, -, -, -, -, hcap⟩ := hc
      exact le_trans h hcap
    obtain ⟨f, rest, hq, hq', htotl, hwo, -⟩ :=
      acceptLoad_exact cfg (buildLoadRequest cfg timestamp load) _ hrot hnocap
    exact ⟨htotl, hwo, f, rest, hq, hq'⟩
  · exfalso
    rw [submitOp_rejects cfg timestamp load tenant h] at hacc
    have hfa : (rejectLoad cfg (buildLoadRequest cfg timestamp load)
        (rotateWindow cfg (buildLoadRequest cfg timestamp load) tenant)).1.accepted
        = false := rejectRetryResult_accepted cfg (buildLoadRequest cfg timestamp load) _
    rw [hfa] at hacc
    exact Bool.false_ne_true hacc

theorem claim_C3_accept_adds_load_witness :
    (submitOp sampleConfig 20000 5 freshTenant).2.windowTotal
      = (rotateWindow sampleConfig (buildLoadRequest sampleConfig 20000 5)
          freshTenant).windowTotal + 5 ∧
    (submitOp sampleConfig 20000 5 freshTenant).2.wasOver = false ∧
    ∃ f rest,
      (rotateWindow sampleConfig (buildLoadRequest sampleConfig 20000 5)
        freshTenant).windowQueue = f :: rest ∧
      (submitOp sampleConfig 20000 5 freshTenant).2.windowQueue
        = { f with value := f.value + 5 } :: rest :=
  claim_C3_accept_adds_load sampleConfig 20000 5 freshTenant
    (by decide) (by decide) (by decide) (by decide)

/-- **C8.** With penalty capping enabled, the tenant total respects the
absolute cap immediately after every accept or reject path of `submit`
(provided it respected the cap before, which the same fact makes
invariant), and the capping step itself enforces the bound on any
well-formed state while keeping the total consistent and the queue
non-empty. -/
theorem claim_C8_cap_invariant (cfg : EffectiveConfig) (timestamp load : Nat)
    (tenant : TenantData)
    (hc : CfgWF cfg) (hwf : TenantWF cfg tenant)
    (hts : cfg.windowSize + cfg.windowSegmentSize ≤ timestamp)
    (hcap : cfg.applyPenaltyCapping = true)
    (hpre : tenant.windowTotal ≤ cfg.absoluteMaxPenaltyCap) :
    (submitOp cfg timestamp load tenant).2.windowTotal
      ≤ cfg.absoluteMaxPenaltyCap ∧
    (∀ t' : TenantData, TenantWF cfg t' →
      (applyCapping cfg (buildLoadRequest cfg timestamp load) t').windowTotal
        ≤ cfg.absoluteMaxPenaltyCap ∧
      (applyCapping cfg (buildLoadRequest cfg timestamp load) t').windowTotal
        = segSum (applyCapping cfg (buildLoadRequest cfg timestamp load)
            t').windowQueue ∧
      (t'.windowQueue ≠ [] →
        (applyCapping cfg (buildLoadRequest cfg timestamp load) t').windowQueue
          ≠ [])) := by
  have hr := reqWF_buildLoadRequest cfg timestamp load hc hts
  have hSdvd : cfg.windowSegmentSize ∣
      (buildLoadRequest cfg timestamp load).requestSegmentStartTime :=
    (reqWF_facts hc hr).1
  constructor
  · obtain ⟨hrot, hshrink, -, -⟩ :=
      rotateWindow_spec cfg (buildLoadRequest cfg timestamp load) tenant hc hr hwf
    by_cases h : (rotateWindow cfg (buildLoadRequest cfg timestamp load)
        tenant).windowTotal + load ≤ cfg.maxLoad
    · rw [submitOp_accepts cfg timestamp load tenant h]
      exact (acceptLoad_spec cfg (buildLoadRequest cfg timestamp load) _
        hrot hSdvd).2.2.2.2.2.2 hcap
    · rw [submitOp_rejects cfg timestamp load tenant h]
      exact (rejectLoad_spec cfg (buildLoadRequest cfg timestamp load) _
        hc hr hrot).2.2.2.2.2.2.2 hcap (le_trans hshrink hpre)
  · intro t' hwf'
    obtain ⟨htot', hsorted', halign'⟩ := hwf'
    obtain ⟨-, hc2, hc3, -, -, hc6, -⟩ :=
      applyCapping_spec cfg (buildLoadRequest cfg timestamp load) t'
        htot' hsorted' halign' hSdvd
    exact ⟨hc2 hcap, hc3, hc6⟩

theorem claim_C8_cap_invariant_witness :
    (submitOp sampleConfig 20000 5 freshTenant).2.windowTotal
      ≤ sampleConfig.absoluteMaxPenaltyCap ∧
    (applyCapping sampleConfig (buildLoadRequest sampleConfig 20000 5)
        freshTenant).windowTotal ≤ sampleConfig.absoluteMaxPenaltyCap := by
  have h := claim_C8_cap_invariant sampleConfig 20000 5 freshTenant
    (by decide) (by decide) (by decide) (by decide) (by decide)
  exact ⟨h.1, (h.2 freshTenant (by decide)).1⟩

/-- **C10.** A fresh tenant starts with an empty queue, but every rotation
leaves a non-empty queue fronted by the request's segment start (which that
same rotation never evicts), so the state after every public probe or
submit is non-empty, and the capping step preserves both the non-emptiness
and the front segment of any rotated state. -/
theorem claim_C10_queue_nonempty (cfg : EffectiveConfig) (timestamp load : Nat)
    (tenant : TenantData)
    (hc : CfgWF cfg) (hwf : TenantWF cfg tenant)
    (hts : cfg.windowSize + cfg.windowSegmentSize ≤ timestamp) :
    freshTenant.windowQueue = [] ∧
    (∃ f rest,
      (rotateWindow cfg (buildLoadRequest cfg timestamp load) tenant).windowQueue
        = f :: rest ∧
      f.startTime = (buildLoadRequest cfg timestamp load).requestSegmentStartTime) ∧
    (∃ f rest,
      (probeOp cfg timestamp load tenant).2.windowQueue = f :: rest ∧
      f.startTime = locateSegmentStartTime cfg timestamp) ∧
    (submitOp cfg timestamp load tenant).2.windowQueue ≠ [] ∧
    (∀ t', RotatedState cfg (buildLoadRequest cfg timestamp load) t' →
      ∃ f rest,
        (applyCapping cfg (buildLoadRequest cfg timestamp load) t').windowQueue
          = f :: rest ∧
        f.startTime
          = (buildLoadRequest cfg timestamp load).requestSegmentStartTime) := by
  have hr := reqWF_buildLoadRequest cfg timestamp load hc hts
  have hSdvd : cfg.windowSegmentSize ∣
      (buildLoadRequest cfg timestamp load).requestSegmentStartTime :=
    (reqWF_facts hc hr).1
  obtain ⟨hrot, -, -, -⟩ :=
    rotateWindow_spec cfg (buildLoadRequest cfg timestamp load) tenant hc hr hwf
  obtain ⟨hrwf, ⟨f, rest, hq, hf⟩, hage⟩ := hrot
  refine ⟨rfl, ⟨f, rest, hq, hf⟩, ⟨f, rest, hq, hf⟩, ?_, ?_⟩
  · by_cases h : (rotateWindow cfg (buildLoadRequest cfg timestamp load)
        tenant).windowTotal + load ≤ cfg.maxLoad
    · rw [submitOp_accepts cfg timestamp load tenant h]
      exact (acceptLoad_spec cfg (buildLoadRequest cfg timestamp load) _
        ⟨hrwf, ⟨f, rest, hq, hf⟩, hage⟩ hSdvd).2.2.2.2.2.1
    · rw [submitOp_rejects cfg timestamp load tenant h]
      exact (rejectLoad_spec cfg (buildLoadRequest cfg timestamp load) _
        hc hr ⟨hrwf, ⟨f, rest, hq, hf⟩, hage⟩).2.2.2.2.2.1
  · intro t' hrot'
    obtain ⟨⟨htot', hsorted', halign'⟩, ⟨f', rest', hq', hf'⟩, -⟩ := hrot'
    obtain ⟨-, -, -, -, -, -, hc7, -⟩ :=
      applyCapping_spec cfg (buildLoadRequest cfg timestamp load) t'
        htot' hsorted' halign' hSdvd
    exact hc7 f' rest' hq' hf'

theorem claim_C10_queue_nonempty_witness :
    freshTenant.windowQueue = [] ∧
    (∃ f rest,
      (rotateWindow sampleConfig (buildLoadRequest sampleConfig 20000 5)
        freshTenant).windowQueue = f :: rest ∧
      f.startTime = (buildLoadRequest sampleConfig 20000 5).requestSegmentStartTime) ∧
    (submitOp sampleConfig 20000 5 freshTenant).2.windowQueue ≠ [] := by
  have h := claim_C10_queue_nonempty sampleConfig 20000 5 freshTenant
    (by decide) (by decide) (by decide)
  exact ⟨h.1, h.2.1, h.2.2.2.1⟩

/-- **C5.** The composite `submit` accepts if and only if every member's
probe passes, in which case `acceptLoad` is applied to every member (on its
rotated state, atomically across members).  Rejection results come exactly
from the rejecting members (a member hands one back precisely when its
probe failed, and it is its `rejectLoad` result); the returned `retryIn` is
the maximum of the rejecters' available hints, and `retryInAvailable` holds
if and only if the submit rejected and some rejecter yielded a positive
hint. -/
theorem claim_C5_composite_submit (members : List MemberState)
    (timestamp load : Nat) :
    ((compositeSubmit members timestamp load).1.accepted = true ↔
      ∀ m ∈ members,
        (probeCore m.config (buildLoadRequest m.config timestamp load)
          m.tenant).1 = true) ∧
    ((compositeSubmit members timestamp load).1.accepted = true →
      (compositeSubmit members timestamp load).2
        = members.map (fun m =>
            { m with
              tenant :=
                acceptLoad m.config (buildLoadRequest m.config timestamp load)
                  (rotateWindow m.config
                    (buildLoadRequest m.config timestamp load) m.tenant) })) ∧
    (∀ m ∈ members, ∀ r, (memberPhase1 timestamp load m).2.1 = some r →
      (probeCore m.config (buildLoadRequest m.config timestamp load)
        m.tenant).1 = false ∧
      r = (rejectLoad m.config (buildLoadRequest m.config timestamp load)
            (rotateWindow m.config (buildLoadRequest m.config timestamp load)
              m.tenant)).1) ∧
    (∀ x, x ∈ availableHints (members.map (memberPhase1 timestamp load)) ↔
      ∃ m ∈ members, ∃ r,
        (memberPhase1 timestamp load m).2.1 = some r ∧
        r.retryInAvailable = true ∧ r.retryIn = x) ∧
    (∀ x ∈ availableHints (members.map (memberPhase1 timestamp load)),
      x ≤ (compositeSubmit members timestamp load).1.retryIn) ∧
    ((compositeSubmit members timestamp load).1.retryIn = 0 ∨
      (compositeSubmit members timestamp load).1.retryIn
        ∈ availableHints (members.map (memberPhase1 timestamp load))) ∧
    ((compositeSubmit members timestamp load).1.retryInAvailable = true ↔
      (compositeSubmit members timestamp load).1.accepted = false ∧
        ∃ x ∈ availableHints (members.map (memberPhase1 timestamp load)), 0 < x) := by
  obtain ⟨hacc, hret, hria⟩ := compositeSubmit_fields members timestamp load
  obtain ⟨hfold1, hfold2, hfold3⟩ :=
    foldl_max_spec (availableHints (members.map (memberPhase1 timestamp load))) 0
  refine ⟨compositeSubmit_accepted_iff members timestamp load, ?_, ?_, ?_, ?_, ?_, ?_⟩
  · intro h
    have hall := (compositeSubmit_accepted_iff members timestamp load).mp h
    exact compositeSubmit_members_accept members timestamp load
      (fun m hm => (probeCore_true_iff m.config timestamp load m.tenant).mp (hall m hm))
  · intro m hm r hr
    by_cases h : (rotateWindow m.config (buildLoadRequest m.config timestamp load)
        m.tenant).windowTotal + load ≤ m.config.maxLoad
    · rw [memberPhase1_pass timestamp load m h] at hr
      exact absurd hr (by simp)
    · rw [memberPhase1_fail timestamp load m h] at hr
      refine ⟨?_, ?_⟩
      · rw [Bool.eq_false_iff]
        intro hp
        exact h ((probeCore_true_iff m.config timestamp load m.tenant).mp hp)
      · simp only [Option.some.injEq] at hr
        exact hr.symm
  · intro x
    constructor
    · intro hx
      obtain ⟨st, hst, hfx⟩ := List.mem_filterMap.mp hx
      obtain ⟨m, hm, rfl⟩ := List.mem_map.mp hst
      cases hr : (memberPhase1 timestamp load m).2.1 with
      | none =>
        rw [hr] at hfx
        have hfx' : (none : Option Nat) = some x := hfx
        exact absurd hfx' (by simp)
      | some r =>
        rw [hr] at hfx
        have hfx' : (if r.retryInAvailable = true then some r.retryIn else none)
            = some x := hfx
        by_cases ha : r.retryInAvailable = true
        · rw [if_pos ha] at hfx'
          exact ⟨m, hm, r, hr, ha, by injection hfx'⟩
        · rw [if_neg ha] at hfx'
          exact absurd hfx' (by simp)
    · intro ⟨m, hm, r, hr, ha, hval⟩
      refine List.mem_filterMap.mpr ⟨memberPhase1 timestamp load m,
        List.mem_map_of_mem _ hm, ?_⟩
      rw [hr]
      show (if r.retryInAvailable = true then some r.retryIn else none) = some x
      rw [if_pos ha, hval]
  · intro x hx
    rw [hret]
    exact hfold2 x hx
  · rw [hret]
    exact hfold3
  · rw [hria, hacc]
    constructor
    · intro h
      rw [Bool.and_eq_true, Bool.not_eq_true', decide_eq_true_eq] at h
      obtain ⟨h1, h2⟩ := h
      refine ⟨h1, ?_⟩
      rcases hfold3 with he | hm
      · omega
      · exact ⟨_, hm, h2⟩
    · intro ⟨h1, x, hx, hxpos⟩
      rw [Bool.and_eq_true, Bool.not_eq_true', decide_eq_true_eq]
      exact ⟨h1, lt_of_lt_of_le hxpos (hfold2 x hx)⟩

theorem claim_C5_composite_submit_witness :
    (compositeSubmit [{ config := sampleConfigLow, tenant := freshTenant },
                      { config := sampleConfig, tenant := freshTenant }]
        20000 5).1.accepted = false ∧
    (compositeSubmit [{ config := sampleConfig, tenant := freshTenant }]
        20000 5).1.accepted = true := by
  constructor
  · rw [Bool.eq_false_iff]
    intro h
    have := (claim_C5_composite_submit
      [{ config := sampleConfigLow, tenant := freshTenant },
       { config := sampleConfig, tenant := freshTenant }] 20000 5).1.mp h
      { config := sampleConfigLow, tenant := freshTenant } (by simp)
    revert this
    decide
  · exact (claim_C5_composite_submit
      [{ config := sampleConfig, tenant := freshTenant }] 20000 5).1.mpr
      (by intro m hm; rw [List.mem_singleton] at hm; subst hm; decide)

/-- **C6** (amended). When the composite `submit` rejects, the final member
states are exactly the phase-one states: each rejecting member ends at its
`rejectLoad` state, but a member whose probe passed is **not** left
untouched — it ends at the rotation of its previous state (the probe's
`rotateWindow` side effect is kept even though the probe result is
discarded).  The original claim — that non-rejecters remain unchanged — is
refuted by `claim_C6_counterexample`. -/
theorem claim_C6_reject_side_effects (members : List MemberState)
    (timestamp load : Nat)
    (hno : (compositeSubmit members timestamp load).1.accepted = false) :
    (compositeSubmit members timestamp load).2.length = members.length ∧
    (∀ (i : Nat) (m : MemberState), members[i]? = some m →
      (rotateWindow m.config (buildLoadRequest m.config timestamp load)
          m.tenant).windowTotal + load ≤ m.config.maxLoad →
      (compositeSubmit members timestamp load).2[i]?
        = some { m with
            tenant := rotateWindow m.config
              (buildLoadRequest m.config timestamp load) m.tenant }) ∧
    (∀ (i : Nat) (m : MemberState), members[i]? = some m →
      ¬ (rotateWindow m.config (buildLoadRequest m.config timestamp load)
          m.tenant).windowTotal + load ≤ m.config.maxLoad →
      (compositeSubmit members timestamp load).2[i]?
        = some { m with
            tenant := (rejectLoad m.config
              (buildLoadRequest m.config timestamp load)
              (rotateWindow m.config (buildLoadRequest m.config timestamp load)
                m.tenant)).2 }) := by
  have hres := compositeSubmit_members_reject members timestamp load hno
  rw [hres]
  refine ⟨by rw [List.length_map], ?_, ?_⟩
  · intro i m hm h
    rw [List.getElem?_map, hm]
    show some ((memberPhase1 timestamp load m).2.2) = _
    rw [memberPhase1_pass timestamp load m h]
  · intro i m hm h
    rw [List.getElem?_map, hm]
    show some ((memberPhase1 timestamp load m).2.2) = _
    rw [memberPhase1_fail timestamp load m h]

theorem claim_C6_reject_side_effects_witness :
    (compositeSubmit [{ config := sampleConfigLow, tenant := freshTenant },
                      { config := sampleConfig, tenant := freshTenant }]
        20000 5).2[1]?
      = some { config := sampleConfig,
               tenant := rotateWindow sampleConfig
                 (buildLoadRequest sampleConfig 20000 5) freshTenant } :=
  (claim_C6_reject_side_effects
    [{ config := sampleConfigLow, tenant := freshTenant },
     { config := sampleConfig, tenant := freshTenant }] 20000 5
    (by decide)).2.1 1 { config := sampleConfig, tenant := freshTenant }
    (by decide) (by decide)

theorem claim_C6_counterexample :
    (compositeSubmit [{ config := sampleConfigLow, tenant := freshTenant },
                      { config := sampleConfig, tenant := freshTenant }]
        20000 5).1.accepted = false ∧
    (compositeSubmit [{ config := sampleConfigLow, tenant := freshTenant },
                      { config := sampleConfig, tenant := freshTenant }]
        20000 5).2[1]?
      ≠ some { config := sampleConfig, tenant := freshTenant } := by
  decide

/-- **C7** (amended). Serialize-then-restore with equal versions is a no-op,
and with a strictly lower target version it exactly reproduces the
serialized queue, total, overload flag and version **provided the
serialized queue is non-empty**; for an empty serialized queue the restore
fails on the empty segment token of the v1 format and leaves the target
with a cleared queue.  The unconditional reproduction stated by the
original claim is refuted by `claim_C7_counterexample`. -/
theorem claim_C7_serialize_restore (src target : TenantData) :
    (src.version = target.version →
      restoreSerializedStatus (serializeStatus src) target = (target, none)) ∧
    (target.version < src.version → src.windowQueue ≠ [] →
      restoreSerializedStatus (serializeStatus src) target
        = ({ windowQueue := src.windowQueue, wasOver := src.wasOver,
             windowTotal := src.windowTotal, version := src.version }, none)) ∧
    (target.version < src.version → src.windowQueue = [] →
      restoreSerializedStatus (serializeStatus src) target
        = ({ target with windowQueue := [] }, some .badSegment)) := by
  obtain ⟨h1, -, h3, h4⟩ := restoreSerializedStatus_serializeStatus src target
  exact ⟨h1, h3, h4⟩

theorem claim_C7_serialize_restore_witness :
    restoreSerializedStatus
        (serializeStatus
          { windowQueue := [{ startTime := 21000, value := 4 },
                            { startTime := 20000, value := 8 }], wasOver := true,
            windowTotal := 12, version := 3 })
        { windowQueue := [{ startTime := 2000, value := 7 }], wasOver := false,
          windowTotal := 7, version := 1 }
      = ({ windowQueue := [{ startTime := 21000, value := 4 },
                           { startTime := 20000, value := 8 }], wasOver := true,
           windowTotal := 12, version := 3 }, none) ∧
    restoreSerializedStatus
        (serializeStatus
          { windowQueue := [{ startTime := 21000, value := 4 },
                            { startTime := 20000, value := 8 }], wasOver := true,
            windowTotal := 12, version := 3 })
        { windowQueue := [{ startTime := 2000, value := 7 }], wasOver := false,
          windowTotal := 7, version := 3 }
      = ({ windowQueue := [{ startTime := 2000, value := 7 }], wasOver := false,
           windowTotal := 7, version := 3 }, none) := by
  constructor
  · exact (claim_C7_serialize_restore
      { windowQueue := [{ startTime := 21000, value := 4 },
                        { startTime := 20000, value := 8 }], wasOver := true,
        windowTotal := 12, version := 3 }
      { windowQueue := [{ startTime := 2000, value := 7 }], wasOver := false,
        windowTotal := 7, version := 1 }).2.1 (by decide) (by decide)
  · exact (claim_C7_serialize_restore
      { windowQueue := [{ startTime := 21000, value := 4 },
                        { startTime := 20000, value := 8 }], wasOver := true,
        windowTotal := 12, version := 3 }
      { windowQueue := [{ startTime := 2000, value := 7 }], wasOver := false,
        windowTotal := 7, version := 3 }).1 (by decide)

theorem claim_C7_counterexample :
    (({ windowQueue := [{ startTime := 2000, value := 7 }], wasOver := false,
        windowTotal := 7, version := 1 } : TenantData).version
      < ({ windowQueue := [], wasOver := false, windowTotal := 0,
           version := 2 } : TenantData).version) ∧
    restoreSerializedStatus
        (serializeStatus
          { windowQueue := [], wasOver := false, windowTotal := 0, version := 2 })
        { windowQueue := [{ startTime := 2000, value := 7 }], wasOver := false,
          windowTotal := 7, version := 1 }
      ≠ ({ windowQueue := [], wasOver := false, windowTotal := 0, version := 2 },
         none) := by
  obtain ⟨-, -, -, h4⟩ := restoreSerializedStatus_serializeStatus
    { windowQueue := [], wasOver := false, windowTotal := 0, version := 2 }
    { windowQueue := [{ startTime := 2000, value := 7 }], wasOver := false,
      windowTotal := 7, version := 1 }
  rw [h4 (by decide) rfl]
  exact ⟨by decide, by decide⟩

/-- **C2** (amended). The cached `window_total` equals the sum of the queued
segment values after every probe and submit, the statistics readout is
consistent with it, and a restore of a serialized well-formed state that
completes without error preserves it.  The unconditional statement over
restore is refuted by `claim_C2_counterexample`: a failing restore of an
empty-queue serialization completes with the target's queue cleared but its
cached total untouched. -/
theorem claim_C2_total_invariant (cfg : EffectiveConfig) (timestamp load : Nat)
    (tenant src target : TenantData)
    (hc : CfgWF cfg) (hts : cfg.windowSize + cfg.windowSegmentSize ≤ timestamp)
    (hwf : TenantWF cfg tenant) (hsrc : TenantWF cfg src)
    (htgt : TenantWF cfg target) :
    TenantWF cfg (probeOp cfg timestamp load tenant).2 ∧
    TenantWF cfg (submitOp cfg timestamp load tenant).2 ∧
    (statsOp tenant).windowTotal = (statsOp tenant).windowSegments.sum ∧
    ((restoreSerializedStatus (serializeStatus src) target).2 = none →
      TenantWF cfg (restoreSerializedStatus (serializeStatus src) target).1) := by
  have hr := reqWF_buildLoadRequest cfg timestamp load hc hts
  obtain ⟨hrot, -, -, -⟩ :=
    rotateWindow_spec cfg (buildLoadRequest cfg timestamp load) tenant hc hr hwf
  have hSdvd : cfg.windowSegmentSize ∣
      (buildLoadRequest cfg timestamp load).requestSegmentStartTime :=
    (reqWF_facts hc hr).1
  refine ⟨hrot.1, ?_, hwf.1, ?_⟩
  · by_cases h : (rotateWindow cfg (buildLoadRequest cfg timestamp load)
        tenant).windowTotal + load ≤ cfg.maxLoad
    · rw [submitOp_accepts cfg timestamp load tenant h]
      obtain ⟨-, -, ha3, ha4, ha5, -, -⟩ :=
        acceptLoad_spec cfg (buildLoadRequest cfg timestamp load) _ hrot hSdvd
      exact ⟨ha3, ha4, ha5⟩
    · rw [submitOp_rejects cfg timestamp load tenant h]
      obtain ⟨-, -, hj3, hj4, hj5, -, -, -⟩ :=
        rejectLoad_spec cfg (buildLoadRequest cfg timestamp load) _ hc hr hrot
      exact ⟨hj3, hj4, hj5⟩
  · intro hok
    obtain ⟨h1, h2, h3, h4⟩ := restoreSerializedStatus_serializeStatus src target
    rcases Nat.lt_trichotomy src.version target.version with hv | hv | hv
    · rw [h2 hv]
      exact htgt
    · rw [h1 hv]
      exact htgt
    · by_cases hq : src.windowQueue = []
      · rw [h4 hv hq] at hok
        exact absurd hok (by simp)
      · rw [h3 hv hq]
        exact ⟨hsrc.1, hsrc.2.1, hsrc.2.2⟩

theorem claim_C2_total_invariant_witness :
    TenantWF sampleConfig (probeOp sampleConfig 20000 5 freshTenant).2 ∧
    TenantWF sampleConfig (submitOp sampleConfig 20000 5 freshTenant).2 ∧
    (statsOp freshTenant).windowTotal = (statsOp freshTenant).windowSegments.sum := by
  have h := claim_C2_total_invariant sampleConfig 20000 5 freshTenant freshTenant
    freshTenant (by decide) (by decide) (by decide) (by decide) (by decide)
  exact ⟨h.1, h.2.1, h.2.2.1⟩

theorem claim_C2_counterexample :
    TenantWF sampleConfig
      { windowQueue := [{ startTime := 3000, value := 9 }], wasOver := false,
        windowTotal := 9, version := 1 } ∧
    TenantWF sampleConfig
      { windowQueue := [], wasOver := false, windowTotal := 0, version := 2 } ∧
    ¬ ((restoreSerializedStatus
          (serializeStatus
            { windowQueue := [], wasOver := false, windowTotal := 0, version := 2 })
          { windowQueue := [{ startTime := 3000, value := 9 }], wasOver := false,
            windowTotal := 9, version := 1 }).1.windowTotal
        = segSum (restoreSerializedStatus
            (serializeStatus
              { windowQueue := [], wasOver := false, windowTotal := 0,
                version := 2 })
            { windowQueue := [{ startTime := 3000, value := 9 }], wasOver := false,
              windowTotal := 9, version := 1 }).1.windowQueue) := by
  obtain ⟨-, -, -, h4⟩ := restoreSerializedStatus_serializeStatus
    { windowQueue := [], wasOver := false, windowTotal := 0, version := 2 }
    { windowQueue := [{ startTime := 3000, value := 9 }], wasOver := false,
      windowTotal := 9, version := 1 }
  refine ⟨by decide, by decide, ?_⟩
  rw [h4 (by decide) rfl]
  decide

end Goll
